import Mathlib

/-!
Verification of the rtsp-sdk RTSP/RTP streaming stack.

This file embeds, as executable Lean definitions, the parts of the C++
source relevant to the checked claims:

* the H.264/H.265 RTP packetizers (`src/rtsp-common/rtp_packer.cpp`),
* the client-side RTP depacketizer with its jitter buffer
  (`src/client/rtsp_client.cpp`, class `RtpReceiver`),
* RTSP response serialisation (`src/rtsp-common/rtsp_request.cpp`),
* session-id generation, digest-auth nonce-count handling and the
  per-method session checks of the server (`src/server/rtsp_server.cpp`).

Byte buffers are modelled as `List Nat` whose elements are below 256;
machine integers are natural numbers reduced modulo `2 ^ w` exactly where
the C++ code truncates.
-/

namespace RtspSdk

/-- Byte sequences (C++ `uint8_t*` buffers / `std::vector<uint8_t>`). -/
abbrev Bytes := List Nat

/-- `CodecType` from `include/rtsp-common/common.h`. -/
inductive Codec
  | h264
  | h265
deriving DecidableEq, Repr

/-- `FrameType` from `include/rtsp-common/common.h`. -/
inductive FType
  | idr
  | p
  | b
deriving DecidableEq, Repr

/-- `VideoFrame` from `include/rtsp-common/common.h` (the fields the
packetizer and depacketizer read). -/
structure VideoFrame where
  codec : Codec
  ftype : FType
  data : Bytes
  pts : Nat
  dts : Nat
  width : Nat
  height : Nat
  fps : Nat
deriving DecidableEq, Repr

/-- `convertToRtpTimestamp` from `include/rtsp-common/common.h`:
`(uint32_t)((pts_ms * clock_rate) / 1000)` in `uint64_t` arithmetic. -/
def convertToRtpTimestamp (ptsMs clockRate : Nat) : Nat :=
  (ptsMs * clockRate % 2 ^ 64 / 1000) % 2 ^ 32

/-- Start-code match at the head of a buffer: the body of the
`findStartCode` loop (`rtp_packer.cpp`) at one position.  The C++ loop
runs while `i + 3 < size`, so a three-byte `00 00 01` needs one byte of
lookahead and a four-byte `00 00 00 01` needs `i + 4 < size`; the
three-byte form is checked first. -/
def scAt : Bytes → Option Nat
  | 0 :: 0 :: 1 :: _ :: _ => some 3
  | 0 :: 0 :: 0 :: 1 :: _ :: _ => some 4
  | _ => none

/-- `findStartCode` from `rtp_packer.cpp`: index and length of the first
start code. -/
def findSC : Bytes → Option (Nat × Nat)
  | [] => none
  | b :: t =>
    match scAt (b :: t) with
    | some n => some (0, n)
    | none => (findSC t).map fun r => (r.1 + 1, r.2)

theorem scAt_bounds {s : Bytes} {n : Nat} (h : scAt s = some n) :
    3 ≤ n ∧ n < s.length := by
  unfold scAt at h
  split at h <;> simp_all <;> omega

theorem findSC_bounds {s : Bytes} {i n : Nat} (h : findSC s = some (i, n)) :
    3 ≤ n ∧ i + n < s.length := by
  induction s generalizing i n with
  | nil => simp [findSC] at h
  | cons b t ih =>
    rw [findSC] at h
    cases hsc : scAt (b :: t) with
    | some m =>
      rw [hsc] at h
      cases h
      have := scAt_bounds hsc
      simp only [List.length_cons] at *
      omega
    | none =>
      rw [hsc] at h
      cases hf : findSC t with
      | none => rw [hf] at h; simp at h
      | some r =>
        obtain ⟨j, m⟩ := r
        rw [hf] at h
        simp at h
        have := ih hf
        simp only [List.length_cons]
        omega

/-- `NaluUnit` from `include/rtsp-common/common.h`, with the final byte
range materialised (`data`/`size` become `bytes`).  The `type` field is
never read by the packetizers, so it is omitted. -/
structure NaluUnit where
  bytes : Bytes
  startCode : Bool
deriving DecidableEq, Repr

/-- The loop of `parseNalusInternal` from `rtp_packer.cpp`.  The source
keeps an absolute `offset` and a trailing NALU whose size is filled in
later; since `offset` always equals the start of that trailing NALU, the
loop is stated here on the suffix `s = data + offset` with a `pending`
flag for the open NALU.  Closing the pending NALU with
`start - (data + offset)` becomes `s.take i`, and the final
`size - offset` becomes `s` itself. -/
def parseNalusLoop (fuel : Nat) (s : Bytes) (pending : Bool)
    (acc : List NaluUnit) : List NaluUnit :=
  match fuel with
  | 0 => acc
  | fuel + 1 =>
    if 3 < s.length then
      match findSC s with
      | none =>
        if pending then acc ++ [⟨s, true⟩]
        else if acc = [] then acc ++ [⟨s, false⟩]
        else acc
      | some (i, scLen) =>
        let acc2 := if pending then acc ++ [⟨s.take i, true⟩] else acc
        parseNalusLoop fuel (s.drop (i + scLen)) true acc2
    else
      if pending then acc ++ [⟨s, true⟩] else acc

/-- `parseNalusInternal` from `rtp_packer.cpp` (shared by the H.264 and
H.265 packetizers through their `parseNalus` members).  Every loop
iteration advances the offset past a start code (at least 3 bytes), so a
fuel of `size + 1` covers every execution of the source loop. -/
def parseNalus (d : Bytes) : List NaluUnit :=
  parseNalusLoop (d.length + 1) d false []

/-- The start-code stripping repeated inside `packFrame`,
`packSingleNalu`, `packFuA` and `packFu`: drop a leading `00 00 01` when
`size > 3`, else a leading `00 00 00 01` when `size > 4`. -/
def stripSC (l : Bytes) : Bytes :=
  if 3 < l.length ∧ l.getD 0 0 = 0 ∧ l.getD 1 0 = 0 ∧ l.getD 2 0 = 1 then
    l.drop 3
  else if 4 < l.length ∧ l.getD 0 0 = 0 ∧ l.getD 1 0 = 0 ∧ l.getD 2 0 = 0 ∧
      l.getD 3 0 = 1 then
    l.drop 4
  else l

/-- Big-endian byte extraction: `(v >> shift) & 0xFF`. -/
def byteAt (v shift : Nat) : Nat := v / 2 ^ shift % 256

/-- The 12-byte RTP header written by `packSingleNalu` / `packFuA` /
`packFu`: `80 | PT | seq16 | ts32 | ssrc32`.  The marker flag is kept only
in the `RtpPacket` struct; the serialised byte 1 carries the payload type
alone. -/
def rtpHeader12 (pt seq ts ssrc : Nat) : Bytes :=
  [0x80, pt, byteAt seq 8, seq % 256, byteAt ts 24, byteAt ts 16,
   byteAt ts 8, ts % 256, byteAt ssrc 24, byteAt ssrc 16, byteAt ssrc 8,
   ssrc % 256]

/-- `RtpPacket` from `include/rtsp-common/common.h` with the heap buffer
materialised as `bytes`. -/
structure RtpPacket where
  bytes : Bytes
  seq : Nat
  timestamp : Nat
  ssrc : Nat
  marker : Bool
deriving DecidableEq, Repr

/-- Packetizer state: the fields of `RtpPacker` (base class in
`rtp_packer.h`) plus the per-codec `mtu_`.  Both constructors set
`ssrc_ = 0x12345678`, `seq_ = 0`, `payload_type_ = 96`,
`clock_rate_ = 90000`; `mtu_` defaults to 1400. -/
structure Packer where
  ssrc : Nat := 0x12345678
  seq : Nat := 0
  payloadType : Nat := 96
  clockRate : Nat := 90000
  mtu : Nat := 1400
deriving DecidableEq, Repr

/-- `getNextSeq`: postfix increment of the 16-bit sequence counter. -/
def getNextSeq (p : Packer) : Nat × Packer :=
  (p.seq, { p with seq := (p.seq + 1) % 65536 })

/-- `H264RtpPacker::packSingleNalu`. -/
def packSingleNaluH264 (p : Packer) (nalu : NaluUnit) (ts : Nat) :
    List RtpPacket × Packer :=
  let d := stripSC nalu.bytes
  if d = [] then ([], p)
  else
    let r := getNextSeq p
    ([{ bytes := rtpHeader12 p.payloadType r.1 ts p.ssrc ++ d, seq := r.1,
        timestamp := ts, ssrc := p.ssrc, marker := false }], r.2)

/-- The fragment loop shared by `packFuA` (its body, after the FU
indicator and header bytes are fixed).  `maxFrag` is `mtu_ - 2` computed
in `size_t` arithmetic (so `mtu_ < 2` wraps around); the loop emits
fragments of `min maxFrag remaining` bytes, marking the S bit on the
first and the E bit (and the packet marker flag) on the last.  A fuel of
`payload.length + 1` covers every terminating execution of the source
loop. -/
def fuaLoop (pt ssrc ts fuInd ntype maxFrag : Nat) (payload : Bytes)
    (first : Bool) (seq : Nat) : Nat → List RtpPacket × Nat
  | 0 => ([], seq)
  | fuel + 1 =>
    if payload = [] then ([], seq)
    else
      let frag := min maxFrag payload.length
      let isLast := payload.length ≤ frag
      let fuHeader := ntype + (if first then 128 else 0) +
        (if isLast then 64 else 0)
      let pkt : RtpPacket :=
        { bytes := rtpHeader12 pt seq ts ssrc ++ [fuInd, fuHeader] ++
            payload.take frag,
          seq := seq, timestamp := ts, ssrc := ssrc, marker := isLast }
      let r := fuaLoop pt ssrc ts fuInd ntype maxFrag (payload.drop frag)
        false ((seq + 1) % 65536) fuel
      (pkt :: r.1, r.2)

/-- `H264RtpPacker::packFuA`: FU indicator `(nri << 5) | 28`, FU header
`S/E | nal_type`, fragments of `mtu_ - 2` bytes. -/
def packFuAH264 (p : Packer) (nalu : NaluUnit) (ts : Nat) :
    List RtpPacket × Packer :=
  let d := stripSC nalu.bytes
  if d.length ≤ 1 then ([], p)
  else
    let header := d.getD 0 0
    let ntype := header % 32
    let nri := header / 32 % 4
    let payload := d.tail
    let maxFrag := (p.mtu + 2 ^ 64 - 2) % 2 ^ 64
    let r := fuaLoop p.payloadType p.ssrc ts (nri * 32 + 28) ntype maxFrag
      payload true p.seq (payload.length + 1)
    (r.1, { p with seq := r.2 })

/-- Force the marker flag on the final packet
(`packets.back().marker = true` at the end of `packFrame`). -/
def setLastMarker : List RtpPacket → List RtpPacket
  | [] => []
  | [x] => [{ x with marker := true }]
  | x :: y :: rest => x :: setLastMarker (y :: rest)

/-- The per-NALU loop of `H264RtpPacker::packFrame`: skip empty NALUs,
strip the start code, then single-NALU pack or FU-A fragment by MTU. -/
def packNalusH264 (p : Packer) (ts : Nat) :
    List NaluUnit → List RtpPacket × Packer
  | [] => ([], p)
  | n :: rest =>
    let d := stripSC n.bytes
    let r1 :=
      if n.bytes.length = 0 then ([], p)
      else if d = [] then ([], p)
      else if d.length ≤ p.mtu then packSingleNaluH264 p n ts
      else packFuAH264 p n ts
    let r2 := packNalusH264 r1.2 ts rest
    (r1.1 ++ r2.1, r2.2)

/-- `H264RtpPacker::packFrame`. -/
def h264PackFrame (p : Packer) (f : VideoFrame) : List RtpPacket × Packer :=
  let ts := convertToRtpTimestamp f.pts p.clockRate
  let r := packNalusH264 p ts (parseNalus f.data)
  (setLastMarker r.1, r.2)

/-- `H265RtpPacker::packSingleNalu`. -/
def packSingleNaluH265 (p : Packer) (nalu : NaluUnit) (ts : Nat) :
    List RtpPacket × Packer :=
  let d := stripSC nalu.bytes
  if d.length < 2 then ([], p)
  else
    let r := getNextSeq p
    ([{ bytes := rtpHeader12 p.payloadType r.1 ts p.ssrc ++ d, seq := r.1,
        timestamp := ts, ssrc := p.ssrc, marker := false }], r.2)

/-- Fragment loop of `H265RtpPacker::packFu`: three payload-header bytes
(`49 << 1 | layer-high-bit`, `layer-low | tid`, `S/E | nal_type`) and
fragments of `mtu_ - 3` bytes. -/
def fuLoopH265 (pt ssrc ts b12 b13 ntype maxFrag : Nat) (payload : Bytes)
    (first : Bool) (seq : Nat) : Nat → List RtpPacket × Nat
  | 0 => ([], seq)
  | fuel + 1 =>
    if payload = [] then ([], seq)
    else
      let frag := min maxFrag payload.length
      let isLast := payload.length ≤ frag
      let b14 := ntype + (if first then 128 else 0) +
        (if isLast then 64 else 0)
      let pkt : RtpPacket :=
        { bytes := rtpHeader12 pt seq ts ssrc ++ [b12, b13, b14] ++
            payload.take frag,
          seq := seq, timestamp := ts, ssrc := ssrc, marker := isLast }
      let r := fuLoopH265 pt ssrc ts b12 b13 ntype maxFrag
        (payload.drop frag) false ((seq + 1) % 65536) fuel
      (pkt :: r.1, r.2)

/-- `H265RtpPacker::packFu`. -/
def packFuH265 (p : Packer) (nalu : NaluUnit) (ts : Nat) :
    List RtpPacket × Packer :=
  let d := stripSC nalu.bytes
  if d.length ≤ 2 then ([], p)
  else
    let b0 := d.getD 0 0
    let b1 := d.getD 1 0
    let ntype := b0 / 2 % 64
    let layer := b0 % 2 * 32 + b1 / 8 % 32
    let tid := b1 % 8
    let payload := d.drop 2
    let maxFrag := (p.mtu + 2 ^ 64 - 3) % 2 ^ 64
    let b12 := 98 + layer / 32 % 2
    let b13 := layer % 32 * 8 + tid
    let r := fuLoopH265 p.payloadType p.ssrc ts b12 b13 ntype maxFrag
      payload true p.seq (payload.length + 1)
    (r.1, { p with seq := r.2 })

/-- The per-NALU loop of `H265RtpPacker::packFrame`: skip empty NALUs,
strip the start code, skip NALUs shorter than 2 bytes, then single or FU
by MTU. -/
def packNalusH265 (p : Packer) (ts : Nat) :
    List NaluUnit → List RtpPacket × Packer
  | [] => ([], p)
  | n :: rest =>
    let d := stripSC n.bytes
    let r1 :=
      if n.bytes.length = 0 then ([], p)
      else if d.length < 2 then ([], p)
      else if d.length ≤ p.mtu then packSingleNaluH265 p n ts
      else packFuH265 p n ts
    let r2 := packNalusH265 r1.2 ts rest
    (r1.1 ++ r2.1, r2.2)

/-- `H265RtpPacker::packFrame`. -/
def h265PackFrame (p : Packer) (f : VideoFrame) : List RtpPacket × Packer :=
  let ts := convertToRtpTimestamp f.pts p.clockRate
  let r := packNalusH265 p ts (parseNalus f.data)
  (setLastMarker r.1, r.2)

/-! ## Client-side RTP depacketizer (`RtpReceiver` in `rtsp_client.cpp`)

The receiver state is split into the frame-assembly fields (everything
`processRtpPacket` and below touch) and the jitter-buffer fields
(touched only by `ingestRtpPacket`); in the C++ source all of them are
members of the single class `RtpReceiver`. -/

/-- Frame-assembly state of `RtpReceiver`, plus the list of frames handed
to the callback (`emitted`, in call order). -/
structure FrameAsm where
  codec : Codec := .h264
  payloadType : Nat := 96
  width : Nat := 1920
  height : Nat := 1080
  fps : Nat := 30
  frameBuffer : Bytes := []
  frameTs : Nat := 0
  frameInProgress : Bool := false
  frameIsIdr : Bool := false
  seqInitialized : Bool := false
  lastSeq : Nat := 0
  h265FuInProgress : Bool := false
  h265FuDropMode : Bool := false
  h265FuStartOffset : Nat := 0
  packetLossEvents : Nat := 0
  framesOutput : Nat := 0
  emitted : List VideoFrame := []
deriving DecidableEq, Repr

/-- `RtpReceiver::isH265Irap`. -/
def isH265Irap (t : Nat) : Bool := 16 ≤ t ∧ t ≤ 21

/-- `RtpReceiver::appendAnnexBNalu`: 4-byte start code plus the NALU. -/
def appendAnnexB (st : FrameAsm) (nalu : Bytes) : FrameAsm :=
  if nalu = [] then st
  else { st with frameBuffer := st.frameBuffer ++ [0, 0, 0, 1] ++ nalu }

/-- `RtpReceiver::clearCurrentFrameState`. -/
def clearCurrentFrame (st : FrameAsm) : FrameAsm :=
  { st with frameBuffer := [], frameIsIdr := false, frameInProgress := false }

/-- `RtpReceiver::emitFrame`: package the accumulated Annex-B buffer as a
`VideoFrame` (PTS = ts/90, frame type IDR iff the flag is set) and hand it
to the callback; a no-op when the buffer is empty. -/
def emitFrame (st : FrameAsm) (ts : Nat) : FrameAsm :=
  if st.frameBuffer = [] then st
  else
    let fr : VideoFrame :=
      { codec := st.codec, ftype := if st.frameIsIdr then .idr else .p,
        data := st.frameBuffer, pts := ts / 90, dts := ts / 90,
        width := st.width, height := st.height, fps := st.fps }
    { st with
      emitted := st.emitted ++ [fr]
      framesOutput := st.framesOutput + 1
      frameBuffer := []
      frameIsIdr := false
      frameInProgress := false }

/-- The STAP-A / STAP-B / AP expansion loop of
`RtpReceiver::processVideoPayload`: repeatedly read a 16-bit size and a
NALU; stop on a zero size or a size overrunning the payload.  `h265`
selects the inner NAL-type extraction and the IDR test. -/
def stapLoop (h265 : Bool) (fuel : Nat) (st : FrameAsm) :
    Bytes → FrameAsm
  | a :: b :: rest =>
    match fuel with
    | 0 => st
    | fuel + 1 =>
      let size := a * 256 + b
      if size = 0 ∨ rest.length < size then st
      else
        let inner := rest.headD 0
        let innerType := if h265 then inner / 2 % 64 else inner % 32
        let st := appendAnnexB st (rest.take size)
        let st := if (if h265 then isH265Irap innerType else innerType == 5)
          then { st with frameIsIdr := true } else st
        stapLoop h265 fuel st (rest.drop size)
  | _ => st

/-- The codec-specific payload decoding in
`RtpReceiver::processVideoPayload` (everything between the
timestamp-change handling and the marker handling).  Returns the new
state and whether the C++ code returned early, skipping the marker
check. -/
def payloadBody (st : FrameAsm) (data : Bytes) (isH264 : Bool) :
    FrameAsm × Bool :=
  if isH264 then
    let d0 := data.headD 0
    let nt := d0 % 32
    if 1 ≤ nt ∧ nt ≤ 23 then
      let st := appendAnnexB st data
      (if nt = 5 then { st with frameIsIdr := true } else st, false)
    else if nt = 24 then
      (stapLoop false (data.length + 1) st data.tail, false)
    else if nt = 25 then
      if data.length < 3 then (st, true)
      else (stapLoop false (data.length + 1) st (data.drop 3), false)
    else if nt = 28 ∧ 2 ≤ data.length then
      let fu := data.getD 1 0
      let start := fu / 128 % 2 = 1
      let rec0 := d0 / 32 % 8 * 32 + fu % 32
      let st :=
        if start then
          let st := { st with
            frameBuffer := st.frameBuffer ++ [0, 0, 0, 1] ++ [rec0] }
          if rec0 % 32 = 5 then { st with frameIsIdr := true } else st
        else st
      let st :=
        if 2 < data.length then
          { st with frameBuffer := st.frameBuffer ++ data.drop 2 }
        else st
      (st, false)
    else (st, false)
  else
    if data.length < 2 then (st, true)
    else
      let d0 := data.headD 0
      let nt := d0 / 2 % 64
      if nt ≠ 49 ∧ nt ≠ 48 ∧ nt ≠ 50 then
        let st := appendAnnexB st data
        (if isH265Irap nt then { st with frameIsIdr := true } else st, false)
      else if nt = 48 then
        (stapLoop true (data.length + 1) st (data.drop 2), false)
      else if nt = 49 ∧ 3 ≤ data.length then
        let d1 := data.getD 1 0
        let fu := data.getD 2 0
        let start := fu / 128 % 2 = 1
        let fin := fu / 64 % 2 = 1
        let origType := fu % 64
        let orig0 := d0 / 128 % 2 * 128 + d0 % 2 + origType * 2
        let orig1 := d1
        if start then
          let st := { st with
            h265FuDropMode := false
            h265FuInProgress := true
            h265FuStartOffset := st.frameBuffer.length
            frameBuffer := st.frameBuffer ++ [0, 0, 0, 1] ++ [orig0, orig1] }
          let st := if isH265Irap origType
            then { st with frameIsIdr := true } else st
          let st :=
            if 3 < data.length ∧ ¬st.h265FuDropMode then
              { st with frameBuffer := st.frameBuffer ++ data.drop 3 }
            else st
          let st := if fin ∧ st.h265FuInProgress
            then { st with h265FuInProgress := false } else st
          (st, false)
        else if st.h265FuDropMode ∨ ¬st.h265FuInProgress then (st, true)
        else
          let st :=
            if 3 < data.length ∧ ¬st.h265FuDropMode then
              { st with frameBuffer := st.frameBuffer ++ data.drop 3 }
            else st
          let st := if fin ∧ st.h265FuInProgress
            then { st with h265FuInProgress := false } else st
          (st, false)
      else (st, false)

/-- `RtpReceiver::processVideoPayload`. -/
def processVideoPayload (st : FrameAsm) (data : Bytes) (ts : Nat)
    (marker : Bool) (pt : Nat) : FrameAsm :=
  if data.length = 0 then st
  else
    let st :=
      if ¬st.frameInProgress then
        { st with frameTs := ts, frameInProgress := true }
      else if ts ≠ st.frameTs then
        let st2 :=
          if st.codec = .h265 ∧ st.h265FuDropMode then
            { (clearCurrentFrame st) with
              h265FuDropMode := false
              h265FuInProgress := false }
          else emitFrame st st.frameTs
        { st2 with frameTs := ts, frameInProgress := true }
      else st
    let isH264 := pt = st.payloadType ∧ st.codec = .h264
    let r := payloadBody st data isH264
    if r.2 then r.1
    else if marker then
      let st := r.1
      if st.codec = .h265 ∧ st.h265FuDropMode then
        { (clearCurrentFrame st) with
          h265FuDropMode := false
          h265FuInProgress := false }
      else emitFrame st ts
    else r.1

/-- The sequence-gap detection at the top of
`RtpReceiver::processRtpPacket`: on a gap during an H.265 FU, count a
loss, enter drop mode and rewind the frame buffer; then record this
sequence number. -/
def lossCheck (st : FrameAsm) (seq : Nat) : FrameAsm :=
  let st2 :=
    if st.seqInitialized ∧ seq ≠ (st.lastSeq + 1) % 65536 then
      if st.codec = .h265 ∧ st.h265FuInProgress then
        { st with
          packetLossEvents := st.packetLossEvents + 1
          h265FuDropMode := true
          h265FuInProgress := false
          frameBuffer :=
            if st.h265FuStartOffset ≤ st.frameBuffer.length then
              st.frameBuffer.take st.h265FuStartOffset
            else [] }
      else st
    else st
  { st2 with seqInitialized := true, lastSeq := seq }

/-- The CSRC/extension part of the RTP header parse in
`RtpReceiver::processRtpPacket`: the header length, or `none` when a
bound check fails and the packet is dropped. -/
def rtpHeaderLen (d : Bytes) : Option Nat :=
  let b0 := d.getD 0 0
  let cc := b0 % 16
  let extension := b0 / 16 % 2 = 1
  let hl := 12 + cc * 4
  if d.length < hl then none
  else if extension then
    if d.length < hl + 4 then none
    else
      let extWords := d.getD (hl + 2) 0 * 256 + d.getD (hl + 3) 0
      let extLen := 4 + extWords * 4
      if d.length < hl + extLen then none else some (hl + extLen)
  else some hl

/-- The padding part of the RTP header parse: the payload length, or
`none` when the padding count is invalid. -/
def rtpPayloadLen (d : Bytes) (hl : Nat) : Option Nat :=
  let padding := d.getD 0 0 / 32 % 2 = 1
  let payloadLen := d.length - hl
  if padding then
    if payloadLen = 0 then none
    else
      let pad := d.getD (d.length - 1) 0
      if pad = 0 ∨ payloadLen < pad then none
      else some (payloadLen - pad)
  else some payloadLen

/-- `RtpReceiver::processRtpPacket`: parse the RTP header (version, CSRC,
extension, padding), run the H.265 FU loss detection, and feed the payload
to `processVideoPayload`.  Note the loss-detection state updates happen
before the header-length validation, exactly as in the source. -/
def processRtpPacket (st : FrameAsm) (d : Bytes) : FrameAsm :=
  if d.length < 12 then st
  else if d.getD 0 0 / 64 % 4 ≠ 2 then st
  else
    let st2 := lossCheck st (d.getD 2 0 * 256 + d.getD 3 0)
    match rtpHeaderLen d with
    | none => st2
    | some hl =>
      match rtpPayloadLen d hl with
      | none => st2
      | some pl =>
        if pl = 0 then st2
        else
          processVideoPayload st2 ((d.drop hl).take pl)
            (d.getD 4 0 * 2 ^ 24 + d.getD 5 0 * 2 ^ 16 +
              d.getD 6 0 * 2 ^ 8 + d.getD 7 0)
            (d.getD 1 0 / 128 % 2 = 1) (d.getD 1 0 % 128)

/-- Jitter-buffer level state of `RtpReceiver`.  `reorderBuffer` models
`std::map<uint16_t, std::vector<uint8_t>>`: an association list sorted by
key with unique keys. -/
structure Receiver where
  asm : FrameAsm := {}
  jitterBufferPackets : Nat := 32
  reorderBuffer : List (Nat × Bytes) := []
  reorderInitialized : Bool := false
  expectedSeq : Nat := 0
  packetsReceived : Nat := 0
  packetsReordered : Nat := 0
deriving DecidableEq, Repr

/-- `std::map::operator[]` followed by assignment: sorted insert,
replacing an existing binding. -/
def mapInsert : List (Nat × Bytes) → Nat → Bytes → List (Nat × Bytes)
  | [], k, v => [(k, v)]
  | (k2, v2) :: t, k, v =>
    if k < k2 then (k, v) :: (k2, v2) :: t
    else if k = k2 then (k, v) :: t
    else (k2, v2) :: mapInsert t k v

/-- `std::map::find`. -/
def mapFind : List (Nat × Bytes) → Nat → Option Bytes
  | [], _ => none
  | (k2, v2) :: t, k => if k = k2 then some v2 else mapFind t k

/-- `std::map::erase` of the entry found for a key. -/
def mapErase : List (Nat × Bytes) → Nat → List (Nat × Bytes)
  | [], _ => []
  | (k2, v2) :: t, k => if k = k2 then t else (k2, v2) :: mapErase t k

/-- The contiguous drain loop of `RtpReceiver::ingestRtpPacket`: while
the expected sequence is buffered, process it, erase it and advance
`expected_seq_` (16-bit wrap).  Each iteration removes one entry, so a
fuel equal to the buffer size covers every execution of the C++ loop. -/
def drainLoop (st : Receiver) : Nat → Receiver
  | 0 => st
  | fuel + 1 =>
    match mapFind st.reorderBuffer st.expectedSeq with
    | none => st
    | some bytes =>
      let st2 := { st with
        asm := processRtpPacket st.asm bytes
        reorderBuffer := mapErase st.reorderBuffer st.expectedSeq
        expectedSeq := (st.expectedSeq + 1) % 65536 }
      drainLoop st2 fuel

/-- The statistics / initialisation / insertion prefix of
`RtpReceiver::ingestRtpPacket` (everything before the drain loops). -/
def ingestPre (st : Receiver) (d : Bytes) : Receiver :=
  let seq := d.getD 2 0 * 256 + d.getD 3 0
  let st1 := { st with packetsReceived := st.packetsReceived + 1 }
  let st2 :=
    if ¬st1.reorderInitialized then
      { st1 with expectedSeq := seq, reorderInitialized := true }
    else st1
  let st3 :=
    if seq ≠ st2.expectedSeq then
      { st2 with packetsReordered := st2.packetsReordered + 1 }
    else st2
  { st3 with reorderBuffer := mapInsert st3.reorderBuffer seq d }

/-- The forced drain at the end of `RtpReceiver::ingestRtpPacket`: when
the buffer exceeds `jitter_buffer_packets_`, restart `expected_seq_` at
the lowest buffered sequence (`begin()` of the sorted map) and drain
contiguously from there. -/
def forcedDrain (st : Receiver) : Receiver :=
  if st.jitterBufferPackets < st.reorderBuffer.length then
    drainLoop { st with expectedSeq := (st.reorderBuffer.headD (0, [])).1 }
      st.reorderBuffer.length
  else st

/-- `RtpReceiver::ingestRtpPacket`.  `none` models a null `data`
pointer. -/
def ingestRtpPacket (st : Receiver) (pkt : Option Bytes) : Receiver :=
  match pkt with
  | none => st
  | some d =>
    if d.length < 12 then st
    else
      let st1 := ingestPre st d
      forcedDrain (drainLoop st1 st1.reorderBuffer.length)

/-- Feed a list of datagrams into the receiver in order. -/
def feed (st : Receiver) (pkts : List Bytes) : Receiver :=
  pkts.foldl (fun s d => ingestRtpPacket s (some d)) st

/-- A freshly initialised depacketizer after `setVideoInfo` chose the
codec (all other members keep their in-class initialisers). -/
def freshReceiver (c : Codec) : Receiver := { asm := { codec := c } }

/-- The RTP wire form of a packet whose marker flag is `marker`: byte 1
carries the marker bit above the 7-bit payload type (RFC 3550).  The C++
packetizer leaves the marker out of the serialised bytes and keeps it
only in the `RtpPacket::marker` field; this function writes it into the
byte stream. -/
def wireBytes (p : RtpPacket) : Bytes :=
  match p.bytes with
  | b0 :: b1 :: rest => b0 :: (b1 % 128 + if p.marker then 128 else 0) :: rest
  | l => l

/-! ## Jitter-buffer size lemmas -/

theorem length_mapInsert_le (l : List (Nat × Bytes)) (k : Nat) (v : Bytes) :
    (mapInsert l k v).length ≤ l.length + 1 := by
  induction l with
  | nil => simp [mapInsert]
  | cons hd t ih =>
    obtain ⟨k2, v2⟩ := hd
    rw [mapInsert]
    split_ifs <;> simp only [List.length_cons] <;> omega

theorem length_mapErase_of_find {l : List (Nat × Bytes)} {k : Nat}
    {v : Bytes} (h : mapFind l k = some v) :
    (mapErase l k).length + 1 = l.length := by
  induction l with
  | nil => simp [mapFind] at h
  | cons hd t ih =>
    obtain ⟨k2, v2⟩ := hd
    rw [mapFind] at h
    rw [mapErase]
    by_cases hk : k = k2
    · simp [hk]
    · simp only [if_neg hk] at h ⊢
      simp only [List.length_cons]
      have := ih h
      omega

theorem mapFind_headD {l : List (Nat × Bytes)} (h : l ≠ []) :
    mapFind l (l.headD (0, [])).1 = some (l.headD (0, [])).2 := by
  match l with
  | (k, v) :: t => simp [mapFind]

theorem drainLoop_buffer_le (fuel : Nat) (st : Receiver) :
    (drainLoop st fuel).reorderBuffer.length ≤ st.reorderBuffer.length := by
  induction fuel generalizing st with
  | zero => simp [drainLoop]
  | succ n ih =>
    rw [drainLoop]
    cases hf : mapFind st.reorderBuffer st.expectedSeq with
    | none => simp
    | some v =>
      simp only
      refine le_trans (ih _) ?_
      simp only
      have := length_mapErase_of_find hf
      omega

theorem drainLoop_jitter_eq (fuel : Nat) (st : Receiver) :
    (drainLoop st fuel).jitterBufferPackets = st.jitterBufferPackets := by
  induction fuel generalizing st with
  | zero => simp [drainLoop]
  | succ n ih =>
    rw [drainLoop]
    cases hf : mapFind st.reorderBuffer st.expectedSeq with
    | none => simp
    | some v => simpa using ih _

theorem ingestPre_jitter_eq (st : Receiver) (d : Bytes) :
    (ingestPre st d).jitterBufferPackets = st.jitterBufferPackets := by
  simp only [ingestPre]
  split_ifs <;> rfl

theorem ingestPre_buffer_le (st : Receiver) (d : Bytes) :
    (ingestPre st d).reorderBuffer.length ≤ st.reorderBuffer.length + 1 := by
  simp only [ingestPre]
  split_ifs <;> exact length_mapInsert_le _ _ _

theorem forcedDrain_jitter_eq (st : Receiver) :
    (forcedDrain st).jitterBufferPackets = st.jitterBufferPackets := by
  unfold forcedDrain
  split_ifs
  · simp [drainLoop_jitter_eq]
  · rfl

theorem ingest_jitter_eq (st : Receiver) (pkt : Option Bytes) :
    (ingestRtpPacket st pkt).jitterBufferPackets = st.jitterBufferPackets := by
  cases pkt with
  | none => rfl
  | some d =>
    rw [ingestRtpPacket]
    split_ifs
    · rfl
    · simp [forcedDrain_jitter_eq, drainLoop_jitter_eq, ingestPre_jitter_eq]

theorem drainLoop_head_lt {st : Receiver} (n : Nat)
    (hne : st.reorderBuffer ≠ [])
    (hexp : st.expectedSeq = (st.reorderBuffer.headD (0, [])).1) :
    (drainLoop st (n + 1)).reorderBuffer.length + 1 ≤
      st.reorderBuffer.length := by
  rw [drainLoop, hexp, mapFind_headD hne]
  simp only
  refine le_trans (Nat.add_le_add_right (drainLoop_buffer_le _ _) 1) ?_
  simp only
  have := length_mapErase_of_find (mapFind_headD hne)
  omega

theorem forcedDrain_bound {st : Receiver}
    (h : st.reorderBuffer.length ≤ st.jitterBufferPackets + 1) :
    (forcedDrain st).reorderBuffer.length ≤ st.jitterBufferPackets := by
  unfold forcedDrain
  split_ifs with hgt
  · have hne : st.reorderBuffer ≠ [] := by
      intro he
      rw [he] at hgt
      simp at hgt
    obtain ⟨m, hm⟩ : ∃ m, st.reorderBuffer.length = m + 1 :=
      ⟨st.reorderBuffer.length - 1, by
        cases hl : st.reorderBuffer with
        | nil => exact absurd hl hne
        | cons a t => simp⟩
    rw [hm]
    have := @drainLoop_head_lt { st with
      expectedSeq := (st.reorderBuffer.headD (0, [])).1 } m (by simpa) rfl
    simp only at this
    omega
  · omega

/-- C5: every call of `RtpReceiver::ingestRtpPacket` leaves at most
`jitter_buffer_packets_` entries in the reorder buffer: inserting the
packet can push the buffer to `jitter_buffer_packets_ + 1` entries, and
the forced drain (which restarts `expected_seq_` at the lowest buffered
sequence number) then removes at least the lowest entry.  The in-class
initialiser of `jitter_buffer_packets_` is 32. -/
theorem claim_C5_jitter_buffer_bounded (st : Receiver) (pkt : Option Bytes)
    (h : st.reorderBuffer.length ≤ st.jitterBufferPackets) :
    (ingestRtpPacket st pkt).reorderBuffer.length ≤ st.jitterBufferPackets ∧
      (ingestRtpPacket st pkt).jitterBufferPackets =
        st.jitterBufferPackets ∧
      (freshReceiver .h264).jitterBufferPackets = 32 := by
  refine ⟨?_, ingest_jitter_eq st pkt, rfl⟩
  cases pkt with
  | none => exact h
  | some d =>
    rw [ingestRtpPacket]
    split_ifs
    · exact h
    · have h1 : (ingestPre st d).reorderBuffer.length ≤
          st.jitterBufferPackets + 1 :=
        le_trans (ingestPre_buffer_le st d) (by omega)
      have h2 : (drainLoop (ingestPre st d)
          (ingestPre st d).reorderBuffer.length).reorderBuffer.length ≤
          st.jitterBufferPackets + 1 :=
        le_trans (drainLoop_buffer_le _ _) h1
      have h3 := @forcedDrain_bound (drainLoop (ingestPre st d)
        (ingestPre st d).reorderBuffer.length)
        (by rw [drainLoop_jitter_eq, ingestPre_jitter_eq]; exact h2)
      rw [drainLoop_jitter_eq, ingestPre_jitter_eq] at h3
      exact h3

/-- Witness for C5 at a concrete state and packet. -/
theorem claim_C5_jitter_buffer_bounded_witness :
    (freshReceiver .h264).reorderBuffer.length ≤
        (freshReceiver .h264).jitterBufferPackets ∧
      (ingestRtpPacket (freshReceiver .h264)
          (some [0x80, 96, 0, 5, 0, 0, 0, 0, 0, 0, 0, 0])).reorderBuffer.length ≤
        (freshReceiver .h264).jitterBufferPackets :=
  ⟨by decide,
   (claim_C5_jitter_buffer_bounded (freshReceiver .h264)
      (some [0x80, 96, 0, 5, 0, 0, 0, 0, 0, 0, 0, 0]) (by decide)).1⟩

/-- C10: frames shorter than 4 bytes produce no RTP packets, for both
the H.264 and the H.265 packetizer: the `parseNalusInternal` loop never
runs (its guard is `offset + 3 < size`), so no NALU is found. -/
theorem claim_C10_short_frame_no_packets (p : Packer) (f : VideoFrame)
    (h : f.data.length < 4) :
    (h264PackFrame p f).1 = [] ∧ (h265PackFrame p f).1 = [] := by
  have hp : parseNalus f.data = [] := by
    rw [parseNalus, parseNalusLoop, if_neg (show ¬3 < f.data.length by omega)]
    rfl
  exact ⟨by simp [h264PackFrame, hp, packNalusH264, setLastMarker],
    by simp [h265PackFrame, hp, packNalusH265, setLastMarker]⟩

/-- Witness for C10 on a 3-byte frame. -/
theorem claim_C10_short_frame_no_packets_witness :
    (h264PackFrame {} (⟨.h264, .idr, [0, 0, 1], 0, 0, 0, 0, 0⟩ :
        VideoFrame)).1 = [] ∧
      (h265PackFrame {} (⟨.h264, .idr, [0, 0, 1], 0, 0, 0, 0, 0⟩ :
        VideoFrame)).1 = [] :=
  claim_C10_short_frame_no_packets {} _ (by decide)

/-- C6: ingesting into a fresh H.264 depacketizer one RTP packet with
PT 96, sequence 1, timestamp 9000, the marker bit set, and a STAP-A
payload wrapping NALUs `41 01 02` and `65 88 84 21` emits exactly one
IDR H.264 frame whose Annex-B data is
`00 00 00 01 41 01 02 00 00 00 01 65 88 84 21` (and PTS 9000/90). -/
theorem claim_C6_stapA_single_packet :
    (feed (freshReceiver .h264)
        [[0x80, 0xE0, 0x00, 0x01, 0x00, 0x00, 0x23, 0x28, 0, 0, 0, 0,
          0x78, 0x00, 0x03, 0x41, 0x01, 0x02, 0x00, 0x04,
          0x65, 0x88, 0x84, 0x21]]).asm.emitted =
      [{ codec := .h264, ftype := .idr,
         data := [0, 0, 0, 1, 0x41, 0x01, 0x02, 0, 0, 0, 1,
           0x65, 0x88, 0x84, 0x21],
         pts := 100, dts := 100, width := 1920, height := 1080,
         fps := 30 }] := by
  decide

/-- C9: `RtpReceiver::ingestRtpPacket` returns immediately on a null
data pointer or a length below 12, leaving the whole receiver state
(reorder buffer, expected sequence, frame accumulator and every
statistics counter) unchanged. -/
theorem claim_C9_short_ingest_no_effect (st : Receiver) (pkt : Option Bytes)
    (h : ∀ d, pkt = some d → d.length < 12) :
    ingestRtpPacket st pkt = st := by
  cases pkt with
  | none => rfl
  | some d =>
    rw [ingestRtpPacket]
    rw [if_pos (h d rfl)]

/-- Witness for C9 on an 11-byte datagram. -/
theorem claim_C9_short_ingest_no_effect_witness :
    ingestRtpPacket (freshReceiver .h264)
      (some [0x80, 96, 0, 1, 0, 0, 0, 0, 0, 0, 0]) = freshReceiver .h264 :=
  claim_C9_short_ingest_no_effect (freshReceiver .h264)
    (some [0x80, 96, 0, 1, 0, 0, 0, 0, 0, 0, 0])
    (by intro d hd; cases hd; decide)

/-! ## Marker-bit placement (claim C2) -/

/-- A packet whose payload is an H.264 FU-A fragment with the E bit set
(byte 12 is the FU indicator with type 28, byte 13 the FU header). -/
def isFuaEndPacket (q : RtpPacket) : Prop :=
  q.bytes.getD 12 0 % 32 = 28 ∧ q.bytes.getD 13 0 / 64 % 2 = 1

/-- A packet whose payload is an H.265 FU fragment with the E bit set
(bytes 12–13 are the payload header with type 49, byte 14 the FU
header). -/
def isFuEndPacketH265 (q : RtpPacket) : Prop :=
  q.bytes.getD 12 0 / 2 % 64 = 49 ∧ q.bytes.getD 14 0 / 64 % 2 = 1

theorem setLastMarker_eq : ∀ (l : List RtpPacket) (h : l ≠ []),
    setLastMarker l = l.dropLast ++ [{ l.getLast h with marker := true }]
  | [x], _ => rfl
  | x :: y :: rest, _ => by
    show x :: setLastMarker (y :: rest) = _
    rw [setLastMarker_eq (y :: rest) (by simp), List.dropLast_cons₂,
      List.cons_append]
    simp [List.getLast_cons]

theorem setLastMarker_getLast (l : List RtpPacket)
    (h : setLastMarker l ≠ []) : ((setLastMarker l).getLast h).marker = true := by
  match l with
  | [] => exact absurd rfl h
  | x :: t =>
    have he := setLastMarker_eq (x :: t) (by simp)
    simp only [he] at h ⊢
    rw [List.getLast_concat]

theorem setLastMarker_dropLast (l : List RtpPacket) :
    (setLastMarker l).dropLast = l.dropLast := by
  match l with
  | [] => rfl
  | x :: t =>
    rw [setLastMarker_eq (x :: t) (by simp), List.dropLast_concat]

theorem fuaLoop_marker_shape {pt ssrc ts fuInd ntype maxFrag : Nat}
    {payload : Bytes} {seq fuel : Nat} {q : RtpPacket} :
    ∀ {first : Bool},
    q ∈ (fuaLoop pt ssrc ts fuInd ntype maxFrag payload first seq fuel).1 →
    q.marker = true →
    ∃ (fr : Bool) (sq : Nat) (frag : Bytes),
      q.bytes = rtpHeader12 pt sq ts ssrc ++
        [fuInd, ntype + (if fr then 128 else 0) + 64] ++ frag := by
  induction fuel generalizing payload seq with
  | zero => intro first hq; simp [fuaLoop] at hq
  | succ n ih =>
    intro first hq hm
    rw [fuaLoop] at hq
    by_cases hp : payload = []
    · rw [if_pos hp] at hq; simp at hq
    · rw [if_neg hp] at hq
      simp only [List.mem_cons] at hq
      cases hq with
      | inl he =>
        subst he
        simp only [decide_eq_true_eq] at hm
        refine ⟨first, seq, payload.take (min maxFrag payload.length), ?_⟩
        rw [if_pos hm]
      | inr hmem => exact ih hmem hm

theorem packFuAH264_marker {p : Packer} {nalu : NaluUnit} {ts : Nat}
    {q : RtpPacket} (hq : q ∈ (packFuAH264 p nalu ts).1)
    (hm : q.marker = true) : isFuaEndPacket q := by
  rw [packFuAH264] at hq
  split_ifs at hq with hlen
  · simp at hq
  · obtain ⟨fr, sq, frag, hb⟩ := fuaLoop_marker_shape hq hm
    have hnt : (stripSC nalu.bytes).getD 0 0 % 32 < 32 :=
      Nat.mod_lt _ (by omega)
    constructor
    · rw [hb]
      simp [rtpHeader12, List.getD_append_right, List.getD]
      omega
    · rw [hb]
      simp [rtpHeader12, List.getD_append_right, List.getD]
      rcases fr with _ | _ <;> simp <;> omega

theorem fuLoopH265_marker_shape {pt ssrc ts b12 b13 ntype maxFrag : Nat}
    {payload : Bytes} {seq fuel : Nat} {q : RtpPacket} :
    ∀ {first : Bool},
    q ∈ (fuLoopH265 pt ssrc ts b12 b13 ntype maxFrag payload first seq
      fuel).1 →
    q.marker = true →
    ∃ (fr : Bool) (sq : Nat) (frag : Bytes),
      q.bytes = rtpHeader12 pt sq ts ssrc ++
        [b12, b13, ntype + (if fr then 128 else 0) + 64] ++ frag := by
  induction fuel generalizing payload seq with
  | zero => intro first hq; simp [fuLoopH265] at hq
  | succ n ih =>
    intro first hq hm
    rw [fuLoopH265] at hq
    by_cases hp : payload = []
    · rw [if_pos hp] at hq; simp at hq
    · rw [if_neg hp] at hq
      simp only [List.mem_cons] at hq
      cases hq with
      | inl he =>
        subst he
        simp only [decide_eq_true_eq] at hm
        refine ⟨first, seq, payload.take (min maxFrag payload.length), ?_⟩
        rw [if_pos hm]
      | inr hmem => exact ih hmem hm

theorem packFuH265_marker {p : Packer} {nalu : NaluUnit} {ts : Nat}
    {q : RtpPacket} (hq : q ∈ (packFuH265 p nalu ts).1)
    (hm : q.marker = true) : isFuEndPacketH265 q := by
  rw [packFuH265] at hq
  split_ifs at hq with hlen
  · simp at hq
  · obtain ⟨fr, sq, frag, hb⟩ := fuLoopH265_marker_shape hq hm
    have hnt : (stripSC nalu.bytes).getD 0 0 / 2 % 64 < 64 :=
      Nat.mod_lt _ (by omega)
    constructor
    · rw [hb]
      simp [rtpHeader12, List.getD_append_right, List.getD]
      omega
    · rw [hb]
      simp [rtpHeader12, List.getD_append_right, List.getD]
      rcases fr with _ | _ <;> simp <;> omega

theorem packNalusH264_marker {ts : Nat} {q : RtpPacket} :
    ∀ {ns : List NaluUnit} {p : Packer},
    q ∈ (packNalusH264 p ts ns).1 → q.marker = true → isFuaEndPacket q := by
  intro ns
  induction ns with
  | nil => intro p hq; simp [packNalusH264] at hq
  | cons n rest ih =>
    intro p hq hm
    rw [packNalusH264] at hq
    simp only [List.mem_append] at hq
    cases hq with
    | inr hmem => exact ih hmem hm
    | inl hmem =>
      split_ifs at hmem with h1 h2 h3
      · simp at hmem
      · simp at hmem
      · rw [packSingleNaluH264, if_neg h2] at hmem
        simp only [List.mem_singleton] at hmem
        rw [hmem] at hm
        simp at hm
      · exact packFuAH264_marker hmem hm

theorem packNalusH265_marker {ts : Nat} {q : RtpPacket} :
    ∀ {ns : List NaluUnit} {p : Packer},
    q ∈ (packNalusH265 p ts ns).1 → q.marker = true →
      isFuEndPacketH265 q := by
  intro ns
  induction ns with
  | nil => intro p hq; simp [packNalusH265] at hq
  | cons n rest ih =>
    intro p hq hm
    rw [packNalusH265] at hq
    simp only [List.mem_append] at hq
    cases hq with
    | inr hmem => exact ih hmem hm
    | inl hmem =>
      split_ifs at hmem with h1 h2 h3
      · simp at hmem
      · simp at hmem
      · rw [packSingleNaluH265, if_neg h2] at hmem
        simp only [List.mem_singleton] at hmem
        rw [hmem] at hm
        simp at hm
      · exact packFuH265_marker hmem hm

/-- C2 (counterexample): with MTU 5, a frame holding a 7-byte NALU
followed by a 2-byte NALU yields three packets whose marker flags are
`[false, true, true]` — the middle packet (the final FU-A fragment of
the first NALU) carries the marker although it is not the last packet of
the frame, so "no other packet has marker=1" fails. -/
theorem claim_C2_counterexample :
    ((h264PackFrame { mtu := 5 }
        (⟨.h264, .idr, [0, 0, 0, 1, 0x65, 1, 2, 3, 4, 5, 6,
          0, 0, 0, 1, 0x41, 9], 0, 0, 0, 0, 0⟩ : VideoFrame)).1.map
      RtpPacket.marker) = [false, true, true] := by
  decide

/-- C2 (amended): for every frame and packer state (H.264 and H.265),
the last produced packet always has marker=1; any other packet with
marker=1 is the final fragment (E bit set) of a fragmented NALU that is
not the frame's last NALU; in particular every non-last packet that is
not such an FU end has marker=0. -/
theorem claim_C2_marker_last_and_fu_ends (p : Packer) (f : VideoFrame) :
    (∀ h : (h264PackFrame p f).1 ≠ [],
      ((h264PackFrame p f).1.getLast h).marker = true) ∧
    (∀ q ∈ (h264PackFrame p f).1.dropLast, q.marker = true →
      isFuaEndPacket q) ∧
    (∀ h : (h265PackFrame p f).1 ≠ [],
      ((h265PackFrame p f).1.getLast h).marker = true) ∧
    (∀ q ∈ (h265PackFrame p f).1.dropLast, q.marker = true →
      isFuEndPacketH265 q) := by
  refine ⟨fun h => setLastMarker_getLast _ h, fun q hq hm => ?_,
    fun h => setLastMarker_getLast _ h, fun q hq hm => ?_⟩
  · rw [h264PackFrame] at hq
    simp only at hq
    rw [setLastMarker_dropLast] at hq
    exact packNalusH264_marker (List.dropLast_subset _ hq) hm
  · rw [h265PackFrame] at hq
    simp only at hq
    rw [setLastMarker_dropLast] at hq
    exact packNalusH265_marker (List.dropLast_subset _ hq) hm

/-- Witness for C2 (amended) at the counterexample frame: the last of
the three packets carries the marker, and the marked middle packet is an
FU-A end fragment. -/
theorem claim_C2_marker_last_and_fu_ends_witness :
    ((h264PackFrame { mtu := 5 }
        (⟨.h264, .idr, [0, 0, 0, 1, 0x65, 1, 2, 3, 4, 5, 6,
          0, 0, 0, 1, 0x41, 9], 0, 0, 0, 0, 0⟩ : VideoFrame)).1.getLast
      (by decide)).marker = true :=
  (claim_C2_marker_last_and_fu_ends { mtu := 5 }
    (⟨.h264, .idr, [0, 0, 0, 1, 0x65, 1, 2, 3, 4, 5, 6,
      0, 0, 0, 1, 0x41, 9], 0, 0, 0, 0, 0⟩ : VideoFrame)).1 (by decide)

/-! ## RTSP response serialisation (`RtspResponse` in `rtsp_request.cpp`)

`headers_` is a `std::map<std::string, std::string>`, i.e. an ordered map
sorted by byte-wise lexicographic comparison of the header names; it is
modelled as a sorted association list. -/

/-- Byte-wise lexicographic `std::string` comparison (`operator<`),
acting on the character codes (header names are ASCII, where character
codes coincide with the C++ bytes). -/
def strLtB : List Char → List Char → Bool
  | [], [] => false
  | [], _ :: _ => true
  | _ :: _, [] => false
  | a :: s, b :: t =>
    if a.toNat < b.toNat then true
    else if b.toNat < a.toNat then false
    else strLtB s t

/-- `operator<` on `std::string`. -/
def strLt (a b : String) : Bool := strLtB a.data b.data

theorem strLtB_total : ∀ (s t : List Char), strLtB s t = false → s ≠ t →
    strLtB t s = true
  | [], [], _, hne => absurd rfl hne
  | [], _ :: _, h, _ => by simp [strLtB] at h
  | _ :: _, [], _, _ => rfl
  | a :: s, b :: t, h, hne => by
    rw [strLtB] at h
    rw [strLtB]
    by_cases h1 : a.toNat < b.toNat
    · rw [if_pos h1] at h
      exact absurd h (by simp)
    · rw [if_neg h1] at h
      by_cases h2 : b.toNat < a.toNat
      · rw [if_pos h2]
      · rw [if_neg h2] at h
        have hab : a = b := by
          have hn : a.toNat = b.toNat := by omega
          cases a
          cases b
          simp only [Char.toNat] at hn
          congr 1
          exact UInt32.toNat.inj hn
        subst hab
        rw [if_neg h1, if_neg h1]
        exact strLtB_total s t h fun he => hne (by rw [he])

theorem strLt_total {a b : String} (h : strLt a b = false) (hne : a ≠ b) :
    strLt b a = true := by
  refine strLtB_total a.data b.data h fun he => hne ?_
  cases a
  cases b
  exact congrArg String.mk he

/-- `std::map<std::string, std::string>::operator[]` assignment: sorted
insert replacing an existing binding. -/
def hdrInsert : List (String × String) → String → String →
    List (String × String)
  | [], k, v => [(k, v)]
  | (k2, v2) :: t, k, v =>
    if strLt k k2 then (k, v) :: (k2, v2) :: t
    else if k = k2 then (k, v) :: t
    else (k2, v2) :: hdrInsert t k v

/-- `RtspResponse` (fields of `rtsp_request.h`); both constructors set
`status_code_ = 200`, `status_reason_ = "OK"`. -/
structure RtspResponse where
  cseq : Int := 0
  statusCode : Int := 200
  statusReason : String := "OK"
  headers : List (String × String) := []
  body : String := ""
deriving DecidableEq, Repr

/-- `RtspResponse::setHeader` (no case folding on the response side). -/
def respSetHeader (r : RtspResponse) (name value : String) : RtspResponse :=
  { r with headers := hdrInsert r.headers name value }

/-- A sequence of `setHeader` calls, in call order. -/
def respSetHeaders (r : RtspResponse) (sets : List (String × String)) :
    RtspResponse :=
  sets.foldl (fun r s => respSetHeader r s.1 s.2) r

/-- `RtspResponse::build`: status line, `CSeq`, the headers in the order
of the `std::map` iteration, then `Content-Length` exactly when the body
is nonempty, a blank line, and the body. -/
def respBuild (r : RtspResponse) : String :=
  "RTSP/1.0 " ++ toString r.statusCode ++ " " ++ r.statusReason ++
    "\r\n" ++ "CSeq: " ++ toString r.cseq ++ "\r\n" ++
    String.join (r.headers.map fun h => h.1 ++ ": " ++ h.2 ++ "\r\n") ++
    (if r.body ≠ "" then
      "Content-Length: " ++ toString r.body.length ++ "\r\n"
    else "") ++
    "\r\n" ++ r.body

theorem respSetHeader_headers (r : RtspResponse) (n v : String) :
    (respSetHeader r n v).headers = hdrInsert r.headers n v := rfl

theorem hdrInsert_head_cases (t : List (String × String)) (k v : String) :
    (hdrInsert t k v).head? = some (k, v) ∨
      (hdrInsert t k v).head? = t.head? := by
  match t with
  | [] => left; rfl
  | (k3, v3) :: t3 =>
    rw [hdrInsert]
    split_ifs <;> simp

theorem hdrInsert_chain {l : List (String × String)} (k v : String)
    (hs : List.Chain' (fun a b => strLt a.1 b.1 = true) l) :
    List.Chain' (fun a b : String × String => strLt a.1 b.1 = true)
      (hdrInsert l k v) := by
  induction l with
  | nil => simp [hdrInsert]
  | cons hd t ih =>
    obtain ⟨k2, v2⟩ := hd
    rw [List.chain'_cons'] at hs
    rw [hdrInsert]
    split_ifs with h1 h2
    · refine List.chain'_cons'.mpr ⟨?_, List.chain'_cons'.mpr hs⟩
      intro y hy
      simp at hy
      subst hy
      exact h1
    · subst h2
      exact List.chain'_cons'.mpr ⟨hs.1, hs.2⟩
    · refine List.chain'_cons'.mpr ⟨?_, ih hs.2⟩
      intro y hy
      have hlt : strLt k2 k = true :=
        strLt_total (by simpa using h1) h2
      rcases hdrInsert_head_cases t k v with hc | hc
      · rw [hc] at hy
        simp at hy
        subst hy
        exact hlt
      · rw [hc] at hy
        exact hs.1 y hy

theorem hdrInsert_keys {l : List (String × String)} {k k2 v2 : String} :
    (∃ v, (k, v) ∈ hdrInsert l k2 v2) ↔ k = k2 ∨ ∃ v, (k, v) ∈ l := by
  induction l with
  | nil => simp [hdrInsert]
  | cons hd t ih =>
    obtain ⟨k3, v3⟩ := hd
    rw [hdrInsert]
    split_ifs with h1 h2
    · constructor
      · rintro ⟨v, hv⟩
        rcases List.mem_cons.mp hv with h | h
        · exact Or.inl (congrArg Prod.fst h)
        · exact Or.inr ⟨v, h⟩
      · rintro (h | ⟨v, hv⟩)
        · exact ⟨v2, by rw [h]; exact List.mem_cons_self _ _⟩
        · exact ⟨v, List.mem_cons_of_mem _ hv⟩
    · subst h2
      constructor
      · rintro ⟨v, hv⟩
        rcases List.mem_cons.mp hv with h | h
        · exact Or.inl (congrArg Prod.fst h)
        · exact Or.inr ⟨v, List.mem_cons_of_mem _ h⟩
      · rintro (h | ⟨v, hv⟩)
        · exact ⟨v2, by rw [h]; exact List.mem_cons_self _ _⟩
        · rcases List.mem_cons.mp hv with h | h
          · exact ⟨v2, by
              cases h
              exact List.mem_cons_self _ _⟩
          · exact ⟨v, List.mem_cons_of_mem _ h⟩
    · constructor
      · rintro ⟨v, hv⟩
        rcases List.mem_cons.mp hv with h | h
        · exact Or.inr ⟨v, by rw [h]; exact List.mem_cons_self _ _⟩
        · rcases ih.mp ⟨v, h⟩ with h | ⟨v4, hv4⟩
          · exact Or.inl h
          · exact Or.inr ⟨v4, List.mem_cons_of_mem _ hv4⟩
      · rintro (h | ⟨v, hv⟩)
        · obtain ⟨v4, hv4⟩ := ih.mpr (Or.inl h)
          exact ⟨v4, List.mem_cons_of_mem _ hv4⟩
        · rcases List.mem_cons.mp hv with h | h
          · exact ⟨v, by rw [h]; exact List.mem_cons_self _ _⟩
          · obtain ⟨v4, hv4⟩ := ih.mpr (Or.inr ⟨v, h⟩)
            exact ⟨v4, List.mem_cons_of_mem _ hv4⟩

theorem respSetHeaders_chain (r : RtspResponse)
    (sets : List (String × String))
    (hs : List.Chain' (fun a b : String × String => strLt a.1 b.1 = true)
      r.headers) :
    List.Chain' (fun a b : String × String => strLt a.1 b.1 = true)
      (respSetHeaders r sets).headers := by
  induction sets generalizing r with
  | nil => exact hs
  | cons s rest ih => exact ih _ (hdrInsert_chain s.1 s.2 hs)

theorem respSetHeaders_keys (r : RtspResponse)
    (sets : List (String × String)) (k : String) :
    (∃ v, (k, v) ∈ (respSetHeaders r sets).headers) ↔
      (∃ v, (k, v) ∈ sets) ∨ ∃ v, (k, v) ∈ r.headers := by
  induction sets generalizing r with
  | nil => simp [respSetHeaders]
  | cons s rest ih =>
    obtain ⟨k2, v2⟩ := s
    have hstep : respSetHeaders r ((k2, v2) :: rest) =
        respSetHeaders (respSetHeader r k2 v2) rest := rfl
    rw [hstep, ih]
    rw [respSetHeader_headers, hdrInsert_keys]
    constructor
    · rintro (⟨v, hv⟩ | h | hv)
      · exact Or.inl ⟨v, List.mem_cons_of_mem _ hv⟩
      · exact Or.inl ⟨v2, by rw [h]; exact List.mem_cons_self _ _⟩
      · exact Or.inr hv
    · rintro (⟨v, hv⟩ | hv)
      · rcases List.mem_cons.mp hv with h | h
        · exact Or.inr (Or.inl (congrArg Prod.fst h))
        · exact Or.inl ⟨v, h⟩
      · exact Or.inr (Or.inr hv)

theorem respSetHeaders_fields (r : RtspResponse)
    (sets : List (String × String)) :
    (respSetHeaders r sets).cseq = r.cseq ∧
      (respSetHeaders r sets).statusCode = r.statusCode ∧
      (respSetHeaders r sets).statusReason = r.statusReason ∧
      (respSetHeaders r sets).body = r.body := by
  induction sets generalizing r with
  | nil => exact ⟨rfl, rfl, rfl, rfl⟩
  | cons s rest ih => exact ih _

/-- C7 (counterexample): setting `Session` before `Public` on a fresh
response does not keep insertion order in `build` — the `std::map`
iterates in lexicographic name order, so `Public` is emitted first. -/
theorem claim_C7_counterexample :
    respBuild (respSetHeader (respSetHeader { cseq := 2 } "Session" "abc")
        "Public" "OPTIONS") ≠
      "RTSP/1.0 200 OK\r\nCSeq: 2\r\nSession: abc\r\nPublic: OPTIONS\r\n\r\n" ∧
    respBuild (respSetHeader (respSetHeader { cseq := 2 } "Session" "abc")
        "Public" "OPTIONS") =
      "RTSP/1.0 200 OK\r\nCSeq: 2\r\nPublic: OPTIONS\r\nSession: abc\r\n\r\n" := by
  constructor
  · decide
  · decide

/-- A fresh response carrying a given status line, CSeq and body. -/
def respInit (code cseq : Int) (reason body : String) : RtspResponse :=
  { statusCode := code
    statusReason := reason
    cseq := cseq
    body := body }

/-- C7 (amended): after any sequence of `setHeader` calls on a fresh
response, `build` emits the status line `RTSP/1.0 <code> <reason>`, then
`CSeq: <n>`, then the remaining headers in strictly ascending
lexicographic order of header name (the `std::map` iteration order, not
insertion order) — one entry per distinct name set — and appends
`Content-Length` exactly when a body is present. -/
theorem claim_C7_build_sorted_headers (code cseq : Int)
    (reason body : String) (sets : List (String × String)) :
    List.Chain' (fun a b : String × String => strLt a.1 b.1 = true)
      (respSetHeaders (respInit code cseq reason body) sets).headers ∧
    (∀ k : String,
      (∃ v, (k, v) ∈
        (respSetHeaders (respInit code cseq reason body) sets).headers) ↔
      ∃ v, (k, v) ∈ sets) ∧
    respBuild (respSetHeaders (respInit code cseq reason body) sets) =
      "RTSP/1.0 " ++ toString code ++ " " ++ reason ++ "\r\n" ++
        "CSeq: " ++ toString cseq ++ "\r\n" ++
        String.join ((respSetHeaders (respInit code cseq reason body)
          sets).headers.map fun h => h.1 ++ ": " ++ h.2 ++ "\r\n") ++
        (if body ≠ "" then
          "Content-Length: " ++ toString body.length ++ "\r\n"
        else "") ++
        "\r\n" ++ body := by
  refine ⟨respSetHeaders_chain _ _ (by simp [respInit]), fun k => ?_, ?_⟩
  · rw [respSetHeaders_keys]
    simp [respInit]
  · obtain ⟨h1, h2, h3, h4⟩ :=
      respSetHeaders_fields (respInit code cseq reason body) sets
    rw [respBuild, h1, h2, h3, h4]
    rfl

/-! ## Session-id generation (`generateSessionId` in `rtsp_server.cpp`)

`ss << std::hex << (ts & 0xFFFFFFFF) << val` renders the truncated
steady-clock nanosecond count and the 32-bit call counter in lowercase
hex with no separator and no padding. -/

/-- Hex digits of `n` (base-16, most significant first), accumulated
from the low end; the fuel dominates the digit count for `fuel ≥ n`. -/
def hexDigitsAux (fuel : Nat) (n : Nat) (acc : List Nat) : List Nat :=
  match fuel with
  | 0 => acc
  | fuel + 1 => if n = 0 then acc else hexDigitsAux fuel (n / 16) (n % 16 :: acc)

/-- Base-16 digit list of `n` as printed by `std::hex` (so `0` is
`[0]`). -/
def hexDigits (n : Nat) : List Nat :=
  if n = 0 then [0] else hexDigitsAux (n + 1) n []

/-- The characters `std::hex` prints for `n` (lowercase digits). -/
def hexChars (n : Nat) : List Char :=
  (hexDigits n).map Nat.digitChar

/-- `generateSessionId`: the contents of the generated `std::string`,
as a function of the injected clock reading `ts` (nanoseconds) and the
value `val` read from the global 32-bit counter by this call. -/
def sessionIdChars (ts val : Nat) : List Char :=
  hexChars (ts % 2 ^ 32) ++ hexChars (val % 2 ^ 32)

/-- One server lifetime: call `i` of `generateSessionId` reads
`counter = i` and the clock value `ts[i]`. -/
def sessionIds (ts : List Nat) : List (List Char) :=
  (List.range ts.length).map fun i => sessionIdChars (ts.getD i 0) i

/-- Evaluation map of a big-endian base-16 digit list. -/
def fromHex (l : List Nat) : Nat :=
  l.foldl (fun a d => a * 16 + d) 0

theorem fromHex_foldl (a : Nat) (l : List Nat) :
    l.foldl (fun a d => a * 16 + d) a = a * 16 ^ l.length + fromHex l := by
  induction l generalizing a with
  | nil => simp [fromHex]
  | cons d t ih =>
    have h2 : fromHex (d :: t) = d * 16 ^ t.length + fromHex t := by
      rw [fromHex, List.foldl_cons, ih]
      norm_num
    rw [List.foldl_cons, ih (a * 16 + d), h2, List.length_cons, pow_succ]
    ring

theorem fromHex_hexDigitsAux (fuel : Nat) :
    ∀ (n : Nat) (acc : List Nat), n ≤ fuel →
    fromHex (hexDigitsAux fuel n acc) =
      n * 16 ^ acc.length + fromHex acc := by
  induction fuel with
  | zero => intro n acc h; interval_cases n; simp [hexDigitsAux]
  | succ m ih =>
    intro n acc h
    rw [hexDigitsAux]
    by_cases hn : n = 0
    · simp [hn]
    · rw [if_neg hn, ih (n / 16) (n % 16 :: acc) (by omega)]
      have h1 : fromHex (n % 16 :: acc) = n % 16 * 16 ^ acc.length +
          fromHex acc := by
        rw [fromHex, List.foldl_cons,
          show (0 : Nat) * 16 + n % 16 = n % 16 from by omega,
          fromHex_foldl]
      have h2 : n / 16 * (16 ^ acc.length * 16) +
          (n % 16 * 16 ^ acc.length + fromHex acc) =
          (16 * (n / 16) + n % 16) * 16 ^ acc.length + fromHex acc := by
        ring
      rw [h1, List.length_cons, pow_succ, h2, Nat.div_add_mod]

theorem fromHex_hexDigits (n : Nat) : fromHex (hexDigits n) = n := by
  rw [hexDigits]
  by_cases hn : n = 0
  · simp [hn, fromHex]
  · rw [if_neg hn, fromHex_hexDigitsAux (n + 1) n [] (by omega)]
    simp [fromHex]

theorem hexDigitsAux_lt16 (fuel : Nat) :
    ∀ (n : Nat) (acc : List Nat), (∀ d ∈ acc, d < 16) →
    ∀ d ∈ hexDigitsAux fuel n acc, d < 16 := by
  induction fuel with
  | zero => intro n acc h; exact h
  | succ m ih =>
    intro n acc h
    rw [hexDigitsAux]
    split_ifs with hn
    · exact h
    · refine ih (n / 16) (n % 16 :: acc) ?_
      intro d hd
      rcases List.mem_cons.mp hd with h2 | h2
      · rw [h2]; exact Nat.mod_lt _ (by omega)
      · exact h d h2

theorem hexDigits_lt16 (n : Nat) : ∀ d ∈ hexDigits n, d < 16 := by
  rw [hexDigits]
  split_ifs with hn
  · simp
  · exact hexDigitsAux_lt16 (n + 1) n [] (by simp)

theorem digitChar_inj {a b : Nat} (ha : a < 16) (hb : b < 16)
    (h : Nat.digitChar a = Nat.digitChar b) : a = b := by
  interval_cases a <;> interval_cases b <;> simp_all [Nat.digitChar]

theorem map_digitChar_inj : ∀ {l1 l2 : List Nat}, (∀ d ∈ l1, d < 16) →
    (∀ d ∈ l2, d < 16) → l1.map Nat.digitChar = l2.map Nat.digitChar →
    l1 = l2
  | [], [], _, _, _ => rfl
  | [], _ :: _, _, _, h => by simp at h
  | _ :: _, [], _, _, h => by simp at h
  | a :: s, b :: t, h1, h2, h => by
    simp only [List.map_cons, List.cons.injEq] at h
    rw [digitChar_inj (h1 a (by simp)) (h2 b (by simp)) h.1,
      map_digitChar_inj (fun d hd => h1 d (by simp [hd]))
        (fun d hd => h2 d (by simp [hd])) h.2]

theorem hexChars_inj {m n : Nat} (h : hexChars m = hexChars n) : m = n := by
  have := map_digitChar_inj (hexDigits_lt16 m) (hexDigits_lt16 n) h
  rw [← fromHex_hexDigits m, ← fromHex_hexDigits n, this]

/-- Executable monotonicity check for a list of clock readings. -/
def monoB : List Nat → Bool
  | a :: b :: t => a ≤ b && monoB (b :: t)
  | _ => true

/-- C8 (counterexample): one server lifetime with a monotone clock in
which two generated session ids collide as strings.  Call 3 happens at
truncated timestamp `0x12` and yields hex `"12" ++ "3" = "123"`; call 35
happens 2^32 ns later at raw timestamp `0x100000001` (truncated `0x1`)
and yields `"1" ++ "23" = "123"`. -/
theorem claim_C8_counterexample :
    monoB (List.replicate 35 0x12 ++ [0x100000001]) = true ∧
    (sessionIds (List.replicate 35 0x12 ++ [0x100000001])).getD 3 [] =
      (sessionIds (List.replicate 35 0x12 ++ [0x100000001])).getD 35 [] ∧
    (3 : Nat) ≠ 35 := by
  refine ⟨by decide, ?_, by decide⟩
  decide

/-- C8 (amended): two generated session ids are distinct whenever the
hex renderings of their truncated timestamps have equal length (in
particular whenever the truncated timestamps are equal) and the counter
values differ modulo 2^32; with different-length timestamp renderings
the concatenation can be ambiguous and ids can collide. -/
theorem claim_C8_same_ts_len_distinct (ts1 ts2 v1 v2 : Nat)
    (hv : v1 % 2 ^ 32 ≠ v2 % 2 ^ 32)
    (hlen : (hexChars (ts1 % 2 ^ 32)).length =
      (hexChars (ts2 % 2 ^ 32)).length) :
    sessionIdChars ts1 v1 ≠ sessionIdChars ts2 v2 := by
  intro he
  rw [sessionIdChars, sessionIdChars] at he
  obtain ⟨h1, h2⟩ := List.append_inj he hlen
  exact hv (hexChars_inj h2)

/-- Witness for C8 (amended): equal clock readings, counters 0 and 1. -/
theorem claim_C8_same_ts_len_distinct_witness :
    sessionIdChars 5 0 ≠ sessionIdChars 5 1 :=
  claim_C8_same_ts_len_distinct 5 5 0 1 (by decide) (by decide)

/-! ## Per-method session checks (`RtspConnection` in `rtsp_server.cpp`)

Each handler is modelled by the status code of the response it sends, as
a function of the connection's current session (`session_`, `none` when
no SETUP succeeded) and the request's `Session` header
(`RtspRequest::getSession` returns `""` when the header is absent). -/

/-- `RtspConnection::handlePlay` response status. -/
def handlePlayStatus (sess : Option String) (hdr : String) : Nat :=
  match sess with
  | none => 455
  | some sid => if hdr ≠ sid then 454 else 200

/-- `RtspConnection::handlePause` response status: the request (and so
its `Session` header) is ignored. -/
def handlePauseStatus (sess : Option String) (hdr : String) : Nat :=
  match sess with
  | none => 455
  | some _ => 200

/-- `RtspConnection::handleTeardown` response status: always 200, the
request is ignored. -/
def handleTeardownStatus (sess : Option String) (hdr : String) : Nat :=
  200

/-- `RtspConnection::handleGetParameter` response status. -/
def handleGetParameterStatus (sess : Option String) (hdr : String) : Nat :=
  match sess with
  | none => 454
  | some sid => if hdr ≠ "" ∧ hdr ≠ sid then 454 else 200

/-- `RtspConnection::handleSetParameter` response status (same logic as
GET_PARAMETER). -/
def handleSetParameterStatus (sess : Option String) (hdr : String) : Nat :=
  match sess with
  | none => 454
  | some sid => if hdr ≠ "" ∧ hdr ≠ sid then 454 else 200

/-- C3 (counterexample): a PAUSE with a mismatched `Session` header on a
connection holding session `"abc"` is answered 200, not 454; likewise
TEARDOWN, and GET_PARAMETER answers 200 when the header is missing. -/
theorem claim_C3_counterexample :
    handlePauseStatus (some "abc") "wrong" = 200 ∧
    handleTeardownStatus (some "abc") "wrong" = 200 ∧
    handleGetParameterStatus (some "abc") "" = 200 := by
  refine ⟨rfl, rfl, ?_⟩
  decide

/-- C3 (amended): on a connection with a session, only PLAY answers 454
for a mismatched or missing `Session` header; GET_PARAMETER and
SET_PARAMETER answer 454 only when the header is present and mismatched
(a missing header passes with 200); PAUSE and TEARDOWN ignore the
`Session` header entirely and answer 200. -/
theorem claim_C3_session_checks (sid hdr : String) (hne : hdr ≠ sid) :
    handlePlayStatus (some sid) hdr = 454 ∧
    handleGetParameterStatus (some sid) hdr =
      (if hdr = "" then 200 else 454) ∧
    handleSetParameterStatus (some sid) hdr =
      (if hdr = "" then 200 else 454) ∧
    handlePauseStatus (some sid) hdr = 200 ∧
    handleTeardownStatus (some sid) hdr = 200 := by
  refine ⟨?_, ?_, ?_, rfl, rfl⟩
  · rw [handlePlayStatus, if_pos hne]
  · rw [handleGetParameterStatus]
    by_cases h : hdr = ""
    · rw [if_pos h, if_neg (by simp [h])]
    · rw [if_neg h, if_pos ⟨h, hne⟩]
  · rw [handleSetParameterStatus]
    by_cases h : hdr = ""
    · rw [if_pos h, if_neg (by simp [h])]
    · rw [if_neg h, if_pos ⟨h, hne⟩]

/-- Witness for C3 (amended) at session `"abc"`, header `"xyz"`. -/
theorem claim_C3_session_checks_witness :
    handlePlayStatus (some "abc") "xyz" = 454 ∧
      handlePauseStatus (some "abc") "xyz" = 200 :=
  ⟨(claim_C3_session_checks "abc" "xyz" (by decide)).1,
   (claim_C3_session_checks "abc" "xyz" (by decide)).2.2.2.1⟩

/-! ## Digest nonce-count handling
(`RtspConnection::checkAuthorization`, digest branch, `rtsp_server.cpp`)

The MD5 primitive and `std::stoull(nc, nullptr, 16)` are injected
out-of-scope primitives; a `none` from `hexVal` models the exception
thrown for an unparsable `nc`.  The embedding covers the digest branch
for a request whose `Authorization: Digest` header parsed into the given
parameters, when the nonce TTL has not expired (expiry rotates the nonce,
clears the table and rejects with `stale=true` before this code runs). -/

/-- Server auth configuration (the fields the digest check reads). -/
structure AuthConfig where
  username : String
  realm : String
  password : String
deriving DecidableEq, Repr

/-- Per-connection digest replay state: the current nonce and
`digest_nc_seen_`, the (username|cnonce|nonce) → highest-seen-nc map
(a `std::unordered_map`, modelled as an association list). -/
structure DigestState where
  nonce : String
  ncSeen : List (String × Nat)
deriving DecidableEq, Repr

/-- Parsed `Authorization: Digest` parameters (absent parameters are
empty strings, as `parseAuthParams` yields). -/
structure DigestParams where
  username : String
  realm : String
  nonce : String
  uri : String
  response : String
  qop : String
  nc : String
  cnonce : String
deriving DecidableEq, Repr

/-- `std::unordered_map::find` on the nc-seen map. -/
def ncFind : List (String × Nat) → String → Option Nat
  | [], _ => none
  | (k2, v2) :: t, k => if k = k2 then some v2 else ncFind t k

/-- `digest_nc_seen_[key] = value`. -/
def ncStore : List (String × Nat) → String → Nat → List (String × Nat)
  | [], k, v => [(k, v)]
  | (k2, v2) :: t, k, v =>
    if k = k2 then (k2, v) :: t else (k2, v2) :: ncStore t k v

/-- The nc-key built by the source: `username|cnonce|nonce`. -/
def ncKey (pa : DigestParams) : String :=
  pa.username ++ "|" ++ pa.cnonce ++ "|" ++ pa.nonce

/-- The digest branch of `RtspConnection::checkAuthorization`: returns
whether the request is accepted together with the updated replay
state. -/
def checkDigest (md5 : String → String) (hexVal : String → Option Nat)
    (cfg : AuthConfig) (st : DigestState) (method : String)
    (pa : DigestParams) : Bool × DigestState :=
  if pa.username = "" ∨ pa.realm = "" ∨ pa.nonce = "" ∨ pa.uri = "" ∨
      pa.response = "" then (false, st)
  else if pa.username ≠ cfg.username ∨ pa.realm ≠ cfg.realm ∨
      pa.nonce ≠ st.nonce then (false, st)
  else
    let ha1 := md5 (cfg.username ++ ":" ++ cfg.realm ++ ":" ++ cfg.password)
    let ha2 := md5 (method ++ ":" ++ pa.uri)
    if pa.qop ≠ "" then
      if pa.nc = "" ∨ pa.cnonce = "" then (false, st)
      else
        match hexVal pa.nc with
        | none => (false, st)
        | some v =>
          let rejectReplay : Bool :=
            match ncFind st.ncSeen (ncKey pa) with
            | some s => v ≤ s
            | none => false
          if rejectReplay then (false, st)
          else
            let st2 := { st with ncSeen := ncStore st.ncSeen (ncKey pa) v }
            let expected := md5 (ha1 ++ ":" ++ pa.nonce ++ ":" ++ pa.nc ++
              ":" ++ pa.cnonce ++ ":" ++ pa.qop ++ ":" ++ ha2)
            (expected == pa.response, st2)
    else
      let expected := md5 (ha1 ++ ":" ++ pa.nonce ++ ":" ++ ha2)
      (expected == pa.response, st)

/-- C4 (counterexample): a request with a fresh nc (no entry for its
key) but a wrong digest response is rejected, yet the recorded
highest-seen nc for the key is still updated to 1 — the table is written
before the response digest is verified, so the recorded value is not
"updated only when the request is accepted". -/
theorem claim_C4_counterexample :
    checkDigest (fun _ => "x") (fun _ => some 1)
      ⟨"u", "r1", "pw"⟩ ⟨"n", []⟩ "DESCRIBE"
      ⟨"u", "r1", "n", "/s", "wrong", "auth", "00000001", "c"⟩ =
      (false, ⟨"n", [("u|c|n", 1)]⟩) := by
  decide

/-- C4 (amended): per key (username|cnonce|nonce) the server rejects any
request whose hex nc value is ≤ the recorded highest value, leaving the
state unchanged; but when the nc passes that check the recorded value is
updated immediately — before and regardless of whether the digest
response verifies — not only when the request is accepted. -/
theorem claim_C4_nc_replay (md5 : String → String)
    (hexVal : String → Option Nat) (cfg : AuthConfig) (st : DigestState)
    (method : String) (pa : DigestParams) (v : Nat)
    (hu : pa.username = cfg.username) (hu2 : pa.username ≠ "")
    (hr : pa.realm = cfg.realm) (hr2 : pa.realm ≠ "")
    (hn : pa.nonce = st.nonce) (hn2 : pa.nonce ≠ "")
    (huri : pa.uri ≠ "") (hresp : pa.response ≠ "")
    (hqop : pa.qop ≠ "") (hnc : pa.nc ≠ "") (hcn : pa.cnonce ≠ "")
    (hv : hexVal pa.nc = some v) :
    (∀ s, ncFind st.ncSeen (ncKey pa) = some s → v ≤ s →
      checkDigest md5 hexVal cfg st method pa = (false, st)) ∧
    ((match ncFind st.ncSeen (ncKey pa) with
      | some s => s < v
      | none => True) →
      (checkDigest md5 hexVal cfg st method pa).2.ncSeen =
        ncStore st.ncSeen (ncKey pa) v) := by
  have hbody : checkDigest md5 hexVal cfg st method pa =
      (let rejectReplay : Bool :=
        match ncFind st.ncSeen (ncKey pa) with
        | some s => v ≤ s
        | none => false
      if rejectReplay then (false, st)
      else
        let st2 := { st with ncSeen := ncStore st.ncSeen (ncKey pa) v }
        let expected := md5 (md5 (cfg.username ++ ":" ++ cfg.realm ++ ":" ++
          cfg.password) ++ ":" ++ pa.nonce ++ ":" ++ pa.nc ++ ":" ++
          pa.cnonce ++ ":" ++ pa.qop ++ ":" ++
          md5 (method ++ ":" ++ pa.uri))
        (expected == pa.response, st2)) := by
    rw [checkDigest]
    rw [if_neg (by push_neg; exact ⟨hu2, hr2, hn2, huri, hresp⟩)]
    rw [if_neg (by push_neg; exact ⟨hu, hr, hn⟩)]
    rw [if_pos hqop]
    rw [if_neg (by push_neg; exact ⟨hnc, hcn⟩)]
    rw [hv]
  constructor
  · intro s hs hle
    rw [hbody]
    simp only [hs]
    rw [if_pos (by simp [hle])]
  · intro hgt
    rw [hbody]
    cases hf : ncFind st.ncSeen (ncKey pa) with
    | none => simp only [hf]; rfl
    | some s =>
      rw [hf] at hgt
      simp only [hf]
      rw [if_neg (by simp; omega)]

/-- Witness for C4 (amended): concrete accepted-path state update. -/
theorem claim_C4_nc_replay_witness :
    (checkDigest (fun _ => "x") (fun _ => some 2)
      ⟨"u", "r1", "pw"⟩ ⟨"n", [("u|c|n", 1)]⟩ "DESCRIBE"
      ⟨"u", "r1", "n", "/s", "x", "auth", "00000002", "c"⟩).2.ncSeen =
      ncStore [("u|c|n", 1)] (ncKey
        ⟨"u", "r1", "n", "/s", "x", "auth", "00000002", "c"⟩) 2 :=
  (claim_C4_nc_replay (fun _ => "x") (fun _ => some 2)
      ⟨"u", "r1", "pw"⟩ ⟨"n", [("u|c|n", 1)]⟩ "DESCRIBE"
      ⟨"u", "r1", "n", "/s", "x", "auth", "00000002", "c"⟩ 2
      rfl (by decide) rfl (by decide) rfl (by decide) (by decide)
      (by decide) (by decide) (by decide) (by decide) rfl).2
    (by exact one_lt_two)


def startsSC : Bytes → Bool
  | 0 :: 0 :: 1 :: _ => true
  | 0 :: 0 :: 0 :: 1 :: _ => true
  | _ => false

def hasSC : Bytes → Bool
  | [] => false
  | b :: t => startsSC (b :: t) || hasSC t

def annexB (ns : List Bytes) : Bytes :=
  (ns.map fun n => 0 :: 0 :: 0 :: 1 :: n).flatten

@[reducible] def wfNaluH264 (n : Bytes) : Prop :=
  n ≠ [] ∧ hasSC n = false ∧ n.getD 0 0 < 128 ∧
    1 ≤ n.getD 0 0 % 32 ∧ n.getD 0 0 % 32 ≤ 23

@[reducible] def wfNaluH265 (n : Bytes) : Prop :=
  2 ≤ n.length ∧ hasSC n = false ∧ n.getD 0 0 < 128 ∧
    n.getD 0 0 / 2 % 64 ≠ 48 ∧ n.getD 0 0 / 2 % 64 ≠ 49 ∧
    n.getD 0 0 / 2 % 64 ≠ 50

theorem stripSC_eq_self {n : Bytes} (h : hasSC n = false) :
    stripSC n = n := by
  rw [stripSC]
  rw [if_neg, if_neg]
  · rintro ⟨hl, h0, h1, h2, h3⟩
    match n, hl with
    | a :: b :: c :: d :: t, _ =>
      simp [List.getD] at h0 h1 h2 h3
      subst h0; subst h1; subst h2; subst h3
      simp [hasSC, startsSC] at h
  · rintro ⟨hl, h0, h1, h2⟩
    match n, hl with
    | a :: b :: c :: t, _ =>
      simp [List.getD] at h0 h1 h2
      subst h0; subst h1; subst h2
      simp [hasSC, startsSC] at h

def rxStep (pt : Nat) (s : FrameAsm) (q : RtpPacket) : FrameAsm :=
  processVideoPayload (lossCheck s q.seq) (q.bytes.drop 12) q.timestamp
    q.marker pt

def rxFold (pt : Nat) (st : FrameAsm) (qs : List RtpPacket) : FrameAsm :=
  qs.foldl (rxStep pt) st

theorem drop12_header (pt seq ts ssrc : Nat) (l : Bytes) :
    (rtpHeader12 pt seq ts ssrc ++ l).drop 12 = l := rfl

theorem lossCheck_benign (st : FrameAsm) (seq : Nat)
    (h : st.seqInitialized = false ∨ seq = (st.lastSeq + 1) % 65536) :
    lossCheck st seq = { st with seqInitialized := true, lastSeq := seq } := by
  simp only [lossCheck]
  rw [if_neg]
  rcases h with h | h
  · rintro ⟨h1, _⟩
    rw [h] at h1
    cases h1
  · rintro ⟨_, h2⟩
    exact h2 h

theorem pvp_norm (st : FrameAsm) (data : Bytes) (ts : Nat) (m : Bool)
    (pt : Nat) (h : st.frameInProgress = false) (hd : data ≠ []) :
    processVideoPayload st data ts m pt =
      processVideoPayload
        { st with frameTs := ts, frameInProgress := true } data ts m pt := by
  simp only [processVideoPayload]
  rw [if_neg (fun hc => hd (List.length_eq_zero.mp hc)),
    if_neg (fun hc => hd (List.length_eq_zero.mp hc))]
  conv_lhs => rw [if_pos (show ¬st.frameInProgress = true by simp [h])]
  conv_rhs => rw [if_neg (show ¬¬True by simp), if_neg (show ¬(ts ≠ ts) by simp)]

theorem payloadBody_single_h264 (st : FrameAsm) (n0 : Nat) (t : Bytes)
    (hge1 : 1 ≤ n0 % 32) (hle23 : n0 % 32 ≤ 23) :
    payloadBody st (n0 :: t) true =
      ({ st with
          frameBuffer := st.frameBuffer ++ [0, 0, 0, 1] ++ n0 :: t
          frameIsIdr := st.frameIsIdr || decide (n0 % 32 = 5) }, false) := by
  simp only [payloadBody]
  rw [if_pos trivial]
  simp only [List.headD_cons]
  rw [if_pos ⟨hge1, hle23⟩]
  simp only [appendAnnexB]
  rw [if_neg (List.cons_ne_nil n0 t)]
  by_cases h5 : n0 % 32 = 5
  · rw [if_pos h5]
    simp [h5]
  · rw [if_neg h5]
    simp [h5]

theorem pvp_single_h264 (st : FrameAsm) (n : Bytes) (ts : Nat) (m : Bool)
    (hwf : wfNaluH264 n) (hip : st.frameInProgress = true)
    (hfts : st.frameTs = ts) (hc : st.codec = .h264)
    (hpt : st.payloadType = 96) :
    processVideoPayload st n ts m 96 =
      (if m then
        emitFrame { st with
          frameBuffer := st.frameBuffer ++ [0, 0, 0, 1] ++ n
          frameIsIdr := st.frameIsIdr || decide (n.getD 0 0 % 32 = 5) } ts
      else { st with
        frameBuffer := st.frameBuffer ++ [0, 0, 0, 1] ++ n
        frameIsIdr := st.frameIsIdr || decide (n.getD 0 0 % 32 = 5) }) := by
  obtain ⟨hne, hsc, hlt, hge1, hle23⟩ := hwf
  match n, hne with
  | n0 :: t, _ =>
    simp only [List.getD_cons_zero] at hge1 hle23 ⊢
    simp only [processVideoPayload]
    rw [if_neg (by simp), if_neg (show ¬¬st.frameInProgress = true by simp [hip]),
      if_neg (show ¬(ts ≠ st.frameTs) by simp [hfts])]
    have harg : decide (96 = st.payloadType ∧ st.codec = Codec.h264) = true := by
      simp [hpt, hc]
    rw [harg, payloadBody_single_h264 st n0 t hge1 hle23]
    rcases m with _ | _
    · rfl
    · split_ifs <;> simp_all [hc]

theorem payloadBody_fu_h264 (st : FrameAsm) (fuInd fh : Nat) (piece : Bytes)
    (hfi : fuInd % 32 = 28) (hp : piece ≠ []) :
    payloadBody st (fuInd :: fh :: piece) true =
      (if fh / 128 % 2 = 1 then
        ({ st with
            frameBuffer := st.frameBuffer ++ [0, 0, 0, 1] ++
              [fuInd / 32 % 8 * 32 + fh % 32] ++ piece
            frameIsIdr := st.frameIsIdr ||
              decide ((fuInd / 32 % 8 * 32 + fh % 32) % 32 = 5) }, false)
      else ({ st with frameBuffer := st.frameBuffer ++ piece }, false)) := by
  simp only [payloadBody]
  rw [if_pos trivial]
  simp only [List.headD_cons, List.getD_cons_succ, List.getD_cons_zero]
  rw [if_neg (by omega), if_neg (by omega), if_neg (by omega)]
  rw [if_pos ⟨hfi, by simp⟩]
  have hlen2 : 2 < (fuInd :: fh :: piece).length := by
    cases piece
    · exact absurd rfl hp
    · simp
  rw [if_pos hlen2]
  simp only [List.drop_succ_cons, List.drop_zero]
  by_cases hs : fh / 128 % 2 = 1
  · rw [if_pos hs]
    by_cases h5 : (fuInd / 32 % 8 * 32 + fh % 32) % 32 = 5
    · rw [if_pos h5]
      simp [hs, h5]
    · rw [if_neg h5]
      simp [hs, h5]
      intro hx
      exact absurd (by omega) h5
  · rw [if_neg hs]
    simp [hs]

theorem pvp_fu_h264 (st : FrameAsm) (fuInd fh : Nat) (piece : Bytes)
    (ts : Nat) (m : Bool) (hfi : fuInd % 32 = 28) (hp : piece ≠ [])
    (hip : st.frameInProgress = true) (hfts : st.frameTs = ts)
    (hc : st.codec = .h264) (hpt : st.payloadType = 96) :
    processVideoPayload st (fuInd :: fh :: piece) ts m 96 =
      (let stT : FrameAsm :=
        if fh / 128 % 2 = 1 then
          { st with
            frameBuffer := st.frameBuffer ++ [0, 0, 0, 1] ++
              [fuInd / 32 % 8 * 32 + fh % 32] ++ piece
            frameIsIdr := st.frameIsIdr ||
              decide ((fuInd / 32 % 8 * 32 + fh % 32) % 32 = 5) }
        else { st with frameBuffer := st.frameBuffer ++ piece }
      if m then emitFrame stT ts else stT) := by
  simp only [processVideoPayload]
  rw [if_neg (by simp), if_neg (show ¬¬st.frameInProgress = true by simp [hip]),
    if_neg (show ¬(ts ≠ st.frameTs) by simp [hfts])]
  have harg : decide (96 = st.payloadType ∧ st.codec = Codec.h264) = true := by
    simp [hpt, hc]
  rw [harg, payloadBody_fu_h264 st fuInd fh piece hfi hp]
  by_cases hs : fh / 128 % 2 = 1
  · rw [if_pos hs, if_pos hs]
    rcases m with _ | _
    · rfl
    · split_ifs <;> simp_all [hc]
  · rw [if_neg hs, if_neg hs]
    rcases m with _ | _
    · rfl
    · split_ifs <;> simp_all [hc]

theorem rxFold_cons (pt : Nat) (s : FrameAsm) (q : RtpPacket)
    (qs : List RtpPacket) :
    rxFold pt s (q :: qs) = rxFold pt (rxStep pt s q) qs := rfl

theorem rxStep_fua_pkt (pt pt0 : Nat) (st : FrameAsm)
    (seq ts ssrc fuInd fh : Nat) (m : Bool) (piece : Bytes) :
    rxStep pt st
      ⟨rtpHeader12 pt0 seq ts ssrc ++ [fuInd, fh] ++ piece, seq, ts, ssrc, m⟩ =
      processVideoPayload (lossCheck st seq) (fuInd :: fh :: piece) ts m
        pt := rfl

theorem fuaLoop_nil (pt ssrc ts fuInd ntype maxFrag seq : Nat)
    (first : Bool) (fuel : Nat) :
    (fuaLoop pt ssrc ts fuInd ntype maxFrag [] first seq fuel).1 = [] := by
  cases fuel <;> simp [fuaLoop]

theorem rxFold_fua_mid (ts ssrc fuInd ntype maxFrag : Nat)
    (hfi : fuInd % 32 = 28) (hnt : ntype < 32) (hmf : 1 ≤ maxFrag) :
    ∀ (fuel : Nat) (payload : Bytes) (seq : Nat) (st : FrameAsm),
    payload ≠ [] → payload.length ≤ fuel → seq < 65536 →
    seq = (st.lastSeq + 1) % 65536 →
    st.frameInProgress = true → st.frameTs = ts → st.codec = .h264 →
    st.payloadType = 96 →
    ∃ L : Nat, rxFold 96 st
        (fuaLoop 96 ssrc ts fuInd ntype maxFrag payload false seq fuel).1 =
      emitFrame { st with
        frameBuffer := st.frameBuffer ++ payload
        seqInitialized := true
        lastSeq := L } ts
  | 0, payload, seq, st, hp, hf, _, _, _, _, _, _ => by
    match payload, hp with
    | b :: t, _ => simp at hf
  | fuel + 1, payload, seq, st, hp, hf, hs, hch, hip, hfts, hc, hpt => by
    simp only [fuaLoop, Bool.false_eq_true, if_false]
    rw [if_neg hp]
    by_cases hl : payload.length ≤ min maxFrag payload.length
    · have hfrag : min maxFrag payload.length = payload.length := by omega
      rw [hfrag, List.take_length, List.drop_length, if_pos le_rfl]
      have hm : decide (payload.length ≤ payload.length) = true := by simp
      refine ⟨seq, ?_⟩
      rw [rxFold_cons, rxStep_fua_pkt, lossCheck_benign st seq (Or.inr hch),
        hm,
        pvp_fu_h264 { st with seqInitialized := true, lastSeq := seq } fuInd
          (ntype + 0 + 64) payload ts true hfi hp hip hfts hc hpt]
      rw [if_neg (show ¬(ntype + 0 + 64) / 128 % 2 = 1 by omega),
        if_pos rfl, fuaLoop_nil]
      rfl
    · have hfrag : min maxFrag payload.length = maxFrag := by omega
      rw [hfrag]
      have hl2 : ¬payload.length ≤ maxFrag := by omega
      rw [if_neg hl2]
      have hm : decide (payload.length ≤ maxFrag) = false := by simp [hl2]
      have hpt2 : payload.take maxFrag ≠ [] := by
        rw [Ne, List.take_eq_nil_iff]
        rintro (h1 | h1)
        · omega
        · exact hp h1
      have hpd : payload.drop maxFrag ≠ [] := by
        rw [Ne, List.drop_eq_nil_iff]
        omega
      obtain ⟨L, hL⟩ := rxFold_fua_mid ts ssrc fuInd ntype maxFrag hfi hnt hmf
        fuel (payload.drop maxFrag) ((seq + 1) % 65536)
        { st with
          frameBuffer := st.frameBuffer ++ payload.take maxFrag
          seqInitialized := true
          lastSeq := seq }
        hpd (by simp; omega) (by omega) rfl hip hfts hc hpt
      refine ⟨L, ?_⟩
      rw [rxFold_cons, rxStep_fua_pkt, lossCheck_benign st seq (Or.inr hch),
        hm,
        pvp_fu_h264 { st with seqInitialized := true, lastSeq := seq } fuInd
          (ntype + 0 + 0) (payload.take maxFrag) ts false hfi hpt2 hip hfts hc
          hpt]
      rw [if_neg (show ¬(ntype + 0 + 0) / 128 % 2 = 1 by omega),
        if_neg (by simp)]
      rw [hL]
      rw [List.append_assoc, List.take_append_drop]

theorem rxFold_fua_start (ts ssrc fuInd ntype maxFrag : Nat)
    (hfi : fuInd % 32 = 28) (hnt : ntype < 32) (hmf : 1 ≤ maxFrag) :
    ∀ (fuel : Nat) (payload : Bytes) (seq : Nat) (st : FrameAsm),
    maxFrag < payload.length → payload.length ≤ fuel → seq < 65536 →
    (st.seqInitialized = false ∨ seq = (st.lastSeq + 1) % 65536) →
    st.frameInProgress = true → st.frameTs = ts → st.codec = .h264 →
    st.payloadType = 96 →
    ∃ L : Nat, rxFold 96 st
        (fuaLoop 96 ssrc ts fuInd ntype maxFrag payload true seq fuel).1 =
      emitFrame { st with
        frameBuffer := st.frameBuffer ++ [0, 0, 0, 1] ++
          [fuInd / 32 % 8 * 32 + ntype] ++ payload
        frameIsIdr := st.frameIsIdr ||
          decide ((fuInd / 32 % 8 * 32 + ntype) % 32 = 5)
        seqInitialized := true
        lastSeq := L } ts
  | 0, payload, seq, st, hlong, hf, _, _, _, _, _, _ => by omega
  | fuel + 1, payload, seq, st, hlong, hf, hs, hch, hip, hfts, hc, hpt => by
    have hp : payload ≠ [] := by
      rintro rfl
      simp only [List.length_nil] at hlong
      omega
    simp only [fuaLoop]
    rw [if_neg hp]
    have hfrag : min maxFrag payload.length = maxFrag := by omega
    rw [hfrag]
    have hl2 : ¬payload.length ≤ maxFrag := by omega
    rw [if_neg hl2]
    simp only [if_true, Nat.add_zero]
    have hm : decide (payload.length ≤ maxFrag) = false := by simp [hl2]
    have hpt2 : payload.take maxFrag ≠ [] := by
      rw [Ne, List.take_eq_nil_iff]
      rintro (h1 | h1)
      · omega
      · exact hp h1
    have hpd : payload.drop maxFrag ≠ [] := by
      rw [Ne, List.drop_eq_nil_iff]
      omega
    have hmod : (ntype + 128) % 32 = ntype := by omega
    obtain ⟨L, hL⟩ := rxFold_fua_mid ts ssrc fuInd ntype maxFrag hfi hnt hmf
      fuel (payload.drop maxFrag) ((seq + 1) % 65536)
      { st with
        frameBuffer := st.frameBuffer ++ [0, 0, 0, 1] ++
          [fuInd / 32 % 8 * 32 + ntype] ++ payload.take maxFrag
        frameIsIdr := st.frameIsIdr ||
          decide ((fuInd / 32 % 8 * 32 + ntype) % 32 = 5)
        seqInitialized := true
        lastSeq := seq }
      hpd (by simp; omega) (by omega) rfl hip hfts hc hpt
    refine ⟨L, ?_⟩
    rw [rxFold_cons, rxStep_fua_pkt, lossCheck_benign st seq hch, hm,
      pvp_fu_h264 { st with seqInitialized := true, lastSeq := seq } fuInd
        (ntype + 128) (payload.take maxFrag) ts false hfi hpt2 hip hfts hc
        hpt]
    rw [if_pos (show (ntype + 128) / 128 % 2 = 1 by omega),
      if_neg (by simp), hmod]
    rw [hL]
    simp only [List.append_assoc]
    rw [List.take_append_drop]

theorem rxFold_packFuA (p : Packer) (nalu : NaluUnit) (n0 : Nat) (t : Bytes)
    (ts : Nat) (st : FrameAsm) (hb : nalu.bytes = n0 :: t)
    (hwf : wfNaluH264 (n0 :: t)) (hlong : p.mtu < (n0 :: t).length)
    (hm3 : 3 ≤ p.mtu) (hm64 : p.mtu < 2 ^ 64) (hppt : p.payloadType = 96)
    (hpseq : p.seq < 65536)
    (hch : st.seqInitialized = false ∨ p.seq = (st.lastSeq + 1) % 65536)
    (hip : st.frameInProgress = true) (hfts : st.frameTs = ts)
    (hc : st.codec = .h264) (hspt : st.payloadType = 96) :
    ∃ L : Nat, rxFold 96 st (packFuAH264 p nalu ts).1 =
      emitFrame { st with
        frameBuffer := st.frameBuffer ++ [0, 0, 0, 1] ++ n0 :: t
        frameIsIdr := st.frameIsIdr || decide (n0 % 32 = 5)
        seqInitialized := true
        lastSeq := L } ts := by
  obtain ⟨hne, hsc, hlt, hge1, hle23⟩ := hwf
  simp only [List.getD_cons_zero] at hlt
  simp only [List.length_cons] at hlong
  have hfi : n0 / 32 % 4 * 32 + 28 % 32 = n0 / 32 % 4 * 32 + 28 := by omega
  obtain ⟨L, hL⟩ := rxFold_fua_start ts p.ssrc (n0 / 32 % 4 * 32 + 28)
    (n0 % 32) (p.mtu - 2) (by omega) (by omega) (by omega)
    (t.length + 1) t p.seq st (by omega) (by omega) hpseq hch hip hfts hc hspt
  have hr0 : (n0 / 32 % 4 * 32 + 28) / 32 % 8 * 32 + n0 % 32 = n0 := by
    omega
  rw [hr0] at hL
  rw [List.append_assoc, List.singleton_append] at hL
  refine ⟨L, ?_⟩
  simp only [packFuAH264, hb, stripSC_eq_self hsc]
  rw [if_neg (by simp only [List.length_cons]; omega)]
  simp only [List.getD_cons_zero, List.tail_cons, List.length_cons]
  rw [hppt, show (p.mtu + 2 ^ 64 - 2) % 2 ^ 64 = p.mtu - 2 from by omega]
  exact hL

/-- The per-NALU branch of `H264RtpPacker::packFrame` (the body of its
loop), extracted for stepwise reasoning. -/
def packOneH264 (p : Packer) (nu : NaluUnit) (ts : Nat) :
    List RtpPacket × Packer :=
  if nu.bytes.length = 0 then ([], p)
  else if stripSC nu.bytes = [] then ([], p)
  else if (stripSC nu.bytes).length ≤ p.mtu then packSingleNaluH264 p nu ts
  else packFuAH264 p nu ts

theorem packNalusH264_cons (p : Packer) (ts : Nat) (nu : NaluUnit)
    (ms : List NaluUnit) :
    packNalusH264 p ts (nu :: ms) =
      ((packOneH264 p nu ts).1 ++
          (packNalusH264 (packOneH264 p nu ts).2 ts ms).1,
        (packNalusH264 (packOneH264 p nu ts).2 ts ms).2) := rfl

theorem packNalusH264_nil (p : Packer) (ts : Nat) :
    packNalusH264 p ts [] = ([], p) := rfl

theorem packOneH264_single (p : Packer) (nu : NaluUnit) (n0 : Nat)
    (t : Bytes) (ts : Nat) (hb : nu.bytes = n0 :: t)
    (hsc : hasSC (n0 :: t) = false) (hlen : (n0 :: t).length ≤ p.mtu) :
    packOneH264 p nu ts =
      ([⟨rtpHeader12 p.payloadType p.seq ts p.ssrc ++ (n0 :: t), p.seq, ts,
          p.ssrc, false⟩],
        { p with seq := (p.seq + 1) % 65536 }) := by
  simp only [packOneH264, hb, stripSC_eq_self hsc]
  rw [if_neg (by simp), if_neg (by simp), if_pos hlen]
  simp only [packSingleNaluH264, hb, stripSC_eq_self hsc, getNextSeq]
  rw [if_neg (by simp)]

theorem packOneH264_fua (p : Packer) (nu : NaluUnit) (n0 : Nat) (t : Bytes)
    (ts : Nat) (hb : nu.bytes = n0 :: t) (hsc : hasSC (n0 :: t) = false)
    (hlong : p.mtu < (n0 :: t).length) :
    packOneH264 p nu ts = packFuAH264 p nu ts := by
  simp only [packOneH264, hb, stripSC_eq_self hsc]
  rw [if_neg (by simp), if_neg (by simp), if_neg (by omega)]

theorem fuaLoop_ne_nil (pt ssrc ts fuInd ntype maxFrag : Nat)
    (payload : Bytes) (first : Bool) (seq fuel : Nat) (hp : payload ≠ []) :
    (fuaLoop pt ssrc ts fuInd ntype maxFrag payload first seq
      (fuel + 1)).1 ≠ [] := by
  simp [fuaLoop, hp]

theorem fuaLoop_last_shape (pt ssrc ts fuInd ntype maxFrag : Nat)
    (hmf : 1 ≤ maxFrag) :
    ∀ (fuel : Nat) (payload : Bytes) (seq : Nat) (first : Bool),
    payload ≠ [] → payload.length ≤ fuel →
    ∃ (qs : List RtpPacket) (q : RtpPacket),
      (fuaLoop pt ssrc ts fuInd ntype maxFrag payload first seq fuel).1 =
        qs ++ [q] ∧ q.marker = true
  | 0, payload, seq, first, hp, hf => by
    match payload, hp with
    | b :: t, _ => simp at hf
  | fuel + 1, payload, seq, first, hp, hf => by
    simp only [fuaLoop]
    rw [if_neg hp]
    by_cases hl : payload.length ≤ min maxFrag payload.length
    · have hfrag : min maxFrag payload.length = payload.length := by omega
      rw [hfrag, List.drop_length, fuaLoop_nil]
      exact ⟨[], _, rfl, by simp⟩
    · have hfrag : min maxFrag payload.length = maxFrag := by omega
      rw [hfrag]
      have hpd : payload.drop maxFrag ≠ [] := by
        rw [Ne, List.drop_eq_nil_iff]
        omega
      obtain ⟨qs, q, hsh, hqm⟩ := fuaLoop_last_shape pt ssrc ts fuInd ntype
        maxFrag hmf fuel (payload.drop maxFrag) ((seq + 1) % 65536) false hpd
        (by simp; omega)
      rw [hsh]
      exact ⟨_ :: qs, q, rfl, hqm⟩

theorem setLastMarker_shape_id (qs : List RtpPacket) (q : RtpPacket)
    (hm : q.marker = true) :
    setLastMarker (qs ++ [q]) = qs ++ [q] := by
  induction qs with
  | nil =>
    obtain ⟨b, s, t, ss, mk⟩ := q
    cases hm
    rfl
  | cons x xs ih =>
    have h1 : xs ++ [q] ≠ [] := by simp
    match h2 : xs ++ [q], h1 with
    | y :: r, _ =>
      rw [List.cons_append, h2, setLastMarker, ← h2, ih]

theorem setLastMarker_append : ∀ (a b : List RtpPacket), b ≠ [] →
    setLastMarker (a ++ b) = a ++ setLastMarker b
  | [], b, _ => rfl
  | x :: a, b, hb => by
    have h1 : a ++ b ≠ [] := by
      intro hx
      exact hb (List.append_eq_nil.mp hx).2
    match h2 : a ++ b, h1 with
    | y :: r, _ =>
      rw [List.cons_append, h2, setLastMarker, ← h2,
        setLastMarker_append a b hb]
      rfl

theorem packNalusH264_map_ne (p : Packer) (ts : Nat) :
    ∀ (ns : List Bytes), ns ≠ [] → (∀ n ∈ ns, wfNaluH264 n) →
    3 ≤ p.mtu →
    (packNalusH264 p ts (ns.map fun m => (⟨m, true⟩ : NaluUnit))).1 ≠ []
  | n :: rest, _, hwf, hm3 => by
    obtain ⟨hne, hsc, hlt, hge1, hle23⟩ := hwf n (by simp)
    match n, hne with
    | n0 :: t, _ =>
    rw [List.map_cons, packNalusH264_cons]
    intro hx
    have h1 := (List.append_eq_nil.mp hx).1
    by_cases hlen : (n0 :: t).length ≤ p.mtu
    · rw [packOneH264_single p _ n0 t ts rfl hsc hlen] at h1
      simp at h1
    · have hlong : p.mtu < t.length + 1 := by
        simp only [List.length_cons] at hlen
        omega
      rw [packOneH264_fua p _ n0 t ts rfl hsc
        (by simp only [List.length_cons]; omega)] at h1
      revert h1
      simp only [packFuAH264, stripSC_eq_self hsc]
      rw [if_neg (by simp only [List.length_cons]; omega)]
      simp only [List.getD_cons_zero, List.tail_cons, List.length_cons]
      exact fuaLoop_ne_nil _ _ _ _ _ _ t true p.seq t.length
        (by intro hx2
            subst hx2
            simp only [List.length_nil] at hlong
            omega)

theorem rxFold_nil (pt : Nat) (s : FrameAsm) : rxFold pt s [] = s := rfl

theorem rxFold_append (pt : Nat) (s : FrameAsm) (a b : List RtpPacket) :
    rxFold pt s (a ++ b) = rxFold pt (rxFold pt s a) b := by
  simp [rxFold]

theorem rxStep_pkt (pt pt0 : Nat) (st : FrameAsm) (seq ts ssrc ssrcF : Nat)
    (m : Bool) (pl : Bytes) :
    rxStep pt st ⟨rtpHeader12 pt0 seq ts ssrc ++ pl, seq, ts, ssrcF, m⟩ =
      processVideoPayload (lossCheck st seq) pl ts m pt := rfl

theorem annexB_nil : annexB [] = [] := rfl

theorem annexB_cons (n : Bytes) (rest : List Bytes) :
    annexB (n :: rest) = 0 :: 0 :: 0 :: 1 :: (n ++ annexB rest) := by
  rw [annexB, List.map_cons, List.flatten_cons, annexB]
  rfl

theorem packFuA_slm_id (p : Packer) (nu : NaluUnit) (n0 : Nat) (t : Bytes)
    (ts : Nat) (hb : nu.bytes = n0 :: t) (hsc : hasSC (n0 :: t) = false)
    (hlong : p.mtu < t.length + 1) (hm3 : 3 ≤ p.mtu)
    (hm64 : p.mtu < 2 ^ 64) :
    setLastMarker (packFuAH264 p nu ts).1 = (packFuAH264 p nu ts).1 := by
  have ht : t ≠ [] := by
    intro hx
    subst hx
    simp only [List.length_nil] at hlong
    omega
  simp only [packFuAH264, hb, stripSC_eq_self hsc]
  rw [if_neg (by simp only [List.length_cons]; omega)]
  simp only [List.getD_cons_zero, List.tail_cons, List.length_cons]
  rw [show (p.mtu + 2 ^ 64 - 2) % 2 ^ 64 = p.mtu - 2 from by omega]
  obtain ⟨qs, q, hsh, hqm⟩ := fuaLoop_last_shape p.payloadType p.ssrc ts
    (n0 / 32 % 4 * 32 + 28) (n0 % 32) (p.mtu - 2) (by omega) (t.length + 1)
    t p.seq true ht (by omega)
  rw [hsh, setLastMarker_shape_id qs q hqm]

theorem rxFold_packNalus_h264 :
    ∀ (ns : List Bytes) (p : Packer) (st : FrameAsm) (ts : Nat),
    (∀ n ∈ ns, wfNaluH264 n) →
    (∀ n ∈ ns.dropLast, n.length ≤ p.mtu) →
    3 ≤ p.mtu → p.mtu < 2 ^ 64 → p.payloadType = 96 → p.seq < 65536 →
    (st.seqInitialized = false ∨ p.seq = (st.lastSeq + 1) % 65536) →
    st.frameInProgress = true → st.frameTs = ts → st.codec = .h264 →
    st.payloadType = 96 → ns ≠ [] →
    ∃ L : Nat, rxFold 96 st
        (setLastMarker
          (packNalusH264 p ts (ns.map fun m => (⟨m, true⟩ : NaluUnit))).1) =
      emitFrame { st with
        frameBuffer := st.frameBuffer ++ annexB ns
        frameIsIdr := st.frameIsIdr ||
          ns.any fun n => decide (n.getD 0 0 % 32 = 5)
        seqInitialized := true
        lastSeq := L } ts
  | [], _, _, _, _, _, _, _, _, _, _, _, _, _, _, hne => absurd rfl hne
  | [n], p, st, ts, hwf, hmtu, hm3, hm64, hppt, hpseq, hch, hip, hfts, hc,
      hspt, _ => by
    have hwfn := hwf n (by simp)
    obtain ⟨hne2, hsc, -, -, -⟩ := hwf n (by simp)
    match n, hne2 with
    | n0 :: t, _ =>
    by_cases hlen : (n0 :: t).length ≤ p.mtu
    · have hlist : (packNalusH264 p ts
          [(⟨n0 :: t, true⟩ : NaluUnit)]).1 =
          [⟨rtpHeader12 96 p.seq ts p.ssrc ++ (n0 :: t), p.seq, ts, p.ssrc,
            false⟩] := by
        rw [packNalusH264_cons, packOneH264_single p _ n0 t ts rfl hsc hlen,
          hppt]
        rfl
      refine ⟨p.seq, ?_⟩
      rw [List.map_cons, List.map_nil, hlist,
        show setLastMarker [(⟨rtpHeader12 96 p.seq ts p.ssrc ++ (n0 :: t),
          p.seq, ts, p.ssrc, false⟩ : RtpPacket)] =
          [⟨rtpHeader12 96 p.seq ts p.ssrc ++ (n0 :: t), p.seq, ts, p.ssrc,
            true⟩] from rfl,
        rxFold_cons, rxFold_nil, rxStep_pkt,
        lossCheck_benign st p.seq hch,
        pvp_single_h264 { st with seqInitialized := true, lastSeq := p.seq }
          (n0 :: t) ts true hwfn hip hfts hc hspt,
        if_pos rfl]
      simp only [annexB_cons, annexB_nil, List.append_nil, List.any_cons,
        List.any_nil, Bool.or_false, List.getD_cons_zero, List.append_assoc,
        List.cons_append, List.nil_append]
    · have hlong : p.mtu < t.length + 1 := by
        simp only [List.length_cons] at hlen
        omega
      have hlist : (packNalusH264 p ts
          [(⟨n0 :: t, true⟩ : NaluUnit)]).1 =
          (packFuAH264 p ⟨n0 :: t, true⟩ ts).1 := by
        rw [packNalusH264_cons, packOneH264_fua p _ n0 t ts rfl hsc
          (by simp only [List.length_cons]; omega)]
        show (packFuAH264 p ⟨n0 :: t, true⟩ ts).1 ++ [] = _
        rw [List.append_nil]
      obtain ⟨L, hL⟩ := rxFold_packFuA p ⟨n0 :: t, true⟩ n0 t ts st rfl hwfn
        (by simp only [List.length_cons]; omega) hm3 hm64 hppt hpseq hch hip
        hfts hc hspt
      refine ⟨L, ?_⟩
      rw [List.map_cons, List.map_nil, hlist,
        packFuA_slm_id p _ n0 t ts rfl hsc hlong hm3 hm64, hL]
      simp only [annexB_cons, annexB_nil, List.append_nil, List.any_cons,
        List.any_nil, Bool.or_false, List.getD_cons_zero, List.append_assoc,
        List.cons_append, List.nil_append]
  | n :: n2 :: rest, p, st, ts, hwf, hmtu, hm3, hm64, hppt, hpseq, hch, hip,
      hfts, hc, hspt, _ => by
    have hwfn := hwf n (by simp)
    obtain ⟨hne2, hsc, -, -, -⟩ := hwf n (by simp)
    match n, hne2 with
    | n0 :: t, _ =>
    have hlen : (n0 :: t).length ≤ p.mtu := hmtu _ (by simp)
    have hlist : (packNalusH264 p ts
        (((n0 :: t) :: n2 :: rest).map fun m => (⟨m, true⟩ : NaluUnit))).1 =
        [⟨rtpHeader12 96 p.seq ts p.ssrc ++ (n0 :: t), p.seq, ts, p.ssrc,
          false⟩] ++
        (packNalusH264 { p with seq := (p.seq + 1) % 65536 } ts
          ((n2 :: rest).map fun m => (⟨m, true⟩ : NaluUnit))).1 := by
      rw [List.map_cons, packNalusH264_cons,
        packOneH264_single p _ n0 t ts rfl hsc hlen, hppt]
    have hrest_ne : (packNalusH264 { p with seq := (p.seq + 1) % 65536 } ts
        ((n2 :: rest).map fun m => (⟨m, true⟩ : NaluUnit))).1 ≠ [] :=
      packNalusH264_map_ne _ ts (n2 :: rest) (by simp)
        (fun x hx => hwf x (by simp [hx])) hm3
    have hstep : rxStep 96 st
        ⟨rtpHeader12 96 p.seq ts p.ssrc ++ (n0 :: t), p.seq, ts, p.ssrc,
          false⟩ =
        { st with
          frameBuffer := st.frameBuffer ++ [0, 0, 0, 1] ++ (n0 :: t)
          frameIsIdr := st.frameIsIdr || decide (n0 % 32 = 5)
          seqInitialized := true
          lastSeq := p.seq } := by
      rw [rxStep_pkt, lossCheck_benign st p.seq hch,
        pvp_single_h264 { st with seqInitialized := true, lastSeq := p.seq }
          (n0 :: t) ts false hwfn hip hfts hc hspt,
        if_neg (by simp)]
      rfl
    obtain ⟨L, hL⟩ := rxFold_packNalus_h264 (n2 :: rest)
      { p with seq := (p.seq + 1) % 65536 }
      { st with
        frameBuffer := st.frameBuffer ++ [0, 0, 0, 1] ++ (n0 :: t)
        frameIsIdr := st.frameIsIdr || decide (n0 % 32 = 5)
        seqInitialized := true
        lastSeq := p.seq } ts
      (fun x hx => hwf x (by simp [hx]))
      (fun x hx => hmtu x (by
        simp only [List.dropLast_cons₂]
        exact List.mem_cons_of_mem _ hx))
      hm3 hm64 hppt (Nat.mod_lt _ (by omega)) (Or.inr rfl) hip hfts hc hspt
      (by simp)
    refine ⟨L, ?_⟩
    rw [hlist, setLastMarker_append _ _ hrest_ne, rxFold_append, rxFold_cons,
      rxFold_nil, hstep, hL]
    simp only [annexB_cons, List.append_assoc, List.cons_append,
      List.nil_append, List.any_cons, List.getD_cons_zero, Bool.or_assoc]

theorem payloadBody_single_h265 (st : FrameAsm) (n0 n1 : Nat) (t : Bytes)
    (h48 : n0 / 2 % 64 ≠ 48) (h49 : n0 / 2 % 64 ≠ 49)
    (h50 : n0 / 2 % 64 ≠ 50) :
    payloadBody st (n0 :: n1 :: t) false =
      ({ st with
          frameBuffer := st.frameBuffer ++ [0, 0, 0, 1] ++ n0 :: n1 :: t
          frameIsIdr := st.frameIsIdr || isH265Irap (n0 / 2 % 64) },
        false) := by
  simp only [payloadBody]
  rw [if_neg (by simp), if_neg (by simp)]
  simp only [List.headD_cons]
  rw [if_pos ⟨h49, h48, h50⟩]
  simp only [appendAnnexB]
  rw [if_neg (List.cons_ne_nil n0 (n1 :: t))]
  by_cases hi : isH265Irap (n0 / 2 % 64) = true
  · rw [if_pos hi]
    simp [hi]
  · rw [if_neg hi]
    simp only [Bool.not_eq_true] at hi
    simp [hi]

theorem pvp_single_h265 (st : FrameAsm) (n0 n1 : Nat) (t : Bytes) (ts : Nat)
    (m : Bool) (h48 : n0 / 2 % 64 ≠ 48) (h49 : n0 / 2 % 64 ≠ 49)
    (h50 : n0 / 2 % 64 ≠ 50) (hip : st.frameInProgress = true)
    (hfts : st.frameTs = ts) (hc : st.codec = .h265)
    (hdm : st.h265FuDropMode = false) :
    processVideoPayload st (n0 :: n1 :: t) ts m 96 =
      (if m then
        emitFrame { st with
          frameBuffer := st.frameBuffer ++ [0, 0, 0, 1] ++ n0 :: n1 :: t
          frameIsIdr := st.frameIsIdr || isH265Irap (n0 / 2 % 64) } ts
      else { st with
        frameBuffer := st.frameBuffer ++ [0, 0, 0, 1] ++ n0 :: n1 :: t
        frameIsIdr := st.frameIsIdr || isH265Irap (n0 / 2 % 64) }) := by
  simp only [processVideoPayload]
  rw [if_neg (by simp), if_neg (show ¬¬st.frameInProgress = true by simp [hip]),
    if_neg (show ¬(ts ≠ st.frameTs) by simp [hfts])]
  have harg : decide (96 = st.payloadType ∧ st.codec = Codec.h264) = false := by
    simp [hc]
  rw [harg, payloadBody_single_h265 st n0 n1 t h48 h49 h50]
  rcases m with _ | _
  · rfl
  · split_ifs <;> simp_all [hc, hdm]

theorem payloadBody_fu_h265_start (st : FrameAsm) (b12 b13 ntype : Nat)
    (piece : Bytes) (h49 : b12 / 2 % 64 = 49) (hb12 : b12 < 128)
    (hnt : ntype < 64) (hp : piece ≠ []) :
    payloadBody st (b12 :: b13 :: (ntype + 128) :: piece) false =
      ({ st with
          frameBuffer := st.frameBuffer ++ [0, 0, 0, 1] ++
            [b12 % 2 + ntype * 2, b13] ++ piece
          frameIsIdr := st.frameIsIdr || isH265Irap ntype
          h265FuInProgress := true
          h265FuDropMode := false
          h265FuStartOffset := st.frameBuffer.length }, false) := by
  have hfin0 : (ntype + 128) / 64 % 2 = 0 := by omega
  have hst1 : (ntype + 128) / 128 % 2 = 1 := by omega
  have hor : b12 / 128 % 2 * 128 + b12 % 2 + ntype * 2 =
      b12 % 2 + ntype * 2 := by omega
  have hot : (ntype + 128) % 64 = ntype := by omega
  have hpl : 0 < piece.length := List.length_pos.mpr hp
  simp only [payloadBody, List.headD_cons, List.getD_cons_succ,
    List.getD_cons_zero, h49, hfin0, hst1, hor, hot, List.length_cons,
    List.drop_succ_cons, List.drop_zero]
  norm_num [hpl]
  by_cases hi : isH265Irap ntype = true
  · simp [hi]
  · simp only [Bool.not_eq_true] at hi
    simp [hi]

theorem payloadBody_fu_h265_mid (st : FrameAsm) (b12 b13 ntype : Nat)
    (piece : Bytes) (h49 : b12 / 2 % 64 = 49) (hnt : ntype < 64)
    (hp : piece ≠ []) (hfip : st.h265FuInProgress = true)
    (hdm : st.h265FuDropMode = false) :
    payloadBody st (b12 :: b13 :: ntype :: piece) false =
      ({ st with frameBuffer := st.frameBuffer ++ piece }, false) := by
  have hfin0 : ntype / 64 % 2 = 0 := by omega
  have hst0 : ntype / 128 % 2 = 0 := by omega
  have hpl : 0 < piece.length := List.length_pos.mpr hp
  simp only [payloadBody, List.headD_cons, List.getD_cons_succ,
    List.getD_cons_zero, h49, hfin0, hst0, List.length_cons,
    List.drop_succ_cons, List.drop_zero, hfip, hdm]
  norm_num [hpl]

theorem payloadBody_fu_h265_last (st : FrameAsm) (b12 b13 ntype : Nat)
    (piece : Bytes) (h49 : b12 / 2 % 64 = 49) (hnt : ntype < 64)
    (hp : piece ≠ []) (hfip : st.h265FuInProgress = true)
    (hdm : st.h265FuDropMode = false) :
    payloadBody st (b12 :: b13 :: (ntype + 64) :: piece) false =
      ({ st with
          frameBuffer := st.frameBuffer ++ piece
          h265FuInProgress := false }, false) := by
  have hfin1 : (ntype + 64) / 64 % 2 = 1 := by omega
  have hst0 : (ntype + 64) / 128 % 2 = 0 := by omega
  have hpl : 0 < piece.length := List.length_pos.mpr hp
  simp only [payloadBody, List.headD_cons, List.getD_cons_succ,
    List.getD_cons_zero, h49, hfin1, hst0, List.length_cons,
    List.drop_succ_cons, List.drop_zero, hfip, hdm]
  norm_num [hpl]

theorem pvp_fu_h265_start (st : FrameAsm) (b12 b13 ntype : Nat)
    (piece : Bytes) (ts : Nat) (m : Bool) (h49 : b12 / 2 % 64 = 49)
    (hb12 : b12 < 128) (hnt : ntype < 64) (hp : piece ≠ [])
    (hip : st.frameInProgress = true) (hfts : st.frameTs = ts)
    (hc : st.codec = .h265) :
    processVideoPayload st (b12 :: b13 :: (ntype + 128) :: piece) ts m 96 =
      (let stT : FrameAsm := { st with
        frameBuffer := st.frameBuffer ++ [0, 0, 0, 1] ++
          [b12 % 2 + ntype * 2, b13] ++ piece
        frameIsIdr := st.frameIsIdr || isH265Irap ntype
        h265FuInProgress := true
        h265FuDropMode := false
        h265FuStartOffset := st.frameBuffer.length }
      if m then emitFrame stT ts else stT) := by
  simp only [processVideoPayload]
  rw [if_neg (by simp), if_neg (show ¬¬st.frameInProgress = true by simp [hip]),
    if_neg (show ¬(ts ≠ st.frameTs) by simp [hfts])]
  have harg : decide (96 = st.payloadType ∧ st.codec = Codec.h264) = false := by
    simp [hc]
  rw [harg, payloadBody_fu_h265_start st b12 b13 ntype piece h49 hb12 hnt hp]
  rcases m with _ | _
  · rfl
  · split_ifs <;> simp_all

theorem pvp_fu_h265_mid (st : FrameAsm) (b12 b13 ntype : Nat)
    (piece : Bytes) (ts : Nat) (m : Bool) (h49 : b12 / 2 % 64 = 49)
    (hnt : ntype < 64) (hp : piece ≠ []) (hip : st.frameInProgress = true)
    (hfts : st.frameTs = ts) (hc : st.codec = .h265)
    (hfip : st.h265FuInProgress = true) (hdm : st.h265FuDropMode = false) :
    processVideoPayload st (b12 :: b13 :: ntype :: piece) ts m 96 =
      (let stT : FrameAsm := { st with
        frameBuffer := st.frameBuffer ++ piece }
      if m then emitFrame stT ts else stT) := by
  simp only [processVideoPayload]
  rw [if_neg (by simp), if_neg (show ¬¬st.frameInProgress = true by simp [hip]),
    if_neg (show ¬(ts ≠ st.frameTs) by simp [hfts])]
  have harg : decide (96 = st.payloadType ∧ st.codec = Codec.h264) = false := by
    simp [hc]
  rw [harg, payloadBody_fu_h265_mid st b12 b13 ntype piece h49 hnt hp hfip hdm]
  rcases m with _ | _
  · rfl
  · split_ifs <;> simp_all [hdm]

theorem pvp_fu_h265_last (st : FrameAsm) (b12 b13 ntype : Nat)
    (piece : Bytes) (ts : Nat) (m : Bool) (h49 : b12 / 2 % 64 = 49)
    (hnt : ntype < 64) (hp : piece ≠ []) (hip : st.frameInProgress = true)
    (hfts : st.frameTs = ts) (hc : st.codec = .h265)
    (hfip : st.h265FuInProgress = true) (hdm : st.h265FuDropMode = false) :
    processVideoPayload st (b12 :: b13 :: (ntype + 64) :: piece) ts m 96 =
      (let stT : FrameAsm := { st with
        frameBuffer := st.frameBuffer ++ piece
        h265FuInProgress := false }
      if m then emitFrame stT ts else stT) := by
  simp only [processVideoPayload]
  rw [if_neg (by simp), if_neg (show ¬¬st.frameInProgress = true by simp [hip]),
    if_neg (show ¬(ts ≠ st.frameTs) by simp [hfts])]
  have harg : decide (96 = st.payloadType ∧ st.codec = Codec.h264) = false := by
    simp [hc]
  rw [harg,
    payloadBody_fu_h265_last st b12 b13 ntype piece h49 hnt hp hfip hdm]
  rcases m with _ | _
  · rfl
  · split_ifs <;> simp_all [hdm]

theorem rxStep_fu265_pkt (pt pt0 : Nat) (st : FrameAsm)
    (seq ts ssrc b12 b13 b14 : Nat) (m : Bool) (piece : Bytes) :
    rxStep pt st
      ⟨rtpHeader12 pt0 seq ts ssrc ++ [b12, b13, b14] ++ piece, seq, ts,
        ssrc, m⟩ =
      processVideoPayload (lossCheck st seq) (b12 :: b13 :: b14 :: piece) ts
        m pt := rfl

theorem fuLoopH265_nil (pt ssrc ts b12 b13 ntype maxFrag seq : Nat)
    (first : Bool) (fuel : Nat) :
    (fuLoopH265 pt ssrc ts b12 b13 ntype maxFrag [] first seq fuel).1 =
      [] := by
  cases fuel <;> simp [fuLoopH265]

theorem rxFold_fu265_mid (ts ssrc b12 b13 ntype maxFrag : Nat)
    (h49 : b12 / 2 % 64 = 49) (hnt : ntype < 64) (hmf : 1 ≤ maxFrag) :
    ∀ (fuel : Nat) (payload : Bytes) (seq : Nat) (st : FrameAsm),
    payload ≠ [] → payload.length ≤ fuel → seq < 65536 →
    seq = (st.lastSeq + 1) % 65536 →
    st.frameInProgress = true → st.frameTs = ts → st.codec = .h265 →
    st.h265FuInProgress = true → st.h265FuDropMode = false →
    ∃ L : Nat, rxFold 96 st
        (fuLoopH265 96 ssrc ts b12 b13 ntype maxFrag payload false seq
          fuel).1 =
      emitFrame { st with
        frameBuffer := st.frameBuffer ++ payload
        seqInitialized := true
        lastSeq := L
        h265FuInProgress := false } ts
  | 0, payload, seq, st, hp, hf, _, _, _, _, _, _, _ => by
    match payload, hp with
    | b :: t, _ => simp at hf
  | fuel + 1, payload, seq, st, hp, hf, hs, hch, hip, hfts, hc, hfip, hdm =>
    by
    simp only [fuLoopH265, Bool.false_eq_true, if_false, Nat.add_zero]
    rw [if_neg hp]
    by_cases hl : payload.length ≤ min maxFrag payload.length
    · have hfrag : min maxFrag payload.length = payload.length := by omega
      rw [hfrag, List.take_length, List.drop_length, if_pos le_rfl]
      have hm : decide (payload.length ≤ payload.length) = true := by simp
      refine ⟨seq, ?_⟩
      rw [rxFold_cons, rxStep_fu265_pkt, lossCheck_benign st seq (Or.inr hch),
        hm,
        pvp_fu_h265_last { st with seqInitialized := true, lastSeq := seq }
          b12 b13 ntype payload ts true h49 hnt hp hip hfts hc hfip hdm]
      rw [if_pos rfl, fuLoopH265_nil]
      rfl
    · have hfrag : min maxFrag payload.length = maxFrag := by omega
      rw [hfrag]
      have hl2 : ¬payload.length ≤ maxFrag := by omega
      rw [if_neg hl2, Nat.add_zero]
      have hm : decide (payload.length ≤ maxFrag) = false := by simp [hl2]
      have hpt2 : payload.take maxFrag ≠ [] := by
        rw [Ne, List.take_eq_nil_iff]
        rintro (h1 | h1)
        · omega
        · exact hp h1
      have hpd : payload.drop maxFrag ≠ [] := by
        rw [Ne, List.drop_eq_nil_iff]
        omega
      obtain ⟨L, hL⟩ := rxFold_fu265_mid ts ssrc b12 b13 ntype maxFrag h49
        hnt hmf fuel (payload.drop maxFrag) ((seq + 1) % 65536)
        { st with
          frameBuffer := st.frameBuffer ++ payload.take maxFrag
          seqInitialized := true
          lastSeq := seq }
        hpd (by simp; omega) (by omega) rfl hip hfts hc hfip hdm
      refine ⟨L, ?_⟩
      rw [rxFold_cons, rxStep_fu265_pkt, lossCheck_benign st seq (Or.inr hch),
        hm,
        pvp_fu_h265_mid { st with seqInitialized := true, lastSeq := seq }
          b12 b13 ntype (payload.take maxFrag) ts false h49 hnt hpt2 hip hfts
          hc hfip hdm]
      rw [if_neg (by simp)]
      rw [hL]
      rw [List.append_assoc, List.take_append_drop]

theorem rxFold_fu265_start (ts ssrc b12 b13 ntype maxFrag : Nat)
    (h49 : b12 / 2 % 64 = 49) (hb12 : b12 < 128) (hnt : ntype < 64)
    (hmf : 1 ≤ maxFrag) :
    ∀ (fuel : Nat) (payload : Bytes) (seq : Nat) (st : FrameAsm),
    maxFrag < payload.length → payload.length ≤ fuel → seq < 65536 →
    (st.seqInitialized = false ∨ seq = (st.lastSeq + 1) % 65536) →
    st.frameInProgress = true → st.frameTs = ts → st.codec = .h265 →
    ∃ L : Nat, rxFold 96 st
        (fuLoopH265 96 ssrc ts b12 b13 ntype maxFrag payload true seq
          fuel).1 =
      emitFrame { st with
        frameBuffer := st.frameBuffer ++ [0, 0, 0, 1] ++
          [b12 % 2 + ntype * 2, b13] ++ payload
        frameIsIdr := st.frameIsIdr || isH265Irap ntype
        seqInitialized := true
        lastSeq := L
        h265FuInProgress := false
        h265FuDropMode := false
        h265FuStartOffset := st.frameBuffer.length } ts
  | 0, payload, seq, st, hlong, hf, _, _, _, _, _ => by omega
  | fuel + 1, payload, seq, st, hlong, hf, hs, hch, hip, hfts, hc => by
    have hp : payload ≠ [] := by
      rintro rfl
      simp only [List.length_nil] at hlong
      omega
    simp only [fuLoopH265]
    rw [if_neg hp]
    have hfrag : min maxFrag payload.length = maxFrag := by omega
    rw [hfrag]
    have hl2 : ¬payload.length ≤ maxFrag := by omega
    rw [if_neg hl2]
    simp only [if_true, Nat.add_zero]
    have hm : decide (payload.length ≤ maxFrag) = false := by simp [hl2]
    have hpt2 : payload.take maxFrag ≠ [] := by
      rw [Ne, List.take_eq_nil_iff]
      rintro (h1 | h1)
      · omega
      · exact hp h1
    have hpd : payload.drop maxFrag ≠ [] := by
      rw [Ne, List.drop_eq_nil_iff]
      omega
    obtain ⟨L, hL⟩ := rxFold_fu265_mid ts ssrc b12 b13 ntype maxFrag h49 hnt
      hmf fuel (payload.drop maxFrag) ((seq + 1) % 65536)
      { st with
        frameBuffer := st.frameBuffer ++ [0, 0, 0, 1] ++
          [b12 % 2 + ntype * 2, b13] ++ payload.take maxFrag
        frameIsIdr := st.frameIsIdr || isH265Irap ntype
        seqInitialized := true
        lastSeq := seq
        h265FuInProgress := true
        h265FuDropMode := false
        h265FuStartOffset := st.frameBuffer.length }
      hpd (by simp; omega) (by omega) rfl hip hfts hc rfl rfl
    refine ⟨L, ?_⟩
    rw [rxFold_cons, rxStep_fu265_pkt, lossCheck_benign st seq hch, hm,
      pvp_fu_h265_start { st with seqInitialized := true, lastSeq := seq }
        b12 b13 ntype (payload.take maxFrag) ts false h49 hb12 hnt hpt2 hip
        hfts hc]
    rw [if_neg (by simp)]
    rw [hL]
    simp only [List.append_assoc]
    rw [List.take_append_drop]

theorem rxFold_packFuH265 (p : Packer) (nalu : NaluUnit) (n0 n1 : Nat)
    (t : Bytes) (ts : Nat) (st : FrameAsm)
    (hb : nalu.bytes = n0 :: n1 :: t)
    (hsc : hasSC (n0 :: n1 :: t) = false) (hn0 : n0 < 128) (hn1 : n1 < 256)
    (hlong : p.mtu < (n0 :: n1 :: t).length) (hm4 : 4 ≤ p.mtu)
    (hm64 : p.mtu < 2 ^ 64) (hppt : p.payloadType = 96)
    (hpseq : p.seq < 65536)
    (hch : st.seqInitialized = false ∨ p.seq = (st.lastSeq + 1) % 65536)
    (hip : st.frameInProgress = true) (hfts : st.frameTs = ts)
    (hc : st.codec = .h265) :
    ∃ L : Nat, rxFold 96 st (packFuH265 p nalu ts).1 =
      emitFrame { st with
        frameBuffer := st.frameBuffer ++ [0, 0, 0, 1] ++ n0 :: n1 :: t
        frameIsIdr := st.frameIsIdr || isH265Irap (n0 / 2 % 64)
        seqInitialized := true
        lastSeq := L
        h265FuInProgress := false
        h265FuDropMode := false
        h265FuStartOffset := st.frameBuffer.length } ts := by
  simp only [List.length_cons] at hlong
  obtain ⟨L, hL⟩ := rxFold_fu265_start ts p.ssrc
    (98 + (n0 % 2 * 32 + n1 / 8 % 32) / 32 % 2)
    ((n0 % 2 * 32 + n1 / 8 % 32) % 32 * 8 + n1 % 8) (n0 / 2 % 64)
    (p.mtu - 3) (by omega) (by omega) (by omega) (by omega)
    (t.length + 1) t p.seq st (by omega) (by omega) hpseq hch hip hfts hc
  have hb12 : (98 + (n0 % 2 * 32 + n1 / 8 % 32) / 32 % 2) % 2 +
      n0 / 2 % 64 * 2 = n0 := by omega
  have hb13 : (n0 % 2 * 32 + n1 / 8 % 32) % 32 * 8 + n1 % 8 = n1 := by omega
  rw [hb13, hb12] at hL
  rw [List.append_assoc, show [n0, n1] ++ t = n0 :: n1 :: t from rfl] at hL
  refine ⟨L, ?_⟩
  simp only [packFuH265, hb, stripSC_eq_self hsc]
  rw [if_neg (by simp only [List.length_cons]; omega)]
  simp only [List.getD_cons_succ, List.getD_cons_zero, List.drop_succ_cons,
    List.drop_zero, List.length_cons]
  rw [hppt, show (p.mtu + 2 ^ 64 - 3) % 2 ^ 64 = p.mtu - 3 from by omega,
    hb13]
  exact hL

/-- The per-NALU branch of `H265RtpPacker::packFrame`. -/
def packOneH265 (p : Packer) (nu : NaluUnit) (ts : Nat) :
    List RtpPacket × Packer :=
  if nu.bytes.length = 0 then ([], p)
  else if (stripSC nu.bytes).length < 2 then ([], p)
  else if (stripSC nu.bytes).length ≤ p.mtu then packSingleNaluH265 p nu ts
  else packFuH265 p nu ts

theorem packNalusH265_cons (p : Packer) (ts : Nat) (nu : NaluUnit)
    (ms : List NaluUnit) :
    packNalusH265 p ts (nu :: ms) =
      ((packOneH265 p nu ts).1 ++
          (packNalusH265 (packOneH265 p nu ts).2 ts ms).1,
        (packNalusH265 (packOneH265 p nu ts).2 ts ms).2) := rfl

theorem packNalusH265_nil (p : Packer) (ts : Nat) :
    packNalusH265 p ts [] = ([], p) := rfl

theorem packOneH265_single (p : Packer) (nu : NaluUnit) (n0 n1 : Nat)
    (t : Bytes) (ts : Nat) (hb : nu.bytes = n0 :: n1 :: t)
    (hsc : hasSC (n0 :: n1 :: t) = false)
    (hlen : (n0 :: n1 :: t).length ≤ p.mtu) :
    packOneH265 p nu ts =
      ([⟨rtpHeader12 p.payloadType p.seq ts p.ssrc ++ (n0 :: n1 :: t),
          p.seq, ts, p.ssrc, false⟩],
        { p with seq := (p.seq + 1) % 65536 }) := by
  simp only [packOneH265, hb, stripSC_eq_self hsc]
  rw [if_neg (by simp), if_neg (by simp only [List.length_cons]; omega),
    if_pos hlen]
  simp only [packSingleNaluH265, hb, stripSC_eq_self hsc, getNextSeq]
  rw [if_neg (by simp only [List.length_cons]; omega)]

theorem packOneH265_fu (p : Packer) (nu : NaluUnit) (n0 n1 : Nat)
    (t : Bytes) (ts : Nat) (hb : nu.bytes = n0 :: n1 :: t)
    (hsc : hasSC (n0 :: n1 :: t) = false)
    (hlong : p.mtu < (n0 :: n1 :: t).length) (hm4 : 4 ≤ p.mtu) :
    packOneH265 p nu ts = packFuH265 p nu ts := by
  simp only [packOneH265, hb, stripSC_eq_self hsc]
  simp only [List.length_cons] at hlong
  rw [if_neg (by simp), if_neg (by simp only [List.length_cons]; omega),
    if_neg (by simp only [List.length_cons]; omega)]

theorem fuLoopH265_ne_nil (pt ssrc ts b12 b13 ntype maxFrag : Nat)
    (payload : Bytes) (first : Bool) (seq fuel : Nat) (hp : payload ≠ []) :
    (fuLoopH265 pt ssrc ts b12 b13 ntype maxFrag payload first seq
      (fuel + 1)).1 ≠ [] := by
  simp [fuLoopH265, hp]

theorem fuLoop265_last_shape (pt ssrc ts b12 b13 ntype maxFrag : Nat)
    (hmf : 1 ≤ maxFrag) :
    ∀ (fuel : Nat) (payload : Bytes) (seq : Nat) (first : Bool),
    payload ≠ [] → payload.length ≤ fuel →
    ∃ (qs : List RtpPacket) (q : RtpPacket),
      (fuLoopH265 pt ssrc ts b12 b13 ntype maxFrag payload first seq
        fuel).1 = qs ++ [q] ∧ q.marker = true
  | 0, payload, seq, first, hp, hf => by
    match payload, hp with
    | b :: t, _ => simp at hf
  | fuel + 1, payload, seq, first, hp, hf => by
    simp only [fuLoopH265]
    rw [if_neg hp]
    by_cases hl : payload.length ≤ min maxFrag payload.length
    · have hfrag : min maxFrag payload.length = payload.length := by omega
      rw [hfrag, List.drop_length, fuLoopH265_nil]
      exact ⟨[], _, rfl, by simp⟩
    · have hfrag : min maxFrag payload.length = maxFrag := by omega
      rw [hfrag]
      have hpd : payload.drop maxFrag ≠ [] := by
        rw [Ne, List.drop_eq_nil_iff]
        omega
      obtain ⟨qs, q, hsh, hqm⟩ := fuLoop265_last_shape pt ssrc ts b12 b13
        ntype maxFrag hmf fuel (payload.drop maxFrag) ((seq + 1) % 65536)
        false hpd (by simp; omega)
      rw [hsh]
      exact ⟨_ :: qs, q, rfl, hqm⟩

theorem packFuH265_slm_id (p : Packer) (nu : NaluUnit) (n0 n1 : Nat)
    (t : Bytes) (ts : Nat) (hb : nu.bytes = n0 :: n1 :: t)
    (hsc : hasSC (n0 :: n1 :: t) = false)
    (hlong : p.mtu < t.length + 2) (hm4 : 4 ≤ p.mtu)
    (hm64 : p.mtu < 2 ^ 64) :
    setLastMarker (packFuH265 p nu ts).1 = (packFuH265 p nu ts).1 := by
  have ht : t ≠ [] := by
    intro hx
    subst hx
    simp only [List.length_nil] at hlong
    omega
  simp only [packFuH265, hb, stripSC_eq_self hsc]
  rw [if_neg (by simp only [List.length_cons]; omega)]
  simp only [List.getD_cons_succ, List.getD_cons_zero, List.drop_succ_cons,
    List.drop_zero, List.length_cons]
  rw [show (p.mtu + 2 ^ 64 - 3) % 2 ^ 64 = p.mtu - 3 from by omega]
  obtain ⟨qs, q, hsh, hqm⟩ := fuLoop265_last_shape p.payloadType p.ssrc ts
    (98 + (n0 % 2 * 32 + n1 / 8 % 32) / 32 % 2)
    ((n0 % 2 * 32 + n1 / 8 % 32) % 32 * 8 + n1 % 8) (n0 / 2 % 64)
    (p.mtu - 3) (by omega) (t.length + 1) t p.seq true ht (by omega)
  rw [hsh, setLastMarker_shape_id qs q hqm]

theorem packNalusH265_map_ne (p : Packer) (ts : Nat) :
    ∀ (ns : List Bytes), ns ≠ [] → (∀ n ∈ ns, wfNaluH265 n) →
    4 ≤ p.mtu →
    (packNalusH265 p ts (ns.map fun m => (⟨m, true⟩ : NaluUnit))).1 ≠ []
  | n :: rest, _, hwf, hm4 => by
    obtain ⟨hlen2, hsc, hlt, h48, h49, h50⟩ := hwf n (by simp)
    match n, hlen2 with
    | n0 :: n1 :: t, _ =>
    rw [List.map_cons, packNalusH265_cons]
    intro hx
    have h1 := (List.append_eq_nil.mp hx).1
    by_cases hlen : (n0 :: n1 :: t).length ≤ p.mtu
    · rw [packOneH265_single p _ n0 n1 t ts rfl hsc hlen] at h1
      simp at h1
    · have hlong : p.mtu < t.length + 2 := by
        simp only [List.length_cons] at hlen
        omega
      rw [packOneH265_fu p _ n0 n1 t ts rfl hsc
        (by simp only [List.length_cons]; omega) hm4] at h1
      revert h1
      simp only [packFuH265, stripSC_eq_self hsc]
      rw [if_neg (by simp only [List.length_cons]; omega)]
      simp only [List.getD_cons_succ, List.getD_cons_zero,
        List.drop_succ_cons, List.drop_zero, List.length_cons]
      exact fuLoopH265_ne_nil _ _ _ _ _ _ _ t true p.seq t.length
        (by intro hx2
            subst hx2
            simp only [List.length_nil] at hlong
            omega)

theorem rxFold_packNalus_h265 :
    ∀ (ns : List Bytes) (p : Packer) (st : FrameAsm) (ts : Nat),
    (∀ n ∈ ns, wfNaluH265 n) →
    (∀ n ∈ ns, ∀ b ∈ n, b < 256) →
    (∀ n ∈ ns.dropLast, n.length ≤ p.mtu) →
    4 ≤ p.mtu → p.mtu < 2 ^ 64 → p.payloadType = 96 → p.seq < 65536 →
    (st.seqInitialized = false ∨ p.seq = (st.lastSeq + 1) % 65536) →
    st.frameInProgress = true → st.frameTs = ts → st.codec = .h265 →
    st.h265FuInProgress = false → st.h265FuDropMode = false → ns ≠ [] →
    ∃ L off : Nat, rxFold 96 st
        (setLastMarker
          (packNalusH265 p ts (ns.map fun m => (⟨m, true⟩ : NaluUnit))).1) =
      emitFrame { st with
        frameBuffer := st.frameBuffer ++ annexB ns
        frameIsIdr := st.frameIsIdr ||
          ns.any fun n => isH265Irap (n.getD 0 0 / 2 % 64)
        seqInitialized := true
        lastSeq := L
        h265FuInProgress := false
        h265FuDropMode := false
        h265FuStartOffset := off } ts
  | [], _, _, _, _, _, _, _, _, _, _, _, _, _, _, _, _, hne =>
    absurd rfl hne
  | [n], p, st, ts, hwf, hby, hmtu, hm4, hm64, hppt, hpseq, hch, hip, hfts,
      hc, hfip, hdm, _ => by
    obtain ⟨hlen2, hsc, hlt, h48, h49, h50⟩ := hwf n (by simp)
    match n, hlen2 with
    | n0 :: n1 :: t, _ =>
    simp only [List.getD_cons_zero] at hlt h48 h49 h50
    by_cases hlen : (n0 :: n1 :: t).length ≤ p.mtu
    · have hlist : (packNalusH265 p ts
          [(⟨n0 :: n1 :: t, true⟩ : NaluUnit)]).1 =
          [⟨rtpHeader12 96 p.seq ts p.ssrc ++ (n0 :: n1 :: t), p.seq, ts,
            p.ssrc, false⟩] := by
        rw [packNalusH265_cons,
          packOneH265_single p _ n0 n1 t ts rfl hsc hlen, hppt]
        rfl
      refine ⟨p.seq, st.h265FuStartOffset, ?_⟩
      rw [List.map_cons, List.map_nil, hlist,
        show setLastMarker [(⟨rtpHeader12 96 p.seq ts p.ssrc ++
            (n0 :: n1 :: t), p.seq, ts, p.ssrc, false⟩ : RtpPacket)] =
          [⟨rtpHeader12 96 p.seq ts p.ssrc ++ (n0 :: n1 :: t), p.seq, ts,
            p.ssrc, true⟩] from rfl,
        rxFold_cons, rxFold_nil, rxStep_pkt,
        lossCheck_benign st p.seq hch,
        pvp_single_h265 { st with seqInitialized := true, lastSeq := p.seq }
          n0 n1 t ts true h48 h49 h50 hip hfts hc hdm,
        if_pos rfl]
      rw [hfip, hdm]
      simp only [annexB_cons, annexB_nil, List.append_nil, List.any_cons,
        List.any_nil, Bool.or_false, List.getD_cons_zero, List.append_assoc,
        List.cons_append, List.nil_append]
    · have hlong : p.mtu < t.length + 2 := by
        simp only [List.length_cons] at hlen
        omega
      have hlist : (packNalusH265 p ts
          [(⟨n0 :: n1 :: t, true⟩ : NaluUnit)]).1 =
          (packFuH265 p ⟨n0 :: n1 :: t, true⟩ ts).1 := by
        rw [packNalusH265_cons, packOneH265_fu p _ n0 n1 t ts rfl hsc
          (by simp only [List.length_cons]; omega) hm4]
        show (packFuH265 p ⟨n0 :: n1 :: t, true⟩ ts).1 ++ [] = _
        rw [List.append_nil]
      obtain ⟨L, hL⟩ := rxFold_packFuH265 p ⟨n0 :: n1 :: t, true⟩ n0 n1 t ts
        st rfl hsc hlt (hby (n0 :: n1 :: t) (by simp) n1 (by simp))
        (by simp only [List.length_cons]; omega) hm4 hm64 hppt hpseq hch hip
        hfts hc
      refine ⟨L, st.frameBuffer.length, ?_⟩
      rw [List.map_cons, List.map_nil, hlist,
        packFuH265_slm_id p _ n0 n1 t ts rfl hsc hlong hm4 hm64, hL]
      simp only [annexB_cons, annexB_nil, List.append_nil, List.any_cons,
        List.any_nil, Bool.or_false, List.getD_cons_zero, List.append_assoc,
        List.cons_append, List.nil_append]
  | n :: n2 :: rest, p, st, ts, hwf, hby, hmtu, hm4, hm64, hppt, hpseq, hch,
      hip, hfts, hc, hfip, hdm, _ => by
    obtain ⟨hlen2, hsc, hlt, h48, h49, h50⟩ := hwf n (by simp)
    match n, hlen2 with
    | n0 :: n1 :: t, _ =>
    simp only [List.getD_cons_zero] at hlt h48 h49 h50
    have hlen : (n0 :: n1 :: t).length ≤ p.mtu := hmtu _ (by simp)
    have hlist : (packNalusH265 p ts
        (((n0 :: n1 :: t) :: n2 :: rest).map
          fun m => (⟨m, true⟩ : NaluUnit))).1 =
        [⟨rtpHeader12 96 p.seq ts p.ssrc ++ (n0 :: n1 :: t), p.seq, ts,
          p.ssrc, false⟩] ++
        (packNalusH265 { p with seq := (p.seq + 1) % 65536 } ts
          ((n2 :: rest).map fun m => (⟨m, true⟩ : NaluUnit))).1 := by
      rw [List.map_cons, packNalusH265_cons,
        packOneH265_single p _ n0 n1 t ts rfl hsc hlen, hppt]
    have hrest_ne : (packNalusH265 { p with seq := (p.seq + 1) % 65536 } ts
        ((n2 :: rest).map fun m => (⟨m, true⟩ : NaluUnit))).1 ≠ [] :=
      packNalusH265_map_ne _ ts (n2 :: rest) (by simp)
        (fun x hx => hwf x (by simp [hx])) hm4
    have hstep : rxStep 96 st
        ⟨rtpHeader12 96 p.seq ts p.ssrc ++ (n0 :: n1 :: t), p.seq, ts,
          p.ssrc, false⟩ =
        { st with
          frameBuffer := st.frameBuffer ++ [0, 0, 0, 1] ++ (n0 :: n1 :: t)
          frameIsIdr := st.frameIsIdr || isH265Irap (n0 / 2 % 64)
          seqInitialized := true
          lastSeq := p.seq } := by
      rw [rxStep_pkt, lossCheck_benign st p.seq hch,
        pvp_single_h265 { st with seqInitialized := true, lastSeq := p.seq }
          n0 n1 t ts false h48 h49 h50 hip hfts hc hdm,
        if_neg (by simp)]
    obtain ⟨L, off, hL⟩ := rxFold_packNalus_h265 (n2 :: rest)
      { p with seq := (p.seq + 1) % 65536 }
      { st with
        frameBuffer := st.frameBuffer ++ [0, 0, 0, 1] ++ (n0 :: n1 :: t)
        frameIsIdr := st.frameIsIdr || isH265Irap (n0 / 2 % 64)
        seqInitialized := true
        lastSeq := p.seq } ts
      (fun x hx => hwf x (by simp [hx]))
      (fun x hx => hby x (by simp [hx]))
      (fun x hx => hmtu x (by
        simp only [List.dropLast_cons₂]
        exact List.mem_cons_of_mem _ hx))
      hm4 hm64 hppt (Nat.mod_lt _ (by omega)) (Or.inr rfl) hip hfts hc hfip
      hdm (by simp)
    refine ⟨L, off, ?_⟩
    rw [hlist, setLastMarker_append _ _ hrest_ne, rxFold_append, rxFold_cons,
      rxFold_nil, hstep, hL]
    simp only [annexB_cons, List.append_assoc, List.cons_append,
      List.nil_append, List.any_cons, List.getD_cons_zero, Bool.or_assoc]

theorem wireBytes_header (pt seq ts ssrc : Nat) (m : Bool)
    (payload : Bytes) (hpt : pt < 128) :
    wireBytes ⟨rtpHeader12 pt seq ts ssrc ++ payload, seq, ts, ssrc, m⟩ =
      128 :: (pt + if m then 128 else 0) :: byteAt seq 8 :: seq % 256 ::
      byteAt ts 24 :: byteAt ts 16 :: byteAt ts 8 :: ts % 256 ::
      byteAt ssrc 24 :: byteAt ssrc 16 :: byteAt ssrc 8 :: ssrc % 256 ::
      payload := by
  rw [wireBytes]
  simp only [rtpHeader12, List.cons_append, List.nil_append]
  rw [Nat.mod_eq_of_lt hpt]

set_option maxRecDepth 4096 in
/-- Parsing a marker-serialised packer packet: fixed header fields
(V=2, no CSRC/extension/padding), so the payload goes straight to
`processVideoPayload` after the loss check. -/
theorem processRtpPacket_wire (st : FrameAsm) (pt seq ts ssrc : Nat)
    (m : Bool) (payload : Bytes) (hpt : pt < 128) (hs : seq < 65536)
    (hts : ts < 2 ^ 32) (hp : payload ≠ []) :
    processRtpPacket st
      (wireBytes ⟨rtpHeader12 pt seq ts ssrc ++ payload, seq, ts, ssrc, m⟩) =
      processVideoPayload (lossCheck st seq) payload ts m pt := by
  rw [wireBytes_header pt seq ts ssrc m payload hpt]
  set d := 128 :: (pt + if m then 128 else 0) :: byteAt seq 8 :: seq % 256 ::
      byteAt ts 24 :: byteAt ts 16 :: byteAt ts 8 :: ts % 256 ::
      byteAt ssrc 24 :: byteAt ssrc 16 :: byteAt ssrc 8 :: ssrc % 256 ::
      payload with hd
  have hlen : d.length = 12 + payload.length := by
    rw [hd]
    simp only [List.length_cons]
    omega
  have h0 : d.getD 0 0 = 128 := rfl
  have h1 : d.getD 1 0 = pt + if m then 128 else 0 := rfl
  have hhl : rtpHeaderLen d = some 12 := by
    simp only [rtpHeaderLen, h0, hlen]
    norm_num
  have hpl : rtpPayloadLen d 12 = some payload.length := by
    simp only [rtpPayloadLen, h0, hlen]
    norm_num
  have hseq : d.getD 2 0 * 256 + d.getD 3 0 = seq := by
    show byteAt seq 8 * 256 + seq % 256 = seq
    rw [byteAt]
    omega
  have htsv : d.getD 4 0 * 2 ^ 24 + d.getD 5 0 * 2 ^ 16 +
      d.getD 6 0 * 2 ^ 8 + d.getD 7 0 = ts := by
    show byteAt ts 24 * 2 ^ 24 + byteAt ts 16 * 2 ^ 16 +
      byteAt ts 8 * 2 ^ 8 + ts % 256 = ts
    rw [byteAt, byteAt, byteAt]
    omega
  have hmb : decide (d.getD 1 0 / 128 % 2 = 1) = m := by
    rw [h1]
    rcases m with _ | _ <;> simp <;> omega
  have hptv : d.getD 1 0 % 128 = pt := by
    rw [h1]
    rcases m with _ | _ <;> simp <;> omega
  have hdrop : (d.drop 12).take payload.length = payload := by
    rw [hd]
    simp
  simp only [processRtpPacket, hlen, h0, hhl, hpl, hseq, htsv, hptv, hmb,
    hdrop]
  rw [if_neg (by omega), if_neg (by norm_num),
    if_neg (fun hc => hp (List.length_eq_zero.mp hc))]


/-- A contiguous, single-timestamp RTP packet stream as the packetizer
emits it: consecutive 16-bit sequence numbers from `s`, a common
timestamp, and bytes consisting of the 12-byte header followed by a
nonempty payload. -/
def wfStream (ts ssrc : Nat) : Nat → List RtpPacket → Prop
  | _, [] => True
  | s, q :: t =>
    q.seq = s ∧ s < 65536 ∧ q.timestamp = ts ∧
      (∃ pl, pl ≠ [] ∧ q.bytes = rtpHeader12 96 s ts ssrc ++ pl) ∧
      wfStream ts ssrc ((s + 1) % 65536) t

theorem wfStream_append (ts ssrc : Nat) :
    ∀ (a b : List RtpPacket) (s : Nat), wfStream ts ssrc s a →
    wfStream ts ssrc ((s + a.length) % 65536) b → s < 65536 →
    wfStream ts ssrc s (a ++ b)
  | [], b, s, _, hb, hs => by
    simpa [Nat.mod_eq_of_lt hs] using hb
  | q :: a, b, s, ⟨h1, h2, h3, h4, h5⟩, hb, hs =>
    ⟨h1, h2, h3, h4,
      wfStream_append ts ssrc a b ((s + 1) % 65536) h5
        (by
          rw [show ((s + 1) % 65536 + a.length) % 65536 =
            (s + (q :: a).length) % 65536 from by
              simp only [List.length_cons]
              omega]
          exact hb)
        (Nat.mod_lt _ (by omega))⟩

theorem wfStream_setLastMarker (ts ssrc : Nat) :
    ∀ (l : List RtpPacket) (s : Nat), wfStream ts ssrc s l →
    wfStream ts ssrc s (setLastMarker l)
  | [], _, _ => trivial
  | [q], s, ⟨h1, h2, h3, h4, _⟩ => ⟨h1, h2, h3, h4, trivial⟩
  | q :: q2 :: r, s, ⟨h1, h2, h3, h4, h5⟩ =>
    ⟨h1, h2, h3, h4, wfStream_setLastMarker ts ssrc (q2 :: r) _ h5⟩

theorem fuaLoop_wfStream (ts ssrc fuInd ntype maxFrag : Nat) :
    ∀ (fuel : Nat) (payload : Bytes) (seq : Nat) (first : Bool),
    seq < 65536 →
    wfStream ts ssrc seq
      (fuaLoop 96 ssrc ts fuInd ntype maxFrag payload first seq fuel).1
  | 0, _, _, _, _ => trivial
  | fuel + 1, payload, seq, first, hs => by
    by_cases hp : payload = []
    · simp only [fuaLoop, hp, if_pos rfl]
      trivial
    · simp only [fuaLoop]
      rw [if_neg hp]
      exact ⟨rfl, hs, rfl,
        ⟨_, by simp, List.append_assoc _ _ _⟩,
        fuaLoop_wfStream ts ssrc fuInd ntype maxFrag fuel _ _ false
          (Nat.mod_lt _ (by omega))⟩

theorem fuaLoop_end (pt ssrc ts fuInd ntype maxFrag : Nat) :
    ∀ (fuel : Nat) (payload : Bytes) (seq : Nat) (first : Bool),
    seq < 65536 →
    (fuaLoop pt ssrc ts fuInd ntype maxFrag payload first seq fuel).2 =
      (seq +
        (fuaLoop pt ssrc ts fuInd ntype maxFrag payload first seq
          fuel).1.length) % 65536
  | 0, _, seq, _, hs => by
    simp only [fuaLoop, List.length_nil, Nat.add_zero, Nat.mod_eq_of_lt hs]
  | fuel + 1, payload, seq, first, hs => by
    by_cases hp : payload = []
    · simp only [fuaLoop, hp, if_true, eq_self_iff_true, List.length_nil,
        Nat.add_zero, Nat.mod_eq_of_lt hs]
    · simp only [fuaLoop]
      rw [if_neg hp]
      simp only [List.length_cons]
      rw [fuaLoop_end pt ssrc ts fuInd ntype maxFrag fuel _ _ false
        (Nat.mod_lt _ (by omega))]
      omega

theorem fuLoopH265_wfStream (ts ssrc b12 b13 ntype maxFrag : Nat) :
    ∀ (fuel : Nat) (payload : Bytes) (seq : Nat) (first : Bool),
    seq < 65536 →
    wfStream ts ssrc seq
      (fuLoopH265 96 ssrc ts b12 b13 ntype maxFrag payload first seq
        fuel).1
  | 0, _, _, _, _ => trivial
  | fuel + 1, payload, seq, first, hs => by
    by_cases hp : payload = []
    · simp only [fuLoopH265, hp, if_pos rfl]
      trivial
    · simp only [fuLoopH265]
      rw [if_neg hp]
      exact ⟨rfl, hs, rfl,
        ⟨_, by simp, List.append_assoc _ _ _⟩,
        fuLoopH265_wfStream ts ssrc b12 b13 ntype maxFrag fuel _ _ false
          (Nat.mod_lt _ (by omega))⟩

theorem fuLoopH265_end (pt ssrc ts b12 b13 ntype maxFrag : Nat) :
    ∀ (fuel : Nat) (payload : Bytes) (seq : Nat) (first : Bool),
    seq < 65536 →
    (fuLoopH265 pt ssrc ts b12 b13 ntype maxFrag payload first seq
      fuel).2 =
      (seq +
        (fuLoopH265 pt ssrc ts b12 b13 ntype maxFrag payload first seq
          fuel).1.length) % 65536
  | 0, _, seq, _, hs => by
    simp only [fuLoopH265, List.length_nil, Nat.add_zero,
      Nat.mod_eq_of_lt hs]
  | fuel + 1, payload, seq, first, hs => by
    by_cases hp : payload = []
    · simp only [fuLoopH265, hp, if_true, eq_self_iff_true, List.length_nil,
        Nat.add_zero, Nat.mod_eq_of_lt hs]
    · simp only [fuLoopH265]
      rw [if_neg hp]
      simp only [List.length_cons]
      rw [fuLoopH265_end pt ssrc ts b12 b13 ntype maxFrag fuel _ _ false
        (Nat.mod_lt _ (by omega))]
      omega

theorem packFuA_stream (p : Packer) (nu : NaluUnit) (n0 : Nat) (t : Bytes)
    (ts : Nat) (hb : nu.bytes = n0 :: t) (hsc : hasSC (n0 :: t) = false)
    (hlong : p.mtu < t.length + 1) (hm3 : 3 ≤ p.mtu)
    (hppt : p.payloadType = 96) (hpseq : p.seq < 65536) :
    wfStream ts p.ssrc p.seq (packFuAH264 p nu ts).1 ∧
    (packFuAH264 p nu ts).2 =
      { p with
        seq := (p.seq + (packFuAH264 p nu ts).1.length) % 65536 } := by
  simp only [packFuAH264, hb, stripSC_eq_self hsc]
  rw [if_neg (by simp only [List.length_cons]; omega)]
  simp only [List.getD_cons_zero, List.tail_cons, List.length_cons, hppt]
  constructor
  · exact fuaLoop_wfStream ts p.ssrc _ _ _ (t.length + 1) t p.seq true hpseq
  · rw [fuaLoop_end 96 p.ssrc ts _ _ _ (t.length + 1) t p.seq true hpseq]

theorem packFuH265_stream (p : Packer) (nu : NaluUnit) (n0 n1 : Nat)
    (t : Bytes) (ts : Nat) (hb : nu.bytes = n0 :: n1 :: t)
    (hsc : hasSC (n0 :: n1 :: t) = false) (hlong : p.mtu < t.length + 2)
    (hm4 : 4 ≤ p.mtu) (hppt : p.payloadType = 96) (hpseq : p.seq < 65536) :
    wfStream ts p.ssrc p.seq (packFuH265 p nu ts).1 ∧
    (packFuH265 p nu ts).2 =
      { p with
        seq := (p.seq + (packFuH265 p nu ts).1.length) % 65536 } := by
  simp only [packFuH265, hb, stripSC_eq_self hsc]
  rw [if_neg (by simp only [List.length_cons]; omega)]
  simp only [List.getD_cons_succ, List.getD_cons_zero, List.drop_succ_cons,
    List.drop_zero, List.length_cons, hppt]
  constructor
  · exact fuLoopH265_wfStream ts p.ssrc _ _ _ _ (t.length + 1) t p.seq true
      hpseq
  · rw [fuLoopH265_end 96 p.ssrc ts _ _ _ _ (t.length + 1) t p.seq true
      hpseq]

theorem packNalusH264_stream (ts : Nat) :
    ∀ (ns : List Bytes) (p : Packer), (∀ n ∈ ns, wfNaluH264 n) →
    p.payloadType = 96 → p.seq < 65536 → 3 ≤ p.mtu →
    wfStream ts p.ssrc p.seq
      (packNalusH264 p ts (ns.map fun m => (⟨m, true⟩ : NaluUnit))).1 ∧
    (packNalusH264 p ts (ns.map fun m => (⟨m, true⟩ : NaluUnit))).2.seq =
      (p.seq +
        (packNalusH264 p ts
          (ns.map fun m => (⟨m, true⟩ : NaluUnit))).1.length) % 65536
  | [], p, _, hppt, hpseq, hm3 => by
    constructor
    · trivial
    · simp only [List.map_nil, packNalusH264_nil, List.length_nil,
        Nat.add_zero, Nat.mod_eq_of_lt hpseq]
  | n :: rest, p, hwf, hppt, hpseq, hm3 => by
    obtain ⟨hne2, hsc, hlt, hge1, hle23⟩ := hwf n (by simp)
    match n, hne2 with
    | n0 :: t, _ =>
    rw [List.map_cons, packNalusH264_cons]
    by_cases hlen : (n0 :: t).length ≤ p.mtu
    · have h1 : (packOneH264 p ⟨n0 :: t, true⟩ ts).1 =
          [⟨rtpHeader12 p.payloadType p.seq ts p.ssrc ++ (n0 :: t), p.seq,
            ts, p.ssrc, false⟩] := by
        rw [packOneH264_single p _ n0 t ts rfl hsc hlen]
      have h2 : (packOneH264 p ⟨n0 :: t, true⟩ ts).2 =
          { p with seq := (p.seq + 1) % 65536 } := by
        rw [packOneH264_single p _ n0 t ts rfl hsc hlen]
      rw [h1, h2]
      obtain ⟨ih1, ih2⟩ := packNalusH264_stream ts rest
        { p with seq := (p.seq + 1) % 65536 }
        (fun x hx => hwf x (by simp [hx])) hppt (Nat.mod_lt _ (by omega))
        hm3
      constructor
      · exact wfStream_append ts p.ssrc _ _ p.seq
          ⟨rfl, hpseq, rfl, ⟨n0 :: t, by simp, by rw [hppt]⟩, trivial⟩
          ih1 hpseq
      · rw [ih2,
          show ({ p with seq := (p.seq + 1) % 65536 } : Packer).seq =
            (p.seq + 1) % 65536 from rfl]
        simp only [List.length_append, List.length_cons, List.length_nil]
        omega
    · have hlong : p.mtu < t.length + 1 := by
        simp only [List.length_cons] at hlen
        omega
      have h2 : (packOneH264 p ⟨n0 :: t, true⟩ ts).2 =
          (packFuAH264 p ⟨n0 :: t, true⟩ ts).2 := by
        rw [packOneH264_fua p _ n0 t ts rfl hsc
          (by simp only [List.length_cons]; omega)]
      have h1 : (packOneH264 p ⟨n0 :: t, true⟩ ts).1 =
          (packFuAH264 p ⟨n0 :: t, true⟩ ts).1 := by
        rw [packOneH264_fua p _ n0 t ts rfl hsc
          (by simp only [List.length_cons]; omega)]
      rw [h1, h2]
      obtain ⟨hfs, hfe⟩ := packFuA_stream p ⟨n0 :: t, true⟩ n0 t ts rfl hsc
        hlong hm3 hppt hpseq
      rw [hfe]
      obtain ⟨ih1, ih2⟩ := packNalusH264_stream ts rest
        { p with
          seq := (p.seq +
            (packFuAH264 p ⟨n0 :: t, true⟩ ts).1.length) % 65536 }
        (fun x hx => hwf x (by simp [hx])) hppt (Nat.mod_lt _ (by omega))
        hm3
      constructor
      · exact wfStream_append ts p.ssrc _ _ p.seq hfs ih1 hpseq
      · rw [ih2,
          show ({ p with
            seq := (p.seq +
              (packFuAH264 p ⟨n0 :: t, true⟩ ts).1.length) % 65536 }
              : Packer).seq =
            (p.seq +
              (packFuAH264 p ⟨n0 :: t, true⟩ ts).1.length) % 65536
            from rfl]
        simp only [List.length_append]
        omega

theorem packNalusH265_stream (ts : Nat) :
    ∀ (ns : List Bytes) (p : Packer), (∀ n ∈ ns, wfNaluH265 n) →
    p.payloadType = 96 → p.seq < 65536 → 4 ≤ p.mtu →
    wfStream ts p.ssrc p.seq
      (packNalusH265 p ts (ns.map fun m => (⟨m, true⟩ : NaluUnit))).1 ∧
    (packNalusH265 p ts (ns.map fun m => (⟨m, true⟩ : NaluUnit))).2.seq =
      (p.seq +
        (packNalusH265 p ts
          (ns.map fun m => (⟨m, true⟩ : NaluUnit))).1.length) % 65536
  | [], p, _, hppt, hpseq, hm4 => by
    constructor
    · trivial
    · simp only [List.map_nil, packNalusH265_nil, List.length_nil,
        Nat.add_zero, Nat.mod_eq_of_lt hpseq]
  | n :: rest, p, hwf, hppt, hpseq, hm4 => by
    obtain ⟨hlen2, hsc, hlt, h48, h49, h50⟩ := hwf n (by simp)
    match n, hlen2 with
    | n0 :: n1 :: t, _ =>
    rw [List.map_cons, packNalusH265_cons]
    by_cases hlen : (n0 :: n1 :: t).length ≤ p.mtu
    · have h1 : (packOneH265 p ⟨n0 :: n1 :: t, true⟩ ts).1 =
          [⟨rtpHeader12 p.payloadType p.seq ts p.ssrc ++ (n0 :: n1 :: t),
            p.seq, ts, p.ssrc, false⟩] := by
        rw [packOneH265_single p _ n0 n1 t ts rfl hsc hlen]
      have h2 : (packOneH265 p ⟨n0 :: n1 :: t, true⟩ ts).2 =
          { p with seq := (p.seq + 1) % 65536 } := by
        rw [packOneH265_single p _ n0 n1 t ts rfl hsc hlen]
      rw [h1, h2]
      obtain ⟨ih1, ih2⟩ := packNalusH265_stream ts rest
        { p with seq := (p.seq + 1) % 65536 }
        (fun x hx => hwf x (by simp [hx])) hppt (Nat.mod_lt _ (by omega))
        hm4
      constructor
      · exact wfStream_append ts p.ssrc _ _ p.seq
          ⟨rfl, hpseq, rfl, ⟨n0 :: n1 :: t, by simp, by rw [hppt]⟩, trivial⟩
          ih1 hpseq
      · rw [ih2,
          show ({ p with seq := (p.seq + 1) % 65536 } : Packer).seq =
            (p.seq + 1) % 65536 from rfl]
        simp only [List.length_append, List.length_cons, List.length_nil]
        omega
    · have hlong : p.mtu < t.length + 2 := by
        simp only [List.length_cons] at hlen
        omega
      have h2 : (packOneH265 p ⟨n0 :: n1 :: t, true⟩ ts).2 =
          (packFuH265 p ⟨n0 :: n1 :: t, true⟩ ts).2 := by
        rw [packOneH265_fu p _ n0 n1 t ts rfl hsc
          (by simp only [List.length_cons]; omega) hm4]
      have h1 : (packOneH265 p ⟨n0 :: n1 :: t, true⟩ ts).1 =
          (packFuH265 p ⟨n0 :: n1 :: t, true⟩ ts).1 := by
        rw [packOneH265_fu p _ n0 n1 t ts rfl hsc
          (by simp only [List.length_cons]; omega) hm4]
      rw [h1, h2]
      obtain ⟨hfs, hfe⟩ := packFuH265_stream p ⟨n0 :: n1 :: t, true⟩ n0 n1 t
        ts rfl hsc hlong hm4 hppt hpseq
      rw [hfe]
      obtain ⟨ih1, ih2⟩ := packNalusH265_stream ts rest
        { p with
          seq := (p.seq +
            (packFuH265 p ⟨n0 :: n1 :: t, true⟩ ts).1.length) % 65536 }
        (fun x hx => hwf x (by simp [hx])) hppt (Nat.mod_lt _ (by omega))
        hm4
      constructor
      · exact wfStream_append ts p.ssrc _ _ p.seq hfs ih1 hpseq
      · rw [ih2,
          show ({ p with
            seq := (p.seq +
              (packFuH265 p ⟨n0 :: n1 :: t, true⟩ ts).1.length) % 65536 }
              : Packer).seq =
            (p.seq +
              (packFuH265 p ⟨n0 :: n1 :: t, true⟩ ts).1.length) % 65536
            from rfl]
        simp only [List.length_append]
        omega

theorem feed_cons (R : Receiver) (d : Bytes) (ds : List Bytes) :
    feed R (d :: ds) = feed (ingestRtpPacket R (some d)) ds := rfl

theorem feed_nil (R : Receiver) : feed R [] = R := rfl

/-- One in-order datagram on an empty reorder buffer: it is inserted,
immediately drained (processing it), and the expected sequence number
advances. -/
theorem ingest_one (R : Receiver) (d : Bytes) (sq : Nat)
    (h12 : ¬d.length < 12) (hsq : d.getD 2 0 * 256 + d.getD 3 0 = sq)
    (hb : R.reorderBuffer = [])
    (hinit : R.reorderInitialized = false ∨
      (R.reorderInitialized = true ∧ R.expectedSeq = sq)) :
    ingestRtpPacket R (some d) =
      { R with
        asm := processRtpPacket R.asm d
        reorderBuffer := []
        reorderInitialized := true
        expectedSeq := (sq + 1) % 65536
        packetsReceived := R.packetsReceived + 1 } := by
  simp only [ingestRtpPacket]
  rw [if_neg h12]
  rcases hinit with hin | ⟨hin1, hin2⟩
  · simp only [ingestPre, hsq, hb, hin]
    norm_num
    simp only [mapInsert, List.length_cons, List.length_nil, drainLoop,
      mapFind, mapErase, if_pos rfl, forcedDrain, List.length_nil]
    norm_num
  · simp only [ingestPre, hsq, hb, hin1]
    rw [if_neg (by simpa using hin2.symm)]
    simp only [mapInsert, List.length_cons, List.length_nil, drainLoop,
      mapFind, mapErase, hin2, if_pos rfl, forcedDrain]
    norm_num

theorem feed_init (ts ssrc : Nat) (hts : ts < 2 ^ 32) :
    ∀ (qs : List RtpPacket) (R : Receiver) (s : Nat),
    wfStream ts ssrc s qs → s < 65536 →
    R.reorderBuffer = [] → R.reorderInitialized = true →
    R.expectedSeq = s →
    (feed R (qs.map wireBytes)).asm = rxFold 96 R.asm qs ∧
    (feed R (qs.map wireBytes)).reorderBuffer = [] ∧
    (feed R (qs.map wireBytes)).reorderInitialized = true ∧
    (feed R (qs.map wireBytes)).expectedSeq = (s + qs.length) % 65536
  | [], R, s, _, hs, hb, hri, he => by
    refine ⟨rfl, hb, hri, ?_⟩
    simp only [List.map_nil, feed_nil, List.length_nil, Nat.add_zero,
      Nat.mod_eq_of_lt hs]
    exact he
  | q :: t, R, s, hw, hs, hb, hri, he => by
    obtain ⟨hq, hlt, hqts, ⟨pl, hpl, hqb⟩, hrest⟩ := hw
    obtain ⟨qb, qsq, qts, qss, qm⟩ := q
    simp only at hq hqts hqb
    symm at hq hqts
    subst hq hqts hqb
    have hww : wireBytes ⟨rtpHeader12 96 s ts ssrc ++ pl, s, ts, qss, qm⟩ =
        wireBytes ⟨rtpHeader12 96 s ts ssrc ++ pl, s, ts, ssrc, qm⟩ := rfl
    have hwb := hww.trans (wireBytes_header 96 s ts ssrc qm pl (by omega))
    have h12 : ¬(wireBytes
        ⟨rtpHeader12 96 s ts ssrc ++ pl, s, ts, qss, qm⟩).length < 12 := by
      rw [hwb]
      simp
    have hsq : (wireBytes
          ⟨rtpHeader12 96 s ts ssrc ++ pl, s, ts, qss, qm⟩).getD 2 0 * 256 +
        (wireBytes
          ⟨rtpHeader12 96 s ts ssrc ++ pl, s, ts, qss, qm⟩).getD 3 0 = s := by
      rw [hwb]
      show byteAt s 8 * 256 + s % 256 = s
      rw [byteAt]
      omega
    have hasm : processRtpPacket R.asm (wireBytes
        ⟨rtpHeader12 96 s ts ssrc ++ pl, s, ts, qss, qm⟩) =
        processVideoPayload (lossCheck R.asm s) pl ts qm 96 := by
      rw [hww]
      exact processRtpPacket_wire R.asm 96 s ts ssrc qm pl (by omega) hlt
        hts hpl
    rw [List.map_cons, feed_cons,
      ingest_one R _ s h12 hsq hb (Or.inr ⟨hri, he⟩), hasm]
    obtain ⟨ih1, ih2, ih3, ih4⟩ := feed_init ts ssrc hts t
      { R with
        asm := processVideoPayload (lossCheck R.asm s) pl ts qm 96
        reorderBuffer := []
        reorderInitialized := true
        expectedSeq := (s + 1) % 65536
        packetsReceived := R.packetsReceived + 1 }
      ((s + 1) % 65536) hrest (Nat.mod_lt _ (by omega)) rfl rfl rfl
    refine ⟨?_, ih2, ih3, ?_⟩
    · rw [ih1, rxFold_cons, rxStep_pkt]
    · rw [ih4]
      simp only [List.length_cons]
      omega

theorem feed_fresh_asm (c : Codec) (ts ssrc : Nat) (qs : List RtpPacket)
    (s : Nat) (hw : wfStream ts ssrc s qs) (hts : ts < 2 ^ 32) :
    (feed (freshReceiver c) (qs.map wireBytes)).asm =
      rxFold 96 (freshReceiver c).asm qs := by
  cases qs with
  | nil => rfl
  | cons q t =>
    obtain ⟨hq, hlt, hqts, ⟨pl, hpl, hqb⟩, hrest⟩ := hw
    obtain ⟨qb, qsq, qts, qss, qm⟩ := q
    simp only at hq hqts hqb
    symm at hq hqts
    subst hq hqts hqb
    have hww : wireBytes ⟨rtpHeader12 96 s ts ssrc ++ pl, s, ts, qss, qm⟩ =
        wireBytes ⟨rtpHeader12 96 s ts ssrc ++ pl, s, ts, ssrc, qm⟩ := rfl
    have hwb := hww.trans (wireBytes_header 96 s ts ssrc qm pl (by omega))
    have h12 : ¬(wireBytes
        ⟨rtpHeader12 96 s ts ssrc ++ pl, s, ts, qss, qm⟩).length < 12 := by
      rw [hwb]
      simp
    have hsq : (wireBytes
          ⟨rtpHeader12 96 s ts ssrc ++ pl, s, ts, qss, qm⟩).getD 2 0 * 256 +
        (wireBytes
          ⟨rtpHeader12 96 s ts ssrc ++ pl, s, ts, qss, qm⟩).getD 3 0 = s := by
      rw [hwb]
      show byteAt s 8 * 256 + s % 256 = s
      rw [byteAt]
      omega
    have hasm : processRtpPacket (freshReceiver c).asm (wireBytes
        ⟨rtpHeader12 96 s ts ssrc ++ pl, s, ts, qss, qm⟩) =
        processVideoPayload (lossCheck (freshReceiver c).asm s) pl ts qm
          96 := by
      rw [hww]
      exact processRtpPacket_wire (freshReceiver c).asm 96 s ts ssrc qm pl
        (by omega) hlt hts hpl
    rw [List.map_cons, feed_cons,
      ingest_one (freshReceiver c) _ s h12 hsq rfl (Or.inl rfl), hasm]
    obtain ⟨ih1, -, -, -⟩ := feed_init ts ssrc hts t
      { freshReceiver c with
        asm := processVideoPayload (lossCheck (freshReceiver c).asm s) pl ts
          qm 96
        reorderBuffer := []
        reorderInitialized := true
        expectedSeq := (s + 1) % 65536
        packetsReceived := (freshReceiver c).packetsReceived + 1 }
      ((s + 1) % 65536) hrest (Nat.mod_lt _ (by omega)) rfl rfl rfl
    rw [ih1, rxFold_cons, rxStep_pkt]

theorem scAt_none_of_not_startsSC {l : Bytes} (h : startsSC l = false) :
    scAt l = none := by
  unfold scAt
  split
  · simp [startsSC] at h
  · simp [startsSC] at h
  · rfl

theorem startsSC_first4 (a b c d : Nat) (t1 t2 : Bytes) :
    startsSC (a :: b :: c :: d :: t1) = startsSC (a :: b :: c :: d :: t2) := by
  rcases a with _ | a <;> rcases b with _ | b <;>
    rcases c with _ | _ | c <;> rcases d with _ | _ | d <;> rfl

theorem startsSC_junction : ∀ (u : Bytes), hasSC u = false → u ≠ [] →
    ∀ v : Bytes, startsSC (u ++ 0 :: 0 :: 0 :: 1 :: v) = false
  | [], _, hne, _ => absurd rfl hne
  | [a], _, _, v => by rcases a with _ | a <;> rfl
  | [a, b], _, _, v => by
    rcases a with _ | a <;> rcases b with _ | b <;> rfl
  | [a, b, c], h, _, v => by
    have h1 : startsSC [a, b, c] = false := by
      rw [hasSC] at h
      exact (Bool.or_eq_false_iff.mp h).1
    rcases a with _ | a <;> rcases b with _ | b <;>
      rcases c with _ | _ | c <;> first
      | rfl
      | (simp [startsSC] at h1)
  | a :: b :: c :: d :: t, h, _, v => by
    have h1 : startsSC (a :: b :: c :: d :: t) = false := by
      rw [hasSC] at h
      exact (Bool.or_eq_false_iff.mp h).1
    calc startsSC ((a :: b :: c :: d :: t) ++ 0 :: 0 :: 0 :: 1 :: v)
        = startsSC (a :: b :: c :: d :: (t ++ 0 :: 0 :: 0 :: 1 :: v)) := by
          simp
      _ = startsSC (a :: b :: c :: d :: t) := startsSC_first4 a b c d _ t
      _ = false := h1

theorem findSC_none_of_noSC {u : Bytes} (h : hasSC u = false) :
    findSC u = none := by
  induction u with
  | nil => rfl
  | cons b t ih =>
    rw [hasSC] at h
    obtain ⟨h1, h2⟩ := Bool.or_eq_false_iff.mp h
    rw [findSC, scAt_none_of_not_startsSC h1, ih h2]
    rfl

theorem findSC_junction : ∀ (u : Bytes), hasSC u = false →
    ∀ (v : Bytes), v ≠ [] →
    findSC (u ++ 0 :: 0 :: 0 :: 1 :: v) = some (u.length, 4)
  | [], _, v, hv => by
    match v with
    | x :: t => rfl
  | b :: t, h, v, hv => by
    rw [hasSC] at h
    obtain ⟨h1, h2⟩ := Bool.or_eq_false_iff.mp h
    have hj : startsSC ((b :: t) ++ 0 :: 0 :: 0 :: 1 :: v) = false :=
      startsSC_junction (b :: t) (by rw [hasSC]; simp [h1, h2]) (by simp) v
    rw [List.cons_append, findSC,
      scAt_none_of_not_startsSC (by simpa using hj),
      findSC_junction t h2 v hv]
    rfl

theorem parseNalusLoop_none (fuel : Nat) (s : Bytes) (acc : List NaluUnit)
    (hf : findSC s = none) :
    parseNalusLoop (fuel + 1) s true acc = acc ++ [⟨s, true⟩] := by
  rw [parseNalusLoop]
  by_cases h3 : 3 < s.length
  · rw [if_pos h3, hf]
    rfl
  · rw [if_neg h3]
    rfl

theorem parseNalusLoop_step (fuel : Nat) (s : Bytes) (acc : List NaluUnit)
    (i scLen : Nat) (h3 : 3 < s.length) (hf : findSC s = some (i, scLen)) :
    parseNalusLoop (fuel + 1) s true acc =
      parseNalusLoop fuel (s.drop (i + scLen)) true
        (acc ++ [⟨s.take i, true⟩]) := by
  rw [parseNalusLoop, if_pos h3, hf]
  rfl

theorem parseNalusLoop_first (fuel : Nat) (s : Bytes) (acc : List NaluUnit)
    (i scLen : Nat) (h3 : 3 < s.length) (hf : findSC s = some (i, scLen)) :
    parseNalusLoop (fuel + 1) s false acc =
      parseNalusLoop fuel (s.drop (i + scLen)) true acc := by
  rw [parseNalusLoop, if_pos h3, hf]
  rfl

theorem parseNalusLoop_concat :
    ∀ (ns : List Bytes) (n : Bytes) (acc : List NaluUnit) (fuel : Nat),
    n ≠ [] → hasSC n = false →
    (∀ m ∈ ns, m ≠ [] ∧ hasSC m = false) →
    (n ++ annexB ns).length + 1 ≤ fuel →
    parseNalusLoop fuel (n ++ annexB ns) true acc =
      acc ++ (n :: ns).map fun m => ⟨m, true⟩
  | [], n, acc, fuel, hn, hsc, _, hfuel => by
    match fuel, hfuel with
    | fuel + 1, _ =>
      rw [show annexB [] = [] from rfl, List.append_nil,
        parseNalusLoop_none fuel n acc (findSC_none_of_noSC hsc)]
      rfl
  | n2 :: rest, n, acc, fuel, hn, hsc, hns, hfuel => by
    have hr : n ++ annexB (n2 :: rest) =
        n ++ 0 :: 0 :: 0 :: 1 :: (n2 ++ annexB rest) := by
      rw [annexB_cons]
    have hn2 : n2 ≠ [] := (hns n2 (by simp)).1
    have hv : n2 ++ annexB rest ≠ [] := by
      cases n2
      · exact absurd rfl hn2
      · simp
    have hlen : (n ++ annexB (n2 :: rest)).length =
        n.length + 4 + (n2 ++ annexB rest).length := by
      rw [hr]
      simp
      omega
    match fuel, hfuel with
    | fuel + 1, hfuel =>
      rw [parseNalusLoop_step fuel _ acc n.length 4 (by omega)
        (by rw [hr]; exact findSC_junction n hsc _ hv)]
      have htake : (n ++ annexB (n2 :: rest)).take n.length = n := by
        rw [hr]
        exact List.take_left _ _
      have hdrop : (n ++ annexB (n2 :: rest)).drop (n.length + 4) =
          n2 ++ annexB rest := by
        rw [hr, ← List.drop_drop, List.drop_left]
        rfl
      rw [htake, hdrop]
      have hrec := parseNalusLoop_concat rest n2 (acc ++ [⟨n, true⟩]) fuel
        hn2 (hns n2 (by simp)).2 (fun m hm => hns m (by simp [hm]))
        (by omega)
      rw [hrec]
      simp

theorem parseNalus_concat (ns : List Bytes)
    (h : ∀ n ∈ ns, n ≠ [] ∧ hasSC n = false) (hne : ns ≠ []) :
    parseNalus (annexB ns) = ns.map fun m => ⟨m, true⟩ := by
  match ns, hne with
  | n :: rest, _ =>
    have hn : n ≠ [] := (h n (by simp)).1
    have hv : n ++ annexB rest ≠ [] := by
      cases n
      · exact absurd rfl hn
      · simp
    have hlen : (annexB (n :: rest)).length =
        4 + (n ++ annexB rest).length := by
      rw [annexB_cons]
      simp
      omega
    rw [parseNalus,
      parseNalusLoop_first ((annexB (n :: rest)).length) _ [] 0 4
        (by omega)
        (by rw [annexB_cons]
            exact findSC_junction [] rfl _ hv)]
    have hdrop : (annexB (n :: rest)).drop (0 + 4) =
        n ++ annexB rest := by
      rw [annexB_cons]
      rfl
    rw [hdrop,
      parseNalusLoop_concat rest n [] ((annexB (n :: rest)).length)
        hn (h n (by simp)).2 (fun m hm => h m (by simp [hm]))
        (by omega)]
    rfl


theorem rxFold_norm (pt : Nat) (st : FrameAsm) (q : RtpPacket)
    (qs : List RtpPacket) (h1 : st.frameInProgress = false)
    (h2 : st.seqInitialized = false) (hd : q.bytes.drop 12 ≠ []) :
    rxFold pt st (q :: qs) =
      rxFold pt { st with frameTs := q.timestamp, frameInProgress := true }
        (q :: qs) := by
  rw [rxFold_cons, rxFold_cons]
  congr 1
  rw [rxStep, rxStep, lossCheck_benign st q.seq (Or.inl h2),
    lossCheck_benign { st with
      frameTs := q.timestamp, frameInProgress := true } q.seq (Or.inl h2),
    pvp_norm { st with seqInitialized := true, lastSeq := q.seq }
      (q.bytes.drop 12) q.timestamp q.marker pt h1 hd]

theorem setLastMarker_ne_nil : ∀ (l : List RtpPacket), l ≠ [] →
    setLastMarker l ≠ []
  | [x], _ => by simp [setLastMarker]
  | x :: y :: r, _ => by simp [setLastMarker]

theorem annexB_ne_nil (ns : List Bytes) (hne : ns ≠ []) :
    annexB ns ≠ [] := by
  match ns, hne with
  | n :: rest, _ =>
    rw [annexB_cons]
    simp

theorem tsconv_90 (pts : Nat) (hpts : pts * 90 < 2 ^ 32) :
    convertToRtpTimestamp pts 90000 = pts * 90 := by
  have h0 : pts * 90000 = pts * 90 * 1000 := by ring
  have h1 : pts * 90 * 1000 < 2 ^ 64 :=
    calc pts * 90 * 1000 < 2 ^ 32 * 1000 :=
          (Nat.mul_lt_mul_right (by norm_num)).mpr hpts
      _ ≤ 2 ^ 64 := by norm_num
  rw [convertToRtpTimestamp, h0, Nat.mod_eq_of_lt h1,
    Nat.mul_div_cancel _ (by norm_num : (0 : Nat) < 1000),
    Nat.mod_eq_of_lt hpts]

theorem emitFrame_emitted (st : FrameAsm) (ts : Nat)
    (h : ¬ st.frameBuffer = []) :
    (emitFrame st ts).emitted = st.emitted ++
      [⟨st.codec, if st.frameIsIdr then .idr else .p, st.frameBuffer,
        ts / 90, ts / 90, st.width, st.height, st.fps⟩] := by
  rw [emitFrame, if_neg h]

theorem roundtrip_h264 (p : Packer) (f : VideoFrame) (ns : List Bytes)
    (hdata : f.data = annexB ns) (hne : ns ≠ [])
    (hwf : ∀ n ∈ ns, wfNaluH264 n)
    (hmtu : ∀ n ∈ ns.dropLast, n.length ≤ p.mtu)
    (hm4 : 4 ≤ p.mtu) (hm64 : p.mtu < 2 ^ 64)
    (hppt : p.payloadType = 96) (hpseq : p.seq < 65536)
    (hcr : p.clockRate = 90000) (hpts : f.pts * 90 < 2 ^ 32) :
    ∃ fr : VideoFrame,
      (feed (freshReceiver .h264)
        ((h264PackFrame p f).1.map wireBytes)).asm.emitted = [fr] ∧
      fr.data = f.data ∧
      (fr.ftype = .idr ↔ ∃ n ∈ ns, n.getD 0 0 % 32 = 5) ∧
      fr.pts = f.pts := by
  have hts90 : convertToRtpTimestamp f.pts p.clockRate = f.pts * 90 := by
    rw [hcr]
    exact tsconv_90 f.pts hpts
  simp only [h264PackFrame, hdata, hts90]
  rw [parseNalus_concat ns
    (fun n hn => ⟨(hwf n hn).1, (hwf n hn).2.1⟩) hne]
  obtain ⟨hstream, -⟩ := packNalusH264_stream (f.pts * 90) ns p hwf hppt
    hpseq (by omega)
  have hstream2 := wfStream_setLastMarker (f.pts * 90) p.ssrc _ p.seq hstream
  rw [feed_fresh_asm .h264 (f.pts * 90) p.ssrc _ p.seq hstream2 hpts]
  have hpkne : setLastMarker (packNalusH264 p (f.pts * 90)
      (ns.map fun m => (⟨m, true⟩ : NaluUnit))).1 ≠ [] :=
    setLastMarker_ne_nil _ (packNalusH264_map_ne p (f.pts * 90) ns hne hwf
      (by omega))
  obtain ⟨q, rest, hqr⟩ : ∃ q rest, setLastMarker (packNalusH264 p
      (f.pts * 90) (ns.map fun m => (⟨m, true⟩ : NaluUnit))).1 =
      q :: rest := by
    match hx : setLastMarker (packNalusH264 p (f.pts * 90)
        (ns.map fun m => (⟨m, true⟩ : NaluUnit))).1, hpkne with
    | y :: r, _ => exact ⟨y, r, rfl⟩
  rw [hqr] at hstream2
  obtain ⟨hq1, -, hq3, ⟨pl, hpl, hqb⟩, -⟩ := hstream2
  rw [hqr, rxFold_norm 96 _ q rest rfl rfl
    (by rw [hqb, drop12_header]; exact hpl), hq3, ← hqr]
  obtain ⟨L, hfold⟩ := rxFold_packNalus_h264 ns p
    { (freshReceiver .h264).asm with
      frameTs := f.pts * 90
      frameInProgress := true } (f.pts * 90) hwf hmtu (by omega) hm64 hppt
    hpseq (Or.inl rfl) rfl rfl rfl rfl hne
  rw [hfold]
  have hbne : ([] : Bytes) ++ annexB ns ≠ [] := by
    rw [List.nil_append]
    exact annexB_ne_nil ns hne
  refine ⟨⟨Codec.h264,
    if (false || ns.any fun n => decide (n.getD 0 0 % 32 = 5)) = true
      then FType.idr else FType.p,
    ([] : Bytes) ++ annexB ns, f.pts * 90 / 90, f.pts * 90 / 90, 1920, 1080,
    30⟩, ?_, ?_, ?_, ?_⟩
  · rw [emitFrame_emitted]
    · rfl
    · exact hbne
  · show ([] : Bytes) ++ annexB ns = annexB ns
    rw [List.nil_append]
  · show (if (false || ns.any fun n => decide (n.getD 0 0 % 32 = 5)) = true
        then FType.idr else FType.p) = FType.idr ↔ _
    rw [Bool.false_or]
    by_cases hany : (ns.any fun n => decide (n.getD 0 0 % 32 = 5)) = true
    · rw [if_pos hany]
      simp only [List.any_eq_true, decide_eq_true_eq] at hany
      simpa using hany
    · rw [if_neg hany]
      simp only [List.any_eq_true, decide_eq_true_eq] at hany
      constructor
      · intro hx
        cases hx
      · intro hx
        exact absurd hx hany
  · show f.pts * 90 / 90 = f.pts
    omega

theorem roundtrip_h265 (p : Packer) (f : VideoFrame) (ns : List Bytes)
    (hdata : f.data = annexB ns) (hne : ns ≠ [])
    (hwf : ∀ n ∈ ns, wfNaluH265 n)
    (hby : ∀ n ∈ ns, ∀ b ∈ n, b < 256)
    (hmtu : ∀ n ∈ ns.dropLast, n.length ≤ p.mtu)
    (hm4 : 4 ≤ p.mtu) (hm64 : p.mtu < 2 ^ 64)
    (hppt : p.payloadType = 96) (hpseq : p.seq < 65536)
    (hcr : p.clockRate = 90000) (hpts : f.pts * 90 < 2 ^ 32) :
    ∃ fr : VideoFrame,
      (feed (freshReceiver .h265)
        ((h265PackFrame p f).1.map wireBytes)).asm.emitted = [fr] ∧
      fr.data = f.data ∧
      (fr.ftype = .idr ↔ ∃ n ∈ ns, isH265Irap (n.getD 0 0 / 2 % 64) = true) ∧
      fr.pts = f.pts := by
  have hts90 : convertToRtpTimestamp f.pts p.clockRate = f.pts * 90 := by
    rw [hcr]
    exact tsconv_90 f.pts hpts
  simp only [h265PackFrame, hdata, hts90]
  rw [parseNalus_concat ns
    (fun n hn => ⟨List.ne_nil_of_length_pos
      (Nat.lt_of_lt_of_le (by norm_num) (hwf n hn).1),
      (hwf n hn).2.1⟩) hne]
  obtain ⟨hstream, -⟩ := packNalusH265_stream (f.pts * 90) ns p hwf hppt
    hpseq hm4
  have hstream2 := wfStream_setLastMarker (f.pts * 90) p.ssrc _ p.seq hstream
  rw [feed_fresh_asm .h265 (f.pts * 90) p.ssrc _ p.seq hstream2 hpts]
  have hpkne : setLastMarker (packNalusH265 p (f.pts * 90)
      (ns.map fun m => (⟨m, true⟩ : NaluUnit))).1 ≠ [] :=
    setLastMarker_ne_nil _ (packNalusH265_map_ne p (f.pts * 90) ns hne hwf
      hm4)
  obtain ⟨q, rest, hqr⟩ : ∃ q rest, setLastMarker (packNalusH265 p
      (f.pts * 90) (ns.map fun m => (⟨m, true⟩ : NaluUnit))).1 =
      q :: rest := by
    match hx : setLastMarker (packNalusH265 p (f.pts * 90)
        (ns.map fun m => (⟨m, true⟩ : NaluUnit))).1, hpkne with
    | y :: r, _ => exact ⟨y, r, rfl⟩
  rw [hqr] at hstream2
  obtain ⟨hq1, -, hq3, ⟨pl, hpl, hqb⟩, -⟩ := hstream2
  rw [hqr, rxFold_norm 96 _ q rest rfl rfl
    (by rw [hqb, drop12_header]; exact hpl), hq3, ← hqr]
  obtain ⟨L, off, hfold⟩ := rxFold_packNalus_h265 ns p
    { (freshReceiver .h265).asm with
      frameTs := f.pts * 90
      frameInProgress := true } (f.pts * 90) hwf hby hmtu hm4 hm64 hppt
    hpseq (Or.inl rfl) rfl rfl rfl rfl rfl hne
  rw [hfold]
  have hbne : ([] : Bytes) ++ annexB ns ≠ [] := by
    rw [List.nil_append]
    exact annexB_ne_nil ns hne
  refine ⟨⟨Codec.h265,
    if (false || ns.any fun n => isH265Irap (n.getD 0 0 / 2 % 64)) = true
      then FType.idr else FType.p,
    ([] : Bytes) ++ annexB ns, f.pts * 90 / 90, f.pts * 90 / 90, 1920, 1080,
    30⟩, ?_, ?_, ?_, ?_⟩
  · rw [emitFrame_emitted]
    · rfl
    · exact hbne
  · show ([] : Bytes) ++ annexB ns = annexB ns
    rw [List.nil_append]
  · show (if (false || ns.any fun n => isH265Irap (n.getD 0 0 / 2 % 64)) =
          true then FType.idr else FType.p) = FType.idr ↔ _
    rw [Bool.false_or]
    by_cases hany : (ns.any fun n => isH265Irap (n.getD 0 0 / 2 % 64)) = true
    · rw [if_pos hany]
      simp only [List.any_eq_true] at hany
      simpa using hany
    · rw [if_neg hany]
      simp only [List.any_eq_true] at hany
      constructor
      · intro hx
        cases hx
      · intro hx
        exact absurd hx hany
  · show f.pts * 90 / 90 = f.pts
    omega

/-- The virtual dispatch `RtpPacker::packFrame`: the server installs an
`H264RtpPacker` or `H265RtpPacker` according to the stream codec. -/
def packFrame (c : Codec) (p : Packer) (f : VideoFrame) :
    List RtpPacket × Packer :=
  match c with
  | .h264 => h264PackFrame p f
  | .h265 => h265PackFrame p f

/-- A well-formed NALU for codec `c`: octets, no embedded start code, a
single-NALU payload type (forbidden-zero bit clear; H.264 type 1..23,
H.265 type not 48/49/50), and for H.265 a two-byte header. -/
@[reducible] def wfNalu (c : Codec) (n : Bytes) : Prop :=
  match c with
  | .h264 => wfNaluH264 n ∧ ∀ b ∈ n, b < 256
  | .h265 => wfNaluH265 n ∧ ∀ b ∈ n, b < 256

/-- Whether the depacketizer classifies NALU `n` as an IDR/IRAP NALU
(`nal_type == 5` for H.264, `isH265Irap` for H.265). -/
def naluIsIdr (c : Codec) (n : Bytes) : Bool :=
  match c with
  | .h264 => decide (n.getD 0 0 % 32 = 5)
  | .h265 => isH265Irap (n.getD 0 0 / 2 % 64)

/-- C1 (amended): for a frame whose data is an Annex-B sequence of
well-formed NALUs (all but the last no longer than the MTU), feeding the
RTP packets produced by the packetizer — serialised with the marker bit
written into the wire bytes — in emission order into a fresh depacketizer
of the same codec emits exactly one frame with the same data, the IDR
classification the depacketizer derives from the NALU types, and the
same pts whenever `pts * 90` fits in 32 bits. -/
theorem claim_C1 (c : Codec) (p : Packer) (f : VideoFrame) (ns : List Bytes)
    (hdata : f.data = annexB ns) (hne : ns ≠ [])
    (hwf : ∀ n ∈ ns, wfNalu c n)
    (hmtu : ∀ n ∈ ns.dropLast, n.length ≤ p.mtu)
    (hm4 : 4 ≤ p.mtu) (hm64 : p.mtu < 2 ^ 64)
    (hppt : p.payloadType = 96) (hpseq : p.seq < 65536)
    (hcr : p.clockRate = 90000) (hpts : f.pts * 90 < 2 ^ 32)
    (hidr : f.ftype = .idr ↔ ∃ n ∈ ns, naluIsIdr c n = true) :
    ∃ fr : VideoFrame,
      (feed (freshReceiver c)
        ((packFrame c p f).1.map wireBytes)).asm.emitted = [fr] ∧
      fr.data = f.data ∧
      (fr.ftype = .idr ↔ f.ftype = .idr) ∧
      fr.pts = f.pts := by
  cases c with
  | h264 =>
    obtain ⟨fr, h1, h2, h3, h4⟩ := roundtrip_h264 p f ns hdata hne
      (fun n hn => (hwf n hn).1) hmtu hm4 hm64 hppt hpseq hcr hpts
    refine ⟨fr, h1, h2, ?_, h4⟩
    rw [h3, hidr]
    simp [naluIsIdr]
  | h265 =>
    obtain ⟨fr, h1, h2, h3, h4⟩ := roundtrip_h265 p f ns hdata hne
      (fun n hn => (hwf n hn).1) (fun n hn => (hwf n hn).2) hmtu hm4 hm64
      hppt hpseq hcr hpts
    refine ⟨fr, h1, h2, ?_, h4⟩
    rw [h3, hidr]
    simp [naluIsIdr]

/-- C1 (counterexample to the original claim): the packets that
`packFrame` returns carry the marker only in the `RtpPacket.marker`
field, never in the serialised bytes (`rtp_packer.cpp` writes
`data[1] = payload_type`), and the server transmits `packet.data`
verbatim; feeding those wire bytes of a one-NALU IDR frame into a fresh
depacketizer emits no frame at all, because the end-of-frame marker is
never seen. -/
theorem claim_C1_counterexample :
    (packFrame .h264 {} ⟨.h264, .idr, [0, 0, 0, 1, 101, 136],
        10, 10, 1920, 1080, 30⟩).1 ≠ [] ∧
    (feed (freshReceiver .h264)
      ((packFrame .h264 {} ⟨.h264, .idr, [0, 0, 0, 1, 101, 136],
          10, 10, 1920, 1080, 30⟩).1.map
        (fun q => q.bytes))).asm.emitted = [] := by
  decide

/-- Witness for C1 at a concrete one-NALU IDR frame. -/
theorem claim_C1_witness :
    ∃ fr : VideoFrame,
      (feed (freshReceiver .h264)
        ((packFrame .h264 {} ⟨.h264, .idr, [0, 0, 0, 1, 101, 136],
            10, 10, 1920, 1080, 30⟩).1.map wireBytes)).asm.emitted = [fr] ∧
      fr.data = [0, 0, 0, 1, 101, 136] ∧
      (fr.ftype = .idr ↔ (FType.idr : FType) = .idr) ∧
      fr.pts = 10 :=
  claim_C1 .h264 {} ⟨.h264, .idr, [0, 0, 0, 1, 101, 136],
      10, 10, 1920, 1080, 30⟩ [[101, 136]]
    (by decide) (by decide) (by decide) (by decide) (by decide) (by decide)
    (by decide) (by decide) (by decide) (by decide) (by decide)

end RtspSdk
